import Mathlib

/-!
Verification of the Synthtax core (parser/serializer, render engine, audio
operations library) against its natural-language specification.

The Python sources are shallowly embedded:
* strings are `List Char` (ASCII character classes, as in the source regexes);
* Python `int` is `Nat`/`Int`; Python float literals are modelled as exact
  decimal rationals (`ℚ`), and Python's `repr`-based float formatting is
  modelled by an exact decimal formatter with the same contract
  (`float(repr(x)) == x` becomes `pyFloatOfChars (ratChars q) = some q`);
* raised exceptions become `Except`/`Option` error values;
* pydub `AudioSegment`s are modelled as mono 16-bit sample lists tagged with a
  frame rate, with pydub's millisecond arithmetic reproduced exactly over `ℚ`.
-/

/-! ### Python character classes (ASCII fragment of `\s`, `\w`, `\d`) -/

/-- ASCII whitespace accepted by Python `\s` and `str.strip`. -/
def isWS (c : Char) : Bool :=
  c = ' ' || c = '\t' || c = '\n' || c = '\r' || c = '\x0b' || c = '\x0c'

/-- ASCII word character, Python regex `\w`. -/
def isWordC (c : Char) : Bool :=
  ('a' ≤ c && c ≤ 'z') || ('A' ≤ c && c ≤ 'Z') || ('0' ≤ c && c ≤ '9') || c = '_'

/-- ASCII digit, Python regex `\d`. -/
def isDigitC (c : Char) : Bool := '0' ≤ c && c ≤ '9'

/-- Character class `[0-9.]` used for float literals. -/
def isFloatC (c : Char) : Bool := isDigitC c || c = '.'

/-- Drop trailing characters satisfying `p`. -/
def dropEnd (p : Char → Bool) (l : List Char) : List Char :=
  (l.reverse.dropWhile p).reverse

/-- Python `str.strip()`. -/
def stripL (l : List Char) : List Char := dropEnd isWS (l.dropWhile isWS)

/-- Python `str.splitlines()` on the common separators, with `\r\n` counted
once.  (The exotic separators `\x1c`–`\x1e`, `\x85`, ` `, ` ` are
outside the modelled character range.) -/
def splitLinesGo (cur : List Char) : List Char → List (List Char)
  | [] => [cur.reverse]
  | '\r' :: '\n' :: rest => cur.reverse :: splitLinesGo [] rest
  | '\r' :: rest => cur.reverse :: splitLinesGo [] rest
  | '\n' :: rest => cur.reverse :: splitLinesGo [] rest
  | c :: rest => splitLinesGo (c :: cur) rest

/-! ### Deterministic matchers for the concrete regexes of `parser.py`.

Every regex in `parser.py` is a concatenation of literals and the greedy
one-or-more classes `\w+`, `\d+`, `[0-9.]+`, `[^"]+`, each followed by a
character outside its own class, so greedy maximal munch is exact and no
backtracking is needed. -/

/-- Consume an exact literal. -/
def litM : List Char → List Char → Option (List Char)
  | [], l => some l
  | _ :: _, [] => none
  | p :: ps, c :: cs => if c = p then litM ps cs else none

/-- Regex `\s+`: at least one whitespace character, consumed greedily. -/
def ws1 (l : List Char) : Option (List Char) :=
  match l with
  | c :: r => if isWS c then some (r.dropWhile isWS) else none
  | [] => none

/-- Regex `\s*`. -/
def ws0 (l : List Char) : List Char := l.dropWhile isWS

/-- Regex `(\w+)`: a nonempty greedy run of word characters. -/
def wordTok (l : List Char) : Option (List Char × List Char) :=
  let t := l.takeWhile isWordC
  if t.isEmpty then none else some (t, l.dropWhile isWordC)

/-- Regex `(\d+)`. -/
def digitsTok (l : List Char) : Option (List Char × List Char) :=
  let t := l.takeWhile isDigitC
  if t.isEmpty then none else some (t, l.dropWhile isDigitC)

/-- Regex `([^"]+)`. -/
def quotTok (l : List Char) : Option (List Char × List Char) :=
  let t := l.takeWhile (fun c => !(c = '"'))
  if t.isEmpty then none else some (t, l.dropWhile (fun c => !(c = '"')))

/-! ### Decimal numerals: Python `int(s)`, and formatting -/

/-- Python `int` applied to a digit string. -/
def natOfDigits (l : List Char) : Nat :=
  l.foldl (fun a c => a * 10 + (c.toNat - '0'.toNat)) 0

/-- The decimal digit character for `n < 10`. -/
def digitCharOf (n : Nat) : Char := Char.ofNat ('0'.toNat + n)

/-- Fuel-driven decimal printer (fuel `n + 1` always suffices). -/
def natToCharsAux : Nat → Nat → List Char → List Char
  | 0, _, acc => acc
  | fuel + 1, n, acc =>
    if n < 10 then digitCharOf n :: acc
    else natToCharsAux fuel (n / 10) (digitCharOf (n % 10) :: acc)

/-- Decimal representation of a natural number, as Python `str` produces it. -/
def natToChars (n : Nat) : List Char := natToCharsAux (n + 1) n []

/-- Decimal representation of an integer, as Python `str` produces it. -/
def intToChars (i : Int) : List Char :=
  if i < 0 then '-' :: natToChars i.natAbs else natToChars i.toNat

/-! ### Python `float` on regex-captured tokens.

A token captured by `-?[0-9.]+` (or `[0-9.]+`) converts iff it has at least
one digit and at most one dot; the value is the exact decimal it denotes. -/

/-- Exact value of the decimal `ip.fp`. -/
def decValue (ip fp : List Char) : ℚ :=
  (natOfDigits ip : ℚ) + (natOfDigits fp : ℚ) / (10 : ℚ) ^ fp.length

/-- Python `float` on an unsigned `[0-9.]+` token. -/
def pyFloatBody (l : List Char) : Option ℚ :=
  let ip := l.takeWhile isDigitC
  match l.dropWhile isDigitC with
  | [] => if ip.isEmpty then none else some (natOfDigits ip : ℚ)
  | c :: r2 =>
    if c = '.' then
      let fp := r2.takeWhile isDigitC
      if (r2.dropWhile isDigitC).isEmpty then
        if ip.isEmpty && fp.isEmpty then none else some (decValue ip fp)
      else none
    else none

/-- Python `float` on a `-?[0-9.]+` token. -/
def pyFloatOfChars (l : List Char) : Option ℚ :=
  match l with
  | c :: r => if c = '-' then (pyFloatBody r).map (fun q => -q) else pyFloatBody (c :: r)
  | [] => pyFloatBody []

/-! ### The command data model (`parser.py` command dictionaries) -/

/-- One parsed Synthtax command, one case per verb that `parse` can emit,
carrying exactly the fields the corresponding dictionary carries. -/
inductive Cmd where
  | set (bpm : Option Nat) (key : Option String)
  | load (track file : String)
  | loop (track : String) (bars : Nat)
  | gain (track : String) (db : Int)
  | fadeIn (track : String) (seconds : Nat)
  | fadeOut (track : String) (seconds : Nat)
  | slice (track : String) (start duration : Nat)
  | reverse (track : String)
  | pan (track : String) (amount : ℚ)
  | normalize (track : String) (headroom : Option ℚ)
  | reverb (track : String) (amount : ℚ)
  | exportCmd (file : String)
  deriving DecidableEq

/-- Errors raised by `parse`: the `Invalid <verb> syntax: <line>` ValueError,
the `Unknown command: <line>` ValueError, and the ValueError `float` raises
on a structurally matched but unconvertible `[0-9.]+` token. -/
inductive PErr where
  | syntaxErr (verb : String) (line : String)
  | unknownCmd (line : String)
  | badFloat (token : String)
  deriving DecidableEq

/-! ### The per-verb regex matchers of `parse` -/

/-- Regex `bpm\s*=\s*(\d+)` tried at one position. -/
def bpmAt (l : List Char) : Option Nat :=
  (litM "bpm".data l).bind fun r1 =>
  (litM "=".data (ws0 r1)).bind fun r2 =>
  (digitsTok (ws0 r2)).map fun dr => natOfDigits dr.1

/-- Leftmost match of `re.search(r'bpm\s*=\s*(\d+)', line)`. -/
def searchBpm : List Char → Option Nat
  | [] => none
  | c :: rest =>
    match bpmAt (c :: rest) with
    | some n => some n
    | none => searchBpm rest

/-- Regex `key\s*=\s*"([^"]+)"` tried at one position. -/
def keyAt (l : List Char) : Option (List Char) :=
  (litM "key".data l).bind fun r1 =>
  (litM "=".data (ws0 r1)).bind fun r2 =>
  (litM "\"".data (ws0 r2)).bind fun r3 =>
  (quotTok r3).bind fun kr =>
  (litM "\"".data kr.2).map fun _ => kr.1

/-- Leftmost match of `re.search(r'key\s*=\s*"([^"]+)"', line)`. -/
def searchKey : List Char → Option (List Char)
  | [] => none
  | c :: rest =>
    match keyAt (c :: rest) with
    | some k => some k
    | none => searchKey rest

/-- Regex `load\s+(\w+)\s+from\s+"([^"]+)"` (matched at the line start,
trailing text ignored, as with `re.match`). -/
def mLoad (l : List Char) : Option (List Char × List Char) :=
  (litM "load".data l).bind fun r1 =>
  (ws1 r1).bind fun r2 =>
  (wordTok r2).bind fun (t, r3) =>
  (ws1 r3).bind fun r4 =>
  (litM "from".data r4).bind fun r5 =>
  (ws1 r5).bind fun r6 =>
  (litM "\"".data r6).bind fun r7 =>
  (quotTok r7).bind fun (f, r8) =>
  (litM "\"".data r8).map fun _ => (t, f)

/-- Regex `loop\(\s*(\w+),\s*bars\s*=\s*(\d+)\s*\)`. -/
def mLoop (l : List Char) : Option (List Char × Nat) :=
  (litM "loop(".data l).bind fun r1 =>
  (wordTok (ws0 r1)).bind fun (t, r2) =>
  (litM ",".data r2).bind fun r3 =>
  (litM "bars".data (ws0 r3)).bind fun r4 =>
  (litM "=".data (ws0 r4)).bind fun r5 =>
  (digitsTok (ws0 r5)).bind fun (ds, r6) =>
  (litM ")".data (ws0 r6)).map fun _ => (t, natOfDigits ds)

/-- Shared tail for `(-?\d+)\s*\)`. -/
def intTailM (l : List Char) : Option Int :=
  match l with
  | c :: r =>
    if c = '-' then
      (digitsTok r).bind fun (ds, r2) =>
      (litM ")".data (ws0 r2)).map fun _ => -(natOfDigits ds : Int)
    else
      (digitsTok (c :: r)).bind fun (ds, r2) =>
      (litM ")".data (ws0 r2)).map fun _ => (natOfDigits ds : Int)
  | [] => none

/-- Regex `gain\(\s*(\w+),\s*(-?\d+)\s*\)`. -/
def mGain (l : List Char) : Option (List Char × Int) :=
  (litM "gain(".data l).bind fun r1 =>
  (wordTok (ws0 r1)).bind fun (t, r2) =>
  (litM ",".data r2).bind fun r3 =>
  (intTailM (ws0 r3)).map fun i => (t, i)

/-- Regex `<verb>\(\s*(\w+),\s*seconds\s*=\s*(\d+)\s*\)` for the fades. -/
def mFade (firstLit : List Char) (l : List Char) : Option (List Char × Nat) :=
  (litM firstLit l).bind fun r1 =>
  (wordTok (ws0 r1)).bind fun (t, r2) =>
  (litM ",".data r2).bind fun r3 =>
  (litM "seconds".data (ws0 r3)).bind fun r4 =>
  (litM "=".data (ws0 r4)).bind fun r5 =>
  (digitsTok (ws0 r5)).bind fun (ds, r6) =>
  (litM ")".data (ws0 r6)).map fun _ => (t, natOfDigits ds)

/-- Regex `slice\(\s*(\w+),\s*start\s*=\s*(\d+),\s*duration\s*=\s*(\d+)\s*\)`. -/
def mSlice (l : List Char) : Option (List Char × Nat × Nat) :=
  (litM "slice(".data l).bind fun r1 =>
  (wordTok (ws0 r1)).bind fun (t, r2) =>
  (litM ",".data r2).bind fun r3 =>
  (litM "start".data (ws0 r3)).bind fun r4 =>
  (litM "=".data (ws0 r4)).bind fun r5 =>
  (digitsTok (ws0 r5)).bind fun (ds, r6) =>
  (litM ",".data r6).bind fun r7 =>
  (litM "duration".data (ws0 r7)).bind fun r8 =>
  (litM "=".data (ws0 r8)).bind fun r9 =>
  (digitsTok (ws0 r9)).bind fun (es, r10) =>
  (litM ")".data (ws0 r10)).map fun _ => (t, natOfDigits ds, natOfDigits es)

/-- Regex `reverse\(\s*(\w+)\s*\)`. -/
def mReverse (l : List Char) : Option (List Char) :=
  (litM "reverse(".data l).bind fun r1 =>
  (wordTok (ws0 r1)).bind fun (t, r2) =>
  (litM ")".data (ws0 r2)).map fun _ => t

/-- Shared tail for a `(-?[0-9.]+)\s*\)` float capture (sign allowed when
`signed` is true); returns the captured token, still unconverted. -/
def floatTailM (signed : Bool) (l : List Char) : Option (List Char) :=
  match l with
  | c :: r =>
    if signed && c = '-' then
      let fs := r.takeWhile isFloatC
      if fs.isEmpty then none else
      (litM ")".data (ws0 (r.dropWhile isFloatC))).map fun _ => '-' :: fs
    else
      let fs := (c :: r).takeWhile isFloatC
      if fs.isEmpty then none else
      (litM ")".data (ws0 ((c :: r).dropWhile isFloatC))).map fun _ => fs
  | [] => none

/-- Regex `pan\(\s*(\w+),\s*amount\s*=\s*(-?[0-9.]+)\s*\)`. -/
def mPan (l : List Char) : Option (List Char × List Char) :=
  (litM "pan(".data l).bind fun r1 =>
  (wordTok (ws0 r1)).bind fun (t, r2) =>
  (litM ",".data r2).bind fun r3 =>
  (litM "amount".data (ws0 r3)).bind fun r4 =>
  (litM "=".data (ws0 r4)).bind fun r5 =>
  (floatTailM true (ws0 r5)).map fun tok => (t, tok)

/-- Regex `normalize\(\s*(\w+),\s*headroom\s*=\s*([0-9.]+)\s*\)` (the optional
group of the source pattern present). -/
def mNormalizeA (l : List Char) : Option (List Char × List Char) :=
  (litM "normalize(".data l).bind fun r1 =>
  (wordTok (ws0 r1)).bind fun (t, r2) =>
  (litM ",".data r2).bind fun r3 =>
  (litM "headroom".data (ws0 r3)).bind fun r4 =>
  (litM "=".data (ws0 r4)).bind fun r5 =>
  (floatTailM false (ws0 r5)).map fun tok => (t, tok)

/-- Regex `normalize\(\s*(\w+)\s*\)` (the optional group absent). -/
def mNormalizeB (l : List Char) : Option (List Char) :=
  (litM "normalize(".data l).bind fun r1 =>
  (wordTok (ws0 r1)).bind fun (t, r2) =>
  (litM ")".data (ws0 r2)).map fun _ => t

/-- Regex `reverb\(\s*(\w+),\s*amount\s*=\s*([0-9.]+)\s*\)`. -/
def mReverb (l : List Char) : Option (List Char × List Char) :=
  (litM "reverb(".data l).bind fun r1 =>
  (wordTok (ws0 r1)).bind fun (t, r2) =>
  (litM ",".data r2).bind fun r3 =>
  (litM "amount".data (ws0 r3)).bind fun r4 =>
  (litM "=".data (ws0 r4)).bind fun r5 =>
  (floatTailM false (ws0 r5)).map fun tok => (t, tok)

/-- Regex `export\(\s*"([^"]+)"\s*\)`. -/
def mExport (l : List Char) : Option (List Char) :=
  (litM "export(".data l).bind fun r1 =>
  (litM "\"".data (ws0 r1)).bind fun r2 =>
  (quotTok r2).bind fun (f, r3) =>
  (litM "\"".data r3).bind fun r4 =>
  (litM ")".data (ws0 r4)).map fun _ => f

/-! ### Line dispatch and `parse` -/

/-- Python `str.startswith`, the dispatch test of `parse`'s `elif` chain. -/
def swCh : List Char → List Char → Bool
  | [], _ => true
  | _ :: _, [] => false
  | p :: ps, c :: cs => if c = p then swCh ps cs else false

/-- The leading token of a line: its maximal initial run of word characters
(used to state the error-handling contract of §4.1). -/
def leadingToken (l : List Char) : List Char := l.takeWhile isWordC

/-- The verbs of the Synthtax grammar (§6). -/
def knownVerbs : List String :=
  ["set", "load", "loop", "gain", "fadeIn", "fadeOut", "slice", "reverse",
   "pan", "normalize", "reverb", "beat", "lowPass", "export"]

/-- One iteration of the line loop in `parse`: strip the line, skip blanks and
`#` comments, then dispatch on `startswith` in source order.  `.ok none` is a
skipped line. -/
def parseLine (line : List Char) : Except PErr (Option Cmd) :=
  let s := stripL line
  if s.isEmpty then .ok none
  else if s.head? = some '#' then .ok none
  else if swCh "set(".data s then
    .ok (some (.set (searchBpm s) ((searchKey s).map fun k => (⟨k⟩ : String))))
  else if swCh "load".data s then
    match mLoad s with
    | some (t, f) => .ok (some (.load ⟨t⟩ ⟨f⟩))
    | none => .error (.syntaxErr "load" ⟨s⟩)
  else if swCh "loop".data s then
    match mLoop s with
    | some (t, n) => .ok (some (.loop ⟨t⟩ n))
    | none => .error (.syntaxErr "loop" ⟨s⟩)
  else if swCh "gain".data s then
    match mGain s with
    | some (t, i) => .ok (some (.gain ⟨t⟩ i))
    | none => .error (.syntaxErr "gain" ⟨s⟩)
  else if swCh "fadeIn".data s then
    match mFade "fadeIn(".data s with
    | some (t, n) => .ok (some (.fadeIn ⟨t⟩ n))
    | none => .error (.syntaxErr "fadeIn" ⟨s⟩)
  else if swCh "fadeOut".data s then
    match mFade "fadeOut(".data s with
    | some (t, n) => .ok (some (.fadeOut ⟨t⟩ n))
    | none => .error (.syntaxErr "fadeOut" ⟨s⟩)
  else if swCh "slice".data s then
    match mSlice s with
    | some (t, a, d) => .ok (some (.slice ⟨t⟩ a d))
    | none => .error (.syntaxErr "slice" ⟨s⟩)
  else if swCh "reverse".data s then
    match mReverse s with
    | some t => .ok (some (.reverse ⟨t⟩))
    | none => .error (.syntaxErr "reverse" ⟨s⟩)
  else if swCh "pan".data s then
    match mPan s with
    | some (t, tok) =>
      match pyFloatOfChars tok with
      | some q => .ok (some (.pan ⟨t⟩ q))
      | none => .error (.badFloat ⟨tok⟩)
    | none => .error (.syntaxErr "pan" ⟨s⟩)
  else if swCh "normalize".data s then
    match mNormalizeA s with
    | some (t, tok) =>
      match pyFloatOfChars tok with
      | some q => .ok (some (.normalize ⟨t⟩ (some q)))
      | none => .error (.badFloat ⟨tok⟩)
    | none =>
      match mNormalizeB s with
      | some t => .ok (some (.normalize ⟨t⟩ none))
      | none => .error (.syntaxErr "normalize" ⟨s⟩)
  else if swCh "reverb".data s then
    match mReverb s with
    | some (t, tok) =>
      match pyFloatOfChars tok with
      | some q => .ok (some (.reverb ⟨t⟩ q))
      | none => .error (.badFloat ⟨tok⟩)
    | none => .error (.syntaxErr "reverb" ⟨s⟩)
  else if swCh "export".data s then
    match mExport s with
    | some f => .ok (some (.exportCmd ⟨f⟩))
    | none => .error (.syntaxErr "export" ⟨s⟩)
  else .error (.unknownCmd ⟨s⟩)

/-- The line loop of `parse`: first error wins, skipped lines contribute
nothing. -/
def parseLines : List (List Char) → Except PErr (List Cmd)
  | [] => .ok []
  | l :: rest =>
    match parseLine l with
    | .error e => .error e
    | .ok c =>
      match parseLines rest with
      | .error e => .error e
      | .ok cs =>
        match c with
        | some cmd => .ok (cmd :: cs)
        | none => .ok cs

/-- `parse(text)` from `parser.py`: strip the text, split it into lines,
process each line. -/
def parse (text : String) : Except PErr (List Cmd) :=
  let t := stripL text.data
  if t.isEmpty then .ok [] else parseLines (splitLinesGo [] t)

/-! ### Exact decimal formatting (model of Python float `repr`) -/

/-- Smallest exponent `j` (at most `k + fuel`) with `(q * 10 ^ j).den = 1`,
found by counting up from `k`. -/
def findDenPow (q : ℚ) : Nat → Nat → Nat
  | 0, k => k
  | fuel + 1, k => if (q * 10 ^ k).den = 1 then k else findDenPow q fuel (k + 1)

/-- Number of decimal fraction digits used to format `q`. -/
def ratPow (q : ℚ) : Nat := findDenPow q (q.den + 1) 0

/-- Unsigned exact decimal rendering of a nonnegative rational with a
power-of-ten denominator: at least one integer digit, a dot, at least one
fraction digit — the shape Python float `repr` produces for values in
positional range. -/
def ratBodyAux (k m : Nat) : List Char :=
  let ip := m / 10 ^ k
  let fp := m % 10 ^ k
  let fracDs := natToChars fp
  let frac := if k = 0 then ['0'] else List.replicate (k - fracDs.length) '0' ++ fracDs
  natToChars ip ++ '.' :: frac

def ratBody (q : ℚ) : List Char :=
  ratBodyAux (ratPow q) ((q * 10 ^ ratPow q).num.toNat)

/-- Positional exact decimal rendering with the sign (the branch of Python
float `repr` taken for zero and for magnitudes in `[1e-4, 1e16)`); its
round-trip contract is `pyFloatOfChars (ratChars q) = some q`. -/
def ratChars (q : ℚ) : List Char :=
  if q < 0 then '-' :: ratBody (-q) else ratBody q

/-- Trailing-zero stripping, for the significant digits of a decimal. -/
def dropTrailingZeros (l : List Char) : List Char :=
  (l.reverse.dropWhile fun c => c = '0').reverse

/-- The significant decimal digits of a positive exact decimal: the digits
of `q * 10 ^ ratPow q` with trailing zeros removed. -/
def sciDigits (q : ℚ) : List Char :=
  dropTrailingZeros (natToChars ((q * 10 ^ ratPow q).num.toNat))

/-- The decimal exponent `⌊log10 q⌋` of a positive exact decimal: one less
than the digit count of `q * 10 ^ ratPow q`, shifted back by `ratPow q`. -/
def sciExp (q : ℚ) : Int :=
  ((natToChars ((q * 10 ^ ratPow q).num.toNat)).length : Int) - 1 - ratPow q

/-- The exponent suffix Python float `repr` prints: `e`, a mandatory sign,
and the exponent padded to at least two digits. -/
def expChars (e : Int) : List Char :=
  (if e < 0 then "e-".data else "e+".data) ++
    (let ds := natToChars e.natAbs
     List.replicate (2 - ds.length) '0' ++ ds)

/-- Scientific-notation rendering of a positive exact decimal, as Python
float `repr` shapes it: leading digit, a dot and the remaining digits only
if any, then the exponent suffix. -/
def sciBody (q : ℚ) : List Char :=
  (match sciDigits q with
    | [] => ['0']
    | d :: rest => if rest.isEmpty then [d] else d :: '.' :: rest) ++
    expChars (sciExp q)

/-- Scientific-notation rendering with the sign. -/
def sciChars (q : ℚ) : List Char :=
  if q < 0 then '-' :: sciBody (-q) else sciBody q

/-- Python `str` on a float, which the f-strings of `from_yaml`
interpolate: positional for zero and for magnitudes in `[1e-4, 1e16)`,
scientific notation below and above — where the fraction-token regexes of
`parse` cannot match the result. -/
def pyStr (q : ℚ) : List Char :=
  if q = 0 then ratChars q
  else if |q| < 1 / 10000 ∨ 10 ^ 16 ≤ |q| then sciChars q
  else ratChars q

/-! ### The serializer (`to_yaml` / `from_yaml`).

`yaml.safe_dump` and `yaml.safe_load` are exact mutual inverses on the lists
of flat string/int/float mappings produced here, so the interchange document
is modelled by the command list itself: `to_yaml` is `parse`, and `from_yaml`
is the per-verb emission loop of `parser.py`. -/

/-- The canonical line `from_yaml` writes for one command.  For `set` it
follows the source exactly: absent fields are emitted as Python `None`. -/
def emitCmd : Cmd → List Char
  | .set b k =>
    "set(bpm=".data ++ (match b with | some n => natToChars n | none => "None".data)
      ++ ", key=\"".data
      ++ (match k with | some s => s.data | none => "None".data) ++ "\")".data
  | .load t f => "load ".data ++ t.data ++ " from \"".data ++ f.data ++ "\"".data
  | .loop t n => "loop(".data ++ t.data ++ ", bars=".data ++ natToChars n ++ ")".data
  | .gain t i => "gain(".data ++ t.data ++ ", ".data ++ intToChars i ++ ")".data
  | .fadeIn t n => "fadeIn(".data ++ t.data ++ ", seconds=".data ++ natToChars n ++ ")".data
  | .fadeOut t n => "fadeOut(".data ++ t.data ++ ", seconds=".data ++ natToChars n ++ ")".data
  | .slice t a d =>
    "slice(".data ++ t.data ++ ", start=".data ++ natToChars a
      ++ ", duration=".data ++ natToChars d ++ ")".data
  | .reverse t => "reverse(".data ++ t.data ++ ")".data
  | .pan t q => "pan(".data ++ t.data ++ ", amount=".data ++ pyStr q ++ ")".data
  | .normalize t h =>
    match h with
    | some q => "normalize(".data ++ t.data ++ ", headroom=".data ++ pyStr q ++ ")".data
    | none => "normalize(".data ++ t.data ++ ")".data
  | .reverb t q => "reverb(".data ++ t.data ++ ", amount=".data ++ pyStr q ++ ")".data
  | .exportCmd f => "export(\"".data ++ f.data ++ "\")".data

/-- Python `"\n".join`. -/
def joinLines : List (List Char) → List Char
  | [] => []
  | [l] => l
  | l :: rest => l ++ '\n' :: joinLines rest

/-- `from_yaml` of `parser.py`, on the interchange representation. -/
def from_yaml (cs : List Cmd) : String := ⟨joinLines (cs.map emitCmd)⟩

/-- `to_yaml` of `parser.py`, returning the interchange representation. -/
def to_yaml (text : String) : Except PErr (List Cmd) := parse text

/-- The §4.2 round trip `parse(from_interchange(to_interchange(text)))`. -/
def roundTrip (text : String) : Except PErr (List Cmd) :=
  match to_yaml text with
  | .error e => .error e
  | .ok cs => parse (from_yaml cs)

deriving instance DecidableEq for Except

/-! ### Lemmas: maximal-munch matching -/

theorem takeWhile_app_eq (p : Char → Bool) (t r : List Char)
    (ht : ∀ c ∈ t, p c = true) (hr : ∀ c, r.head? = some c → p c = false) :
    (t ++ r).takeWhile p = t := by
  induction t with
  | nil =>
    cases r with
    | nil => rfl
    | cons c cs => simp [List.takeWhile_cons, hr c rfl]
  | cons a t ih =>
    simp only [List.cons_append, List.takeWhile_cons, ht a (by simp)]
    simpa using ih (fun c hc => ht c (by simp [hc]))

theorem dropWhile_app_eq (p : Char → Bool) (t r : List Char)
    (ht : ∀ c ∈ t, p c = true) (hr : ∀ c, r.head? = some c → p c = false) :
    (t ++ r).dropWhile p = r := by
  induction t with
  | nil =>
    cases r with
    | nil => rfl
    | cons c cs => simp [List.dropWhile_cons, hr c rfl]
  | cons a t ih =>
    simp only [List.cons_append, List.dropWhile_cons, ht a (by simp)]
    simpa using ih (fun c hc => ht c (by simp [hc]))

theorem dropWhile_eq_self (p : Char → Bool) (r : List Char)
    (hr : ∀ c, r.head? = some c → p c = false) : r.dropWhile p = r :=
  dropWhile_app_eq p [] r (by simp) hr

theorem litM_self_app (pat r : List Char) : litM pat (pat ++ r) = some r := by
  induction pat with
  | nil => rfl
  | cons a ps ih => simp [litM, ih]

theorem ws1_cons (c : Char) (r : List Char) (hc : isWS c = true)
    (hr : ∀ d, r.head? = some d → isWS d = false) : ws1 (c :: r) = some r := by
  simp [ws1, hc, dropWhile_eq_self _ _ hr]

theorem ws0_eq_self (r : List Char) (hr : ∀ d, r.head? = some d → isWS d = false) :
    ws0 r = r := dropWhile_eq_self _ _ hr

theorem wordTok_app (t r : List Char) (h1 : t ≠ [])
    (h2 : ∀ c ∈ t, isWordC c = true) (h3 : ∀ c, r.head? = some c → isWordC c = false) :
    wordTok (t ++ r) = some (t, r) := by
  simp [wordTok, takeWhile_app_eq _ _ _ h2 h3, dropWhile_app_eq _ _ _ h2 h3, h1]

theorem digitsTok_app (t r : List Char) (h1 : t ≠ [])
    (h2 : ∀ c ∈ t, isDigitC c = true) (h3 : ∀ c, r.head? = some c → isDigitC c = false) :
    digitsTok (t ++ r) = some (t, r) := by
  simp [digitsTok, takeWhile_app_eq _ _ _ h2 h3, dropWhile_app_eq _ _ _ h2 h3, h1]

theorem quotTok_app (t r : List Char) (h1 : t ≠ [])
    (h2 : ∀ c ∈ t, c ≠ '"') (h3 : ∀ c, r.head? = some c → c = '"') :
    quotTok (t ++ r) = some (t, r) := by
  have h2' : ∀ c ∈ t, (!(c = '"' : Bool)) = true := by
    intro c hc; simpa using h2 c hc
  have h3' : ∀ c, r.head? = some c → (!(c = '"' : Bool)) = false := by
    intro c hc; simpa using h3 c hc
  simp [quotTok, takeWhile_app_eq _ _ _ h2' h3', dropWhile_app_eq _ _ _ h2' h3', h1]

/-! ### Lemmas: stripping and line splitting -/

theorem stripL_eq_self (l : List Char)
    (hh : ∀ c, l.head? = some c → isWS c = false)
    (hl : ∀ c, l.getLast? = some c → isWS c = false) : stripL l = l := by
  unfold stripL dropEnd
  rw [dropWhile_eq_self _ _ hh]
  rw [dropWhile_eq_self _ _ (fun c hc => hl c (by rwa [← List.head?_reverse]))]
  exact List.reverse_reverse l

/-! ### Lemmas: decimal numerals read back -/

theorem natToCharsAux_acc (fuel : Nat) : ∀ (n : Nat) (acc : List Char),
    natToCharsAux fuel n acc = natToCharsAux fuel n [] ++ acc := by
  induction fuel with
  | zero => intro n acc; simp [natToCharsAux]
  | succ fuel ih =>
    intro n acc
    by_cases h : n < 10
    · simp [natToCharsAux, h]
    · simp only [natToCharsAux, if_neg h]
      rw [ih (n / 10) (digitCharOf (n % 10) :: acc), ih (n / 10) [digitCharOf (n % 10)]]
      simp

theorem natToCharsAux_fuel : ∀ (n f1 f2 : Nat), n < f1 → n < f2 →
    natToCharsAux f1 n [] = natToCharsAux f2 n [] := by
  intro n
  induction n using Nat.strong_induction_on with
  | _ n ih =>
    intro f1 f2 h1 h2
    match f1, f2 with
    | g1 + 1, g2 + 1 =>
      by_cases h : n < 10
      · simp [natToCharsAux, h]
      · simp only [natToCharsAux, if_neg h]
        rw [natToCharsAux_acc g1, natToCharsAux_acc g2]
        rw [ih (n / 10) (by omega) g1 g2 (by omega) (by omega)]

theorem natToChars_step {n : Nat} (h : ¬ n < 10) :
    natToChars n = natToChars (n / 10) ++ [digitCharOf (n % 10)] := by
  have h1 : natToChars n = natToCharsAux n (n / 10) [digitCharOf (n % 10)] := by
    show natToCharsAux (n + 1) n [] = _
    rw [show natToCharsAux (n + 1) n [] =
        if n < 10 then [digitCharOf n]
        else natToCharsAux n (n / 10) [digitCharOf (n % 10)] from rfl, if_neg h]
  rw [h1, natToCharsAux_acc, natToCharsAux_fuel (n / 10) n (n / 10 + 1) (by omega) (by omega)]
  rfl

theorem digitCharOf_val {n : Nat} (h : n < 10) : (digitCharOf n).toNat - 48 = n := by
  interval_cases n <;> decide

theorem digitCharOf_digit {n : Nat} (h : n < 10) : isDigitC (digitCharOf n) = true := by
  interval_cases n <;> decide

theorem natOfDigits_append (a b : List Char) :
    natOfDigits (a ++ b) = b.foldl (fun x c => x * 10 + (c.toNat - '0'.toNat)) (natOfDigits a) := by
  simp [natOfDigits, List.foldl_append]

theorem natToChars_spec : ∀ n : Nat,
    natOfDigits (natToChars n) = n ∧ natToChars n ≠ [] ∧
      (∀ c ∈ natToChars n, isDigitC c = true) := by
  intro n
  induction n using Nat.strong_induction_on with
  | _ n ih =>
    by_cases h : n < 10
    · refine ⟨?_, by simp [natToChars, natToCharsAux, h], ?_⟩
      · simp [natToChars, natToCharsAux, h, natOfDigits]
        exact digitCharOf_val h
      · simp [natToChars, natToCharsAux, h, digitCharOf_digit h]
    · obtain ⟨ihv, ihne, ihd⟩ := ih (n / 10) (by omega)
      refine ⟨?_, ?_, ?_⟩
      · rw [natToChars_step h, natOfDigits_append]
        simp [ihv]
        have := digitCharOf_val (Nat.mod_lt n (show 0 < 10 by omega))
        omega
      · rw [natToChars_step h]; simp
      · rw [natToChars_step h]
        intro c hc
        rcases List.mem_append.mp hc with h1 | h2
        · exact ihd c h1
        · simp at h2; subst h2
          exact digitCharOf_digit (Nat.mod_lt n (by omega))

theorem natOfDigits_natToChars (n : Nat) : natOfDigits (natToChars n) = n :=
  (natToChars_spec n).1

theorem natToChars_ne_nil (n : Nat) : natToChars n ≠ [] := (natToChars_spec n).2.1

theorem natToChars_digits (n : Nat) : ∀ c ∈ natToChars n, isDigitC c = true :=
  (natToChars_spec n).2.2

theorem natToChars_len_le : ∀ (n k : Nat), 1 ≤ k → n < 10 ^ k →
    (natToChars n).length ≤ k := by
  intro n
  induction n using Nat.strong_induction_on with
  | _ n ih =>
    intro k hk hn
    by_cases h : n < 10
    · have : natToChars n = [digitCharOf n] := by simp [natToChars, natToCharsAux, h]
      simp [this]; omega
    · have hk2 : 2 ≤ k := by
        by_contra hcon
        have hone : k = 1 := by omega
        subst hone; simp at hn; omega
    -- n / 10 < 10 ^ (k - 1)
      have hpow : (10 : Nat) ^ k = 10 ^ (k - 1) * 10 := by
        have hh : k - 1 + 1 = k := by omega
        conv_lhs => rw [← hh]
        rw [pow_succ]
      have hlt : n / 10 < 10 ^ (k - 1) := by
        rw [hpow] at hn
        omega
      have := ih (n / 10) (by omega) (k - 1) (by omega) hlt
      rw [natToChars_step h]
      simp
      omega

theorem natOfDigits_zeros (z : Nat) (ds : List Char) :
    natOfDigits (List.replicate z '0' ++ ds) = natOfDigits ds := by
  induction z with
  | zero => simp
  | succ z ih =>
    have hz : List.replicate (z + 1) '0' ++ ds = '0' :: (List.replicate z '0' ++ ds) := by
      simp [List.replicate_succ]
    rw [hz]
    show List.foldl _ ((0 * 10) + ('0'.toNat - '0'.toNat)) _ = _
    simpa [natOfDigits] using ih

/-! ### Lemmas: exact decimal formatting round-trips -/

theorem findDenPow_spec (q : ℚ) : ∀ (fuel k : Nat),
    (∃ j, j < fuel ∧ (q * 10 ^ (k + j)).den = 1) →
    (q * 10 ^ findDenPow q fuel k).den = 1 := by
  intro fuel
  induction fuel with
  | zero =>
    intro k h
    obtain ⟨j, hj, _⟩ := h
    omega
  | succ fuel ih =>
    intro k h
    by_cases hk : (q * 10 ^ k).den = 1
    · simpa [findDenPow, hk] using hk
    · simp only [findDenPow, if_neg hk]
      obtain ⟨j, hj, hden⟩ := h
      match j, hden with
      | 0, hden => exact absurd (by simpa using hden) hk
      | j + 1, hden =>
        exact ih (k + 1) ⟨j, by omega, by rwa [show k + 1 + j = k + (j + 1) by omega]⟩

theorem ratPow_spec (q : ℚ) (h : (q * 10 ^ q.den).den = 1) :
    (q * 10 ^ ratPow q).den = 1 :=
  findDenPow_spec q (q.den + 1) 0 ⟨q.den, by omega, by simpa using h⟩

theorem dvd_ten_pow_self {d c : Nat} (hd : d ∣ 10 ^ c) : d ∣ 10 ^ d := by
  have hd0 : d ≠ 0 := by
    rintro rfl
    exact absurd (Nat.eq_zero_of_zero_dvd hd) (pow_ne_zero c (by norm_num))
  have hpw : (10 : Nat) ^ d ≠ 0 := pow_ne_zero d (by norm_num)
  rw [← Nat.factorization_le_iff_dvd hd0 hpw]
  have hle : d.factorization ≤ ((10 : Nat) ^ c).factorization :=
    (Nat.factorization_le_iff_dvd hd0 (pow_ne_zero c (by norm_num))).mpr hd
  intro p
  rcases Nat.eq_zero_or_pos (d.factorization p) with h0 | hpos
  · simp [h0]
  · have h1 : d.factorization p ≤ c * (10 : Nat).factorization p := by
      have := hle p
      rwa [Nat.factorization_pow, Finsupp.smul_apply, smul_eq_mul] at this
    have h2 : 1 ≤ (10 : Nat).factorization p := by
      by_contra hcon
      have hzz : (10 : Nat).factorization p = 0 := by omega
      rw [hzz, Nat.mul_zero] at h1
      omega
    have h3 : d.factorization p < d := Nat.factorization_lt p hd0
    rw [Nat.factorization_pow, Finsupp.smul_apply, smul_eq_mul]
    have h4 : d ≤ d * (10 : Nat).factorization p := Nat.le_mul_of_pos_right d h2
    omega

theorem mul_den_eq_num (q : ℚ) : q * (q.den : ℚ) = (q.num : ℚ) := by
  have hden : (q.den : ℚ) ≠ 0 := by
    exact_mod_cast q.den_nz
  field_simp [Rat.num_div_den q]

theorem wfq_of_exists {q : ℚ} (h : ∃ c, (q * 10 ^ c).den = 1) :
    (q * 10 ^ q.den).den = 1 := by
  obtain ⟨c, hc⟩ := h
  have hz : ((q * 10 ^ c).num : ℚ) = q * 10 ^ c := (Rat.den_eq_one_iff _).mp hc
  set z : ℤ := (q * 10 ^ c).num with hzdef
  have hpow : ((10 : ℚ) ^ c) ≠ 0 := pow_ne_zero c (by norm_num)
  have hq : q = (z : ℚ) / ((10 ^ c : ℤ) : ℚ) := by
    push_cast
    field_simp [hz]
  have hdvd : (q.den : ℤ) ∣ ((10 : ℤ) ^ c) := by
    have := Rat.den_dvd z ((10 : ℤ) ^ c)
    rwa [Rat.divInt_eq_div, ← hq] at this
  have hdvdN : q.den ∣ 10 ^ c := by
    have h10 : ((10 : ℤ) ^ c) = (((10 : Nat) ^ c : Nat) : ℤ) := by push_cast; ring
    rw [h10] at hdvd
    exact_mod_cast hdvd
  obtain ⟨t, ht⟩ := dvd_ten_pow_self hdvdN
  have hcalc : q * 10 ^ q.den = ((q.num * (t : ℤ) : ℤ) : ℚ) := by
    have h1 : ((10 : ℚ) ^ q.den) = ((q.den : ℚ) * (t : ℚ)) := by
      have h2 : (((10 : Nat) ^ q.den : Nat) : ℚ) = ((q.den * t : Nat) : ℚ) := by rw [ht]
      push_cast at h2
      simpa using h2
    rw [h1, ← mul_assoc, mul_den_eq_num]
    push_cast
    ring
  rw [hcalc]
  exact Rat.den_intCast _

theorem pyFloatBody_wf {l : List Char} {q : ℚ} (h : pyFloatBody l = some q) :
    0 ≤ q ∧ ∃ c, (q * 10 ^ c).den = 1 := by
  unfold pyFloatBody at h
  rcases hd : l.dropWhile isDigitC with _ | ⟨c, r2⟩
  · rw [hd] at h
    simp only [] at h
    rcases hip : (l.takeWhile isDigitC).isEmpty with _ | _
    · rw [hip] at h
      simp at h
      refine ⟨by rw [← h]; positivity, 0, ?_⟩
      rw [← h]
      simpa using Rat.den_natCast _
    · rw [hip] at h; simp at h
  · rw [hd] at h
    simp only [] at h
    by_cases hc : c = '.'
    · rw [if_pos hc] at h
      by_cases he : (r2.dropWhile isDigitC).isEmpty
      · rw [if_pos he] at h
        by_cases hboth : ((l.takeWhile isDigitC).isEmpty && (r2.takeWhile isDigitC).isEmpty) = true
        · rw [if_pos hboth] at h; simp at h
        · rw [if_neg hboth] at h
          have hq : q = decValue (l.takeWhile isDigitC) (r2.takeWhile isDigitC) :=
            (Option.some_inj.mp h).symm
          subst hq
          constructor
          · unfold decValue; positivity
          · refine ⟨(r2.takeWhile isDigitC).length, ?_⟩
            have hkey : decValue (l.takeWhile isDigitC) (r2.takeWhile isDigitC) *
                10 ^ (r2.takeWhile isDigitC).length =
                ((natOfDigits (l.takeWhile isDigitC) * 10 ^ (r2.takeWhile isDigitC).length
                  + natOfDigits (r2.takeWhile isDigitC) : Nat) : ℚ) := by
              unfold decValue
              have hp : ((10 : ℚ) ^ (r2.takeWhile isDigitC).length) ≠ 0 :=
                pow_ne_zero _ (by norm_num)
              push_cast
              field_simp
            rw [hkey]
            exact Rat.den_natCast _
      · rw [if_neg he] at h; simp at h
    · rw [if_neg hc] at h; simp at h

theorem pyFloat_wf {l : List Char} {q : ℚ} (h : pyFloatOfChars l = some q) :
    (q * 10 ^ q.den).den = 1 := by
  unfold pyFloatOfChars at h
  rcases l with _ | ⟨c, r⟩
  · exact absurd h (by simp [pyFloatBody])
  · simp only [] at h
    by_cases hc : c = '-'
    · rw [if_pos hc] at h
      rcases hb : pyFloatBody r with _ | q0
      · rw [hb] at h; simp at h
      · rw [hb] at h
        simp at h
        obtain ⟨hge, cc, hcc⟩ := pyFloatBody_wf hb
        apply wfq_of_exists
        refine ⟨cc, ?_⟩
        rw [← h]
        rw [show -q0 * 10 ^ cc = -(q0 * 10 ^ cc) by ring]
        rw [Rat.neg_den]
        exact hcc
    · rw [if_neg hc] at h
      obtain ⟨hge, cc, hcc⟩ := pyFloatBody_wf h
      exact wfq_of_exists ⟨cc, hcc⟩

theorem takeWhile_all (p : Char → Bool) (l : List Char) (h : ∀ c ∈ l, p c = true) :
    l.takeWhile p = l := by
  have := takeWhile_app_eq p l [] h (by simp)
  simpa using this

theorem dropWhile_all (p : Char → Bool) (l : List Char) (h : ∀ c ∈ l, p c = true) :
    l.dropWhile p = [] := by
  have := dropWhile_app_eq p l [] h (by simp)
  simpa using this

theorem digits_are_float {n : Nat} : ∀ c ∈ natToChars n, isFloatC c = true := by
  intro c hc
  have := natToChars_digits n c hc
  simp [isFloatC, this]

theorem ratBodyAux_spec (k m : Nat) :
    pyFloatBody (ratBodyAux k m) = some ((m : ℚ) / 10 ^ k) ∧
      (∀ c ∈ ratBodyAux k m, isFloatC c = true) ∧ ratBodyAux k m ≠ [] := by
  by_cases hk0 : k = 0
  · subst hk0
    have hbody : ratBodyAux 0 m = natToChars m ++ '.' :: ['0'] := by
      unfold ratBodyAux
      simp
    refine ⟨?_, ?_, by rw [hbody]; simp⟩
    · unfold pyFloatBody
      rw [hbody]
      rw [takeWhile_app_eq _ _ _ (natToChars_digits m)
        (by intro c hc; simp at hc; subst hc; decide)]
      rw [dropWhile_app_eq _ _ _ (natToChars_digits m)
        (by intro c hc; simp at hc; subst hc; decide)]
      simp only [if_pos rfl, reduceIte]
      have hipne : (natToChars m).isEmpty = false := by
        simpa [List.isEmpty_iff] using natToChars_ne_nil m
      rw [show (['0'] : List Char).takeWhile isDigitC = ['0'] from by decide]
      rw [show (['0'] : List Char).dropWhile isDigitC = [] from by decide]
      simp [hipne, decValue, natOfDigits_natToChars, natOfDigits]
      show natOfDigits (natToChars m) = m
      exact natOfDigits_natToChars m
    · intro c hc
      rw [hbody] at hc
      rcases List.mem_append.mp hc with h1 | h2
      · exact digits_are_float c h1
      · simp at h2
        rcases h2 with h2 | h2 <;> (subst h2; decide)
  · have hk1 : 1 ≤ k := by omega
    have hfp : m % 10 ^ k < 10 ^ k := Nat.mod_lt m (by positivity)
    have hlen : (natToChars (m % 10 ^ k)).length ≤ k := natToChars_len_le _ k hk1 hfp
    set frac : List Char :=
      List.replicate (k - (natToChars (m % 10 ^ k)).length) '0' ++ natToChars (m % 10 ^ k)
      with hfracdef
    have hbody : ratBodyAux k m = natToChars (m / 10 ^ k) ++ '.' :: frac := by
      simp [ratBodyAux, hk0, hfracdef]
    have hfracdigits : ∀ c ∈ frac, isDigitC c = true := by
      intro c hc
      rcases List.mem_append.mp hc with h1 | h2
      · have : c = '0' := List.eq_of_mem_replicate h1
        subst this; decide
      · exact natToChars_digits _ c h2
    have hfraclen : frac.length = k := by
      rw [hfracdef]
      simp [List.length_replicate]
      omega
    have hfracval : natOfDigits frac = m % 10 ^ k := by
      rw [hfracdef, natOfDigits_zeros, natOfDigits_natToChars]
    refine ⟨?_, ?_, by rw [hbody]; simp⟩
    · unfold pyFloatBody
      rw [hbody]
      rw [takeWhile_app_eq _ _ _ (natToChars_digits _)
        (by intro c hc; simp at hc; subst hc; decide)]
      rw [dropWhile_app_eq _ _ _ (natToChars_digits _)
        (by intro c hc; simp at hc; subst hc; decide)]
      simp only [if_pos rfl, reduceIte]
      have hipne : (natToChars (m / 10 ^ k)).isEmpty = false := by
        simpa [List.isEmpty_iff] using natToChars_ne_nil (m / 10 ^ k)
      rw [takeWhile_all _ _ hfracdigits, dropWhile_all _ _ hfracdigits]
      simp [hipne, decValue, natOfDigits_natToChars, hfracval, hfraclen]
      have hsplit : (10 : ℚ) ^ k * (↑(m / 10 ^ k) : ℚ) + (↑(m % 10 ^ k) : ℚ) = (m : ℚ) := by
        exact_mod_cast congrArg (fun n : Nat => (n : ℚ)) (Nat.div_add_mod m (10 ^ k))
      have hp10 : ((10 : ℚ) ^ k) ≠ 0 := pow_ne_zero k (by norm_num)
      field_simp
      linarith [hsplit]
    · intro c hc
      rw [hbody] at hc
      rcases List.mem_append.mp hc with h1 | h2
      · exact digits_are_float c h1
      · simp at h2
        rcases h2 with h2 | h2
        · subst h2; decide
        · have := hfracdigits c h2
          simp [isFloatC, this]

theorem ratBody_correct {q : ℚ} (hq : 0 ≤ q) (hwf : (q * 10 ^ q.den).den = 1) :
    pyFloatBody (ratBody q) = some q ∧ (∀ c ∈ ratBody q, isFloatC c = true) ∧
      ratBody q ≠ [] := by
  have hk := ratPow_spec q hwf
  have hnum : 0 ≤ (q * 10 ^ ratPow q).num := Rat.num_nonneg.mpr (by positivity)
  have hmq : (((q * 10 ^ ratPow q).num.toNat : ℚ)) = q * 10 ^ ratPow q := by
    have h1 : (((q * 10 ^ ratPow q).num.toNat : ℤ)) = (q * 10 ^ ratPow q).num :=
      Int.toNat_of_nonneg hnum
    calc (((q * 10 ^ ratPow q).num.toNat : ℚ))
        = ((((q * 10 ^ ratPow q).num.toNat : ℤ)) : ℚ) := by push_cast; ring
      _ = (((q * 10 ^ ratPow q).num : ℤ) : ℚ) := by rw [h1]
      _ = q * 10 ^ ratPow q := (Rat.den_eq_one_iff _).mp hk
  have hp10 : ((10 : ℚ) ^ ratPow q) ≠ 0 := pow_ne_zero _ (by norm_num)
  have hqm : ((q * 10 ^ ratPow q).num.toNat : ℚ) / 10 ^ ratPow q = q := by
    rw [hmq]; field_simp
  obtain ⟨h1, h2, h3⟩ := ratBodyAux_spec (ratPow q) ((q * 10 ^ ratPow q).num.toNat)
  refine ⟨?_, h2, h3⟩
  unfold ratBody
  rw [h1, hqm]

theorem pyFloatOfChars_cons (c : Char) (r : List Char) :
    pyFloatOfChars (c :: r) =
      if c = '-' then (pyFloatBody r).map (fun q => -q) else pyFloatBody (c :: r) := rfl

theorem ratChars_correct {q : ℚ} (hwf : (q * 10 ^ q.den).den = 1) :
    pyFloatOfChars (ratChars q) = some q := by
  unfold ratChars
  by_cases h : q < 0
  · rw [if_pos h]
    have hwf2 : ((-q) * 10 ^ (-q).den).den = 1 := by
      rw [Rat.neg_den, neg_mul, Rat.neg_den]
      exact hwf
    obtain ⟨hb, _, _⟩ := ratBody_correct (neg_nonneg.mpr (le_of_lt h)) hwf2
    show pyFloatOfChars ('-' :: ratBody (-q)) = some q
    rw [pyFloatOfChars_cons, if_pos rfl, hb]
    simp
  · rw [if_neg h]
    obtain ⟨hb, hfl, hne⟩ := ratBody_correct (le_of_not_lt h) hwf
    rcases hcons : ratBody q with _ | ⟨d, ds⟩
    · exact absurd hcons hne
    · have hd : isFloatC d = true := by
        apply hfl
        rw [hcons]; simp
      have hdne : ¬ d = '-' := by
        intro hcon
        subst hcon
        exact absurd hd (by decide)
      rw [pyFloatOfChars_cons, if_neg hdne, ← hcons, hb]

/-! ### Lemmas: line splitting and joining -/

theorem splitLinesGo_cons_nl (cur rest : List Char) :
    splitLinesGo cur ('\n' :: rest) = cur.reverse :: splitLinesGo [] rest := rfl

theorem splitLinesGo_cons_other (c : Char) (rest cur : List Char)
    (h1 : ¬ c = '\r') (h2 : ¬ c = '\n') :
    splitLinesGo cur (c :: rest) = splitLinesGo (c :: cur) rest := by
  rw [splitLinesGo.eq_def]
  split
  · simp_all
  · rename_i heq; rw [List.cons_eq_cons] at heq; exact absurd heq.1 h1
  · rename_i heq; rw [List.cons_eq_cons] at heq; exact absurd heq.1 h1
  · rename_i heq; rw [List.cons_eq_cons] at heq; exact absurd heq.1 h2
  · rename_i heq; rw [List.cons_eq_cons] at heq
    rw [heq.1, heq.2]

theorem splitLinesGo_no_sep : ∀ (m cur : List Char),
    (∀ c ∈ m, ¬ c = '\n' ∧ ¬ c = '\r') → splitLinesGo cur m = [cur.reverse ++ m]
  | [], cur, _ => by simp [splitLinesGo]
  | c :: rest, cur, h => by
    rw [splitLinesGo_cons_other c rest cur (h c (by simp)).2 (h c (by simp)).1]
    rw [splitLinesGo_no_sep rest (c :: cur) (fun d hd => h d (by simp [hd]))]
    simp

theorem splitLinesGo_app_nl : ∀ (m cur rest : List Char),
    (∀ c ∈ m, ¬ c = '\n' ∧ ¬ c = '\r') →
    splitLinesGo cur (m ++ '\n' :: rest) = (cur.reverse ++ m) :: splitLinesGo [] rest
  | [], cur, rest, _ => by simp [splitLinesGo_cons_nl]
  | c :: m, cur, rest, h => by
    rw [List.cons_append]
    rw [splitLinesGo_cons_other c (m ++ '\n' :: rest) cur (h c (by simp)).2 (h c (by simp)).1]
    rw [splitLinesGo_app_nl m (c :: cur) rest (fun d hd => h d (by simp [hd]))]
    simp

theorem joinLines_cons_cons (l m : List Char) (rest : List (List Char)) :
    joinLines (l :: m :: rest) = l ++ '\n' :: joinLines (m :: rest) := rfl

theorem splitLines_join : ∀ (lines : List (List Char)), lines ≠ [] →
    (∀ l ∈ lines, ∀ c ∈ l, ¬ c = '\n' ∧ ¬ c = '\r') →
    splitLinesGo [] (joinLines lines) = lines
  | [l], _, h => by
    show splitLinesGo [] l = [l]
    simpa using splitLinesGo_no_sep l [] (h l (by simp))
  | l :: m :: rest, _, h => by
    rw [joinLines_cons_cons]
    rw [splitLinesGo_app_nl l [] _ (h l (by simp))]
    rw [splitLines_join (m :: rest) (by simp) (fun x hx => h x (by simp [hx]))]
    simp

theorem joinLines_ne_nil : ∀ (l : List Char) (rest : List (List Char)),
    l ≠ [] → joinLines (l :: rest) ≠ [] := by
  intro l rest hl
  cases rest with
  | nil => exact hl
  | cons m r =>
    rw [joinLines_cons_cons]
    simp

theorem joinLines_head_not (lines : List (List Char))
    (hne : ∀ l ∈ lines, l ≠ [])
    (h : ∀ l ∈ lines, ∀ c, l.head? = some c → isWS c = false) :
    ∀ c, (joinLines lines).head? = some c → isWS c = false := by
  cases lines with
  | nil => intro c hc; exact absurd hc (by simp [joinLines])
  | cons l rest =>
    cases rest with
    | nil => exact h l (by simp)
    | cons m r =>
      intro c hc
      rw [joinLines_cons_cons, List.head?_append_of_ne_nil _ (hne l (by simp))] at hc
      exact h l (by simp) c hc

theorem joinLines_last_not : ∀ (lines : List (List Char)),
    (∀ l ∈ lines, l ≠ []) →
    (∀ l ∈ lines, ∀ c, l.getLast? = some c → isWS c = false) →
    ∀ c, (joinLines lines).getLast? = some c → isWS c = false
  | [], _, _ => by intro c hc; exact absurd hc (by simp [joinLines])
  | [l], hne, h => h l (by simp)
  | l :: m :: rest, hne, h => by
    intro c hc
    rw [joinLines_cons_cons] at hc
    have hjoin : joinLines (m :: rest) ≠ [] := joinLines_ne_nil m rest (hne m (by simp))
    rw [List.getLast?_append_of_ne_nil _ (by simp)] at hc
    rw [show ('\n' :: joinLines (m :: rest)).getLast? = (joinLines (m :: rest)).getLast? from ?side] at hc
    · exact joinLines_last_not (m :: rest) (fun x hx => hne x (by simp [hx]))
        (fun x hx => h x (by simp [hx])) c hc
    · rcases hj : joinLines (m :: rest) with _ | ⟨d, ds⟩
      · exact absurd hj hjoin
      · exact List.getLast?_cons_cons

/-- Conditions an emitted line satisfies that make it survive `strip`,
`splitlines` and the per-line `strip` unchanged. -/
def goodLine (l : List Char) : Prop :=
  l ≠ [] ∧ (∀ c ∈ l, ¬ c = '\n' ∧ ¬ c = '\r') ∧
    (∀ c, l.head? = some c → isWS c = false) ∧
    (∀ c, l.getLast? = some c → isWS c = false)

theorem parseLines_emit : ∀ (cs : List Cmd),
    (∀ cmd ∈ cs, parseLine (emitCmd cmd) = .ok (some cmd)) →
    parseLines (cs.map emitCmd) = .ok cs
  | [], _ => rfl
  | c :: rest, h => by
    show parseLines (emitCmd c :: rest.map emitCmd) = _
    rw [parseLines, h c (by simp)]
    rw [parseLines_emit rest (fun x hx => h x (by simp [hx]))]

theorem parse_from_yaml (cs : List Cmd)
    (hgood : ∀ cmd ∈ cs, goodLine (emitCmd cmd))
    (hok : ∀ cmd ∈ cs, parseLine (emitCmd cmd) = .ok (some cmd)) :
    parse (from_yaml cs) = .ok cs := by
  cases cs with
  | nil => rfl
  | cons c rest =>
    have hlines : ∀ l ∈ (c :: rest).map emitCmd, l ≠ [] := by
      intro l hl
      obtain ⟨cmd, hcmd, rfl⟩ := List.mem_map.mp hl
      exact (hgood cmd hcmd).1
    have hnosep : ∀ l ∈ (c :: rest).map emitCmd, ∀ ch ∈ l, ¬ ch = '\n' ∧ ¬ ch = '\r' := by
      intro l hl
      obtain ⟨cmd, hcmd, rfl⟩ := List.mem_map.mp hl
      exact (hgood cmd hcmd).2.1
    have hstrip : stripL (joinLines ((c :: rest).map emitCmd)) =
        joinLines ((c :: rest).map emitCmd) := by
      apply stripL_eq_self
      · apply joinLines_head_not _ hlines
        intro l hl
        obtain ⟨cmd, hcmd, rfl⟩ := List.mem_map.mp hl
        exact (hgood cmd hcmd).2.2.1
      · apply joinLines_last_not _ hlines
        intro l hl
        obtain ⟨cmd, hcmd, rfl⟩ := List.mem_map.mp hl
        exact (hgood cmd hcmd).2.2.2
    show parse ⟨joinLines ((c :: rest).map emitCmd)⟩ = _
    unfold parse
    simp only [hstrip]
    have hje : joinLines ((c :: rest).map emitCmd) ≠ [] :=
      joinLines_ne_nil _ _ (hlines (emitCmd c) (by simp))
    rw [if_neg (by simpa [List.isEmpty_iff] using hje)]
    rw [splitLines_join _ (by simp) hnosep]
    exact parseLines_emit _ hok

/-! ### Lemmas: character-class implications at token boundaries -/

theorem wordC_not_ws {c : Char} (h : isWordC c = true) : isWS c = false := by
  rcases hw : isWS c
  · rfl
  · exfalso
    have hws : c = ' ' ∨ c = '\t' ∨ c = '\n' ∨ c = '\r' ∨ c = '\x0b' ∨ c = '\x0c' := by
      simpa [isWS, or_assoc] using hw
    rcases hws with rfl | rfl | rfl | rfl | rfl | rfl <;> exact absurd h (by decide)

theorem getLast?_or_right {A X : List Char} (c : Char) (h : X.getLast? = some c) :
    (A ++ X).getLast? = some c := by
  rw [List.getLast?_append, h]
  rfl

theorem digitC_word {c : Char} (h : isDigitC c = true) : isWordC c = true := by
  simp [isDigitC] at h
  simp [isWordC, h]

theorem floatC_not_ws {c : Char} (h : isFloatC c = true) : isWS c = false := by
  simp [isFloatC] at h
  rcases h with h | h
  · exact wordC_not_ws (digitC_word h)
  · subst h; decide

theorem ws0_app_of_head (R : List Char) (c : Char) (hc : R.head? = some c)
    (hws : isWS c = false) : ws0 R = R := by
  apply ws0_eq_self
  intro d hd
  rw [hc] at hd
  cases hd
  exact hws

theorem ws0_word_app (t R : List Char) (h1 : t ≠ []) (h2 : ∀ c ∈ t, isWordC c = true) :
    ws0 (t ++ R) = t ++ R := by
  rcases t with _ | ⟨d, ds⟩
  · exact absurd rfl h1
  · exact ws0_app_of_head _ d (by simp) (wordC_not_ws (h2 d (by simp)))

theorem ws0_digits_app (n : Nat) (R : List Char) :
    ws0 (natToChars n ++ R) = natToChars n ++ R := by
  rcases hnc : natToChars n with _ | ⟨d, ds⟩
  · exact absurd hnc (natToChars_ne_nil n)
  · have hd : isDigitC d = true := by
      apply natToChars_digits n
      rw [hnc]; simp
    rw [← hnc]
    apply ws0_app_of_head _ d
    · rw [hnc]; simp
    · exact wordC_not_ws (digitC_word hd)

theorem wordTok_app_head (t R : List Char) (c : Char) (h1 : t ≠ [])
    (h2 : ∀ d ∈ t, isWordC d = true) (hc : R.head? = some c) (hcw : isWordC c = false) :
    wordTok (t ++ R) = some (t, R) := by
  apply wordTok_app t R h1 h2
  intro d hd
  rw [hc] at hd
  cases hd
  exact hcw

theorem digitsTok_natToChars (n : Nat) (R : List Char) (c : Char)
    (hc : R.head? = some c) (hdc : isDigitC c = false) :
    digitsTok (natToChars n ++ R) = some (natToChars n, R) := by
  apply digitsTok_app _ _ (natToChars_ne_nil n) (natToChars_digits n)
  intro d hd
  rw [hc] at hd
  cases hd
  exact hdc

theorem quotTok_app_quote (t R : List Char) (h1 : t ≠ [])
    (h2 : ∀ c ∈ t, ¬ c = '"') (hc : R.head? = some '"') :
    quotTok (t ++ R) = some (t, R) := by
  apply quotTok_app t R h1 h2
  intro d hd
  rw [hc] at hd
  cases hd
  rfl

/-! ### Lemmas: each canonical emitted line parses back to its command -/

theorem reparse_loop (t : List Char) (n : Nat) (h1 : t ≠ [])
    (h2 : ∀ c ∈ t, isWordC c = true) :
    parseLine ("loop(".data ++ (t ++ (", bars=".data ++ (natToChars n ++ ")".data)))) =
      .ok (some (.loop ⟨t⟩ n)) := by
  set line := "loop(".data ++ (t ++ (", bars=".data ++ (natToChars n ++ ")".data))) with hline
  have hm : mLoop line = some (t, n) := by
    unfold mLoop
    rw [hline, litM_self_app "loop(".data]
    simp only [Option.bind]
    rw [ws0_word_app t _ h1 h2]
    rw [wordTok_app_head t _ ',' h1 h2 (by rfl) (by decide)]
    simp only [Option.bind]
    rw [show litM ",".data (", bars=".data ++ (natToChars n ++ ")".data)) =
      some (" bars=".data ++ (natToChars n ++ ")".data)) from rfl]
    simp only [Option.bind]
    rw [show ws0 (" bars=".data ++ (natToChars n ++ ")".data)) =
      "bars=".data ++ (natToChars n ++ ")".data) from rfl]
    rw [show litM "bars".data ("bars=".data ++ (natToChars n ++ ")".data)) =
      some ("=".data ++ (natToChars n ++ ")".data)) from rfl]
    simp only [Option.bind]
    rw [show ws0 ("=".data ++ (natToChars n ++ ")".data)) =
      "=".data ++ (natToChars n ++ ")".data) from rfl]
    rw [show litM "=".data ("=".data ++ (natToChars n ++ ")".data)) =
      some (natToChars n ++ ")".data) from rfl]
    simp only [Option.bind]
    rw [ws0_digits_app n ")".data]
    rw [digitsTok_natToChars n ")".data ')' rfl (by decide)]
    simp only [Option.bind]
    rw [show ws0 ")".data = ")".data from rfl]
    rw [show litM ")".data ")".data = some [] from rfl]
    simp [natOfDigits_natToChars]
  have hlast : line.getLast? = some ')' := by
    rw [hline]
    exact getLast?_or_right _ (getLast?_or_right _ (getLast?_or_right _
      (getLast?_or_right _ rfl)))
  have hstrip : stripL line = line := by
    apply stripL_eq_self
    · intro c hc
      rw [show line.head? = some 'l' from rfl] at hc
      cases hc
      decide
    · intro c hc
      rw [hlast] at hc
      cases hc
      decide
  unfold parseLine
  simp only [hstrip]
  rw [if_neg (by rw [show line.isEmpty = false from rfl]; simp)]
  rw [if_neg (by rw [show line.head? = some 'l' from rfl]; simp)]
  rw [if_neg (by rw [show swCh "set(".data line = false from rfl]; simp)]
  rw [if_neg (by rw [show swCh "load".data line = false from rfl]; simp)]
  rw [if_pos (show swCh "loop".data line = true from rfl)]
  rw [hm]

theorem headNot_ws_word (t R : List Char) (h1 : t ≠ [])
    (h2 : ∀ c ∈ t, isWordC c = true) :
    ∀ d, (t ++ R).head? = some d → isWS d = false := by
  intro d hd
  rcases t with _ | ⟨e, es⟩
  · exact absurd rfl h1
  · simp at hd
    subst hd
    exact wordC_not_ws (h2 e (by simp))

theorem reparse_load (t f : List Char) (h1 : t ≠ [])
    (h2 : ∀ c ∈ t, isWordC c = true) (h3 : f ≠ []) (h4 : ∀ c ∈ f, ¬ c = '"') :
    parseLine ("load ".data ++ (t ++ (" from \"".data ++ (f ++ "\"".data)))) =
      .ok (some (.load ⟨t⟩ ⟨f⟩)) := by
  set line := "load ".data ++ (t ++ (" from \"".data ++ (f ++ "\"".data))) with hline
  have hm : mLoad line = some (t, f) := by
    unfold mLoad
    rw [hline]
    rw [show litM "load".data ("load ".data ++ (t ++ (" from \"".data ++ (f ++ "\"".data)))) =
      some (' ' :: (t ++ (" from \"".data ++ (f ++ "\"".data)))) from rfl]
    simp only [Option.bind]
    rw [ws1_cons ' ' _ (by decide) (headNot_ws_word t _ h1 h2)]
    simp only [Option.bind]
    rw [wordTok_app_head t _ ' ' h1 h2 (by rfl) (by decide)]
    simp only [Option.bind]
    rw [show ws1 (" from \"".data ++ (f ++ "\"".data)) =
      some ("from \"".data ++ (f ++ "\"".data)) from rfl]
    simp only [Option.bind]
    rw [show litM "from".data ("from \"".data ++ (f ++ "\"".data)) =
      some (" \"".data ++ (f ++ "\"".data)) from rfl]
    simp only [Option.bind]
    rw [show ws1 (" \"".data ++ (f ++ "\"".data)) =
      some ("\"".data ++ (f ++ "\"".data)) from rfl]
    simp only [Option.bind]
    rw [show litM "\"".data ("\"".data ++ (f ++ "\"".data)) =
      some (f ++ "\"".data) from rfl]
    simp only [Option.bind]
    rw [quotTok_app_quote f _ h3 h4 (show ("\"".data : List Char).head? = some '"' from rfl)]
    simp only [Option.bind]
    rw [show litM "\"".data "\"".data = some [] from rfl]
    rfl
  have hlast : line.getLast? = some '"' := by
    rw [hline]
    exact getLast?_or_right _ (getLast?_or_right _ (getLast?_or_right _
      (getLast?_or_right _ (show ("\"".data : List Char).getLast? = some '"' from rfl))))
  have hstrip : stripL line = line := by
    apply stripL_eq_self
    · intro c hc
      rw [show line.head? = some 'l' from rfl] at hc
      cases hc
      decide
    · intro c hc
      rw [hlast] at hc
      cases hc
      decide
  unfold parseLine
  simp only [hstrip]
  rw [show line.isEmpty = false from rfl,
      show line.head? = some 'l' from rfl,
      show swCh "set(".data line = false from rfl,
      show swCh "load".data line = true from rfl,
      hm]
  simp

theorem reparse_reverse (t : List Char) (h1 : t ≠ [])
    (h2 : ∀ c ∈ t, isWordC c = true) :
    parseLine ("reverse(".data ++ (t ++ ")".data)) = .ok (some (.reverse ⟨t⟩)) := by
  set line := "reverse(".data ++ (t ++ ")".data) with hline
  have hm : mReverse line = some t := by
    unfold mReverse
    rw [hline, litM_self_app "reverse(".data]
    simp only [Option.bind]
    rw [ws0_word_app t _ h1 h2]
    rw [wordTok_app_head t _ ')' h1 h2 (by rfl) (by decide)]
    simp only [Option.bind]
    rw [show ws0 ")".data = ")".data from rfl]
    rw [show litM ")".data ")".data = some [] from rfl]
    rfl
  have hlast : line.getLast? = some ')' := by
    rw [hline]
    exact getLast?_or_right _ (getLast?_or_right _ rfl)
  have hstrip : stripL line = line := by
    apply stripL_eq_self
    · intro c hc
      rw [show line.head? = some 'r' from rfl] at hc
      cases hc
      decide
    · intro c hc
      rw [hlast] at hc
      cases hc
      decide
  unfold parseLine
  simp only [hstrip]
  rw [show line.isEmpty = false from rfl,
      show line.head? = some 'r' from rfl,
      show swCh "set(".data line = false from rfl,
      show swCh "load".data line = false from rfl,
      show swCh "loop".data line = false from rfl,
      show swCh "gain".data line = false from rfl,
      show swCh "fadeIn".data line = false from rfl,
      show swCh "fadeOut".data line = false from rfl,
      show swCh "slice".data line = false from rfl,
      show swCh "reverse".data line = true from rfl,
      hm]
  simp

theorem mFade_emit (F : List Char) (t : List Char) (n : Nat) (h1 : t ≠ [])
    (h2 : ∀ c ∈ t, isWordC c = true) :
    mFade F (F ++ (t ++ (", seconds=".data ++ (natToChars n ++ ")".data)))) =
      some (t, n) := by
  unfold mFade
  rw [litM_self_app F]
  simp only [Option.bind]
  rw [ws0_word_app t _ h1 h2]
  rw [wordTok_app_head t _ ',' h1 h2 (by rfl) (by decide)]
  simp only [Option.bind]
  rw [show litM ",".data (", seconds=".data ++ (natToChars n ++ ")".data)) =
    some (" seconds=".data ++ (natToChars n ++ ")".data)) from rfl]
  simp only [Option.bind]
  rw [show ws0 (" seconds=".data ++ (natToChars n ++ ")".data)) =
    "seconds=".data ++ (natToChars n ++ ")".data) from rfl]
  rw [show litM "seconds".data ("seconds=".data ++ (natToChars n ++ ")".data)) =
    some ("=".data ++ (natToChars n ++ ")".data)) from rfl]
  simp only [Option.bind]
  rw [show ws0 ("=".data ++ (natToChars n ++ ")".data)) =
    "=".data ++ (natToChars n ++ ")".data) from rfl]
  rw [show litM "=".data ("=".data ++ (natToChars n ++ ")".data)) =
    some (natToChars n ++ ")".data) from rfl]
  simp only [Option.bind]
  rw [ws0_digits_app n ")".data]
  rw [digitsTok_natToChars n ")".data ')' rfl (by decide)]
  simp only [Option.bind]
  rw [show ws0 ")".data = ")".data from rfl]
  rw [show litM ")".data ")".data = some [] from rfl]
  simp [natOfDigits_natToChars]

theorem reparse_fadeIn (t : List Char) (n : Nat) (h1 : t ≠ [])
    (h2 : ∀ c ∈ t, isWordC c = true) :
    parseLine ("fadeIn(".data ++ (t ++ (", seconds=".data ++ (natToChars n ++ ")".data)))) =
      .ok (some (.fadeIn ⟨t⟩ n)) := by
  set line := "fadeIn(".data ++ (t ++ (", seconds=".data ++ (natToChars n ++ ")".data)))
    with hline
  have hm : mFade "fadeIn(".data line = some (t, n) := by
    rw [hline]; exact mFade_emit _ t n h1 h2
  have hlast : line.getLast? = some ')' := by
    rw [hline]
    exact getLast?_or_right _ (getLast?_or_right _ (getLast?_or_right _
      (getLast?_or_right _ rfl)))
  have hstrip : stripL line = line := by
    apply stripL_eq_self
    · intro c hc
      rw [show line.head? = some 'f' from rfl] at hc
      cases hc
      decide
    · intro c hc
      rw [hlast] at hc
      cases hc
      decide
  unfold parseLine
  simp only [hstrip]
  rw [show line.isEmpty = false from rfl,
      show line.head? = some 'f' from rfl,
      show swCh "set(".data line = false from rfl,
      show swCh "load".data line = false from rfl,
      show swCh "loop".data line = false from rfl,
      show swCh "gain".data line = false from rfl,
      show swCh "fadeIn".data line = true from rfl,
      hm]
  simp

theorem reparse_fadeOut (t : List Char) (n : Nat) (h1 : t ≠ [])
    (h2 : ∀ c ∈ t, isWordC c = true) :
    parseLine ("fadeOut(".data ++ (t ++ (", seconds=".data ++ (natToChars n ++ ")".data)))) =
      .ok (some (.fadeOut ⟨t⟩ n)) := by
  set line := "fadeOut(".data ++ (t ++ (", seconds=".data ++ (natToChars n ++ ")".data)))
    with hline
  have hm : mFade "fadeOut(".data line = some (t, n) := by
    rw [hline]; exact mFade_emit _ t n h1 h2
  have hlast : line.getLast? = some ')' := by
    rw [hline]
    exact getLast?_or_right _ (getLast?_or_right _ (getLast?_or_right _
      (getLast?_or_right _ rfl)))
  have hstrip : stripL line = line := by
    apply stripL_eq_self
    · intro c hc
      rw [show line.head? = some 'f' from rfl] at hc
      cases hc
      decide
    · intro c hc
      rw [hlast] at hc
      cases hc
      decide
  unfold parseLine
  simp only [hstrip]
  rw [show line.isEmpty = false from rfl,
      show line.head? = some 'f' from rfl,
      show swCh "set(".data line = false from rfl,
      show swCh "load".data line = false from rfl,
      show swCh "loop".data line = false from rfl,
      show swCh "gain".data line = false from rfl,
      show swCh "fadeIn".data line = false from rfl,
      show swCh "fadeOut".data line = true from rfl,
      hm]
  simp

theorem reparse_slice (t : List Char) (a d : Nat) (h1 : t ≠ [])
    (h2 : ∀ c ∈ t, isWordC c = true) :
    parseLine ("slice(".data ++ (t ++ (", start=".data ++ (natToChars a ++
      (", duration=".data ++ (natToChars d ++ ")".data)))))) =
      .ok (some (.slice ⟨t⟩ a d)) := by
  set line := "slice(".data ++ (t ++ (", start=".data ++ (natToChars a ++
      (", duration=".data ++ (natToChars d ++ ")".data))))) with hline
  have hm : mSlice line = some (t, a, d) := by
    unfold mSlice
    rw [hline, litM_self_app "slice(".data]
    simp only [Option.bind]
    rw [ws0_word_app t _ h1 h2]
    rw [wordTok_app_head t _ ',' h1 h2 (by rfl) (by decide)]
    simp only [Option.bind]
    rw [show litM ",".data (", start=".data ++ (natToChars a ++
      (", duration=".data ++ (natToChars d ++ ")".data)))) =
      some (" start=".data ++ (natToChars a ++
        (", duration=".data ++ (natToChars d ++ ")".data)))) from rfl]
    simp only [Option.bind]
    rw [show ws0 (" start=".data ++ (natToChars a ++
      (", duration=".data ++ (natToChars d ++ ")".data)))) =
      "start=".data ++ (natToChars a ++
        (", duration=".data ++ (natToChars d ++ ")".data))) from rfl]
    rw [show litM "start".data ("start=".data ++ (natToChars a ++
      (", duration=".data ++ (natToChars d ++ ")".data)))) =
      some ("=".data ++ (natToChars a ++
        (", duration=".data ++ (natToChars d ++ ")".data)))) from rfl]
    simp only [Option.bind]
    rw [show ws0 ("=".data ++ (natToChars a ++
      (", duration=".data ++ (natToChars d ++ ")".data)))) =
      "=".data ++ (natToChars a ++
        (", duration=".data ++ (natToChars d ++ ")".data))) from rfl]
    rw [show litM "=".data ("=".data ++ (natToChars a ++
      (", duration=".data ++ (natToChars d ++ ")".data)))) =
      some (natToChars a ++ (", duration=".data ++ (natToChars d ++ ")".data))) from rfl]
    simp only [Option.bind]
    rw [ws0_digits_app a _]
    rw [digitsTok_natToChars a (", duration=".data ++ (natToChars d ++ ")".data)) ',' rfl (by decide)]
    simp only [Option.bind]
    rw [show litM ",".data (", duration=".data ++ (natToChars d ++ ")".data)) =
      some (" duration=".data ++ (natToChars d ++ ")".data)) from rfl]
    simp only [Option.bind]
    rw [show ws0 (" duration=".data ++ (natToChars d ++ ")".data)) =
      "duration=".data ++ (natToChars d ++ ")".data) from rfl]
    rw [show litM "duration".data ("duration=".data ++ (natToChars d ++ ")".data)) =
      some ("=".data ++ (natToChars d ++ ")".data)) from rfl]
    simp only [Option.bind]
    rw [show ws0 ("=".data ++ (natToChars d ++ ")".data)) =
      "=".data ++ (natToChars d ++ ")".data) from rfl]
    rw [show litM "=".data ("=".data ++ (natToChars d ++ ")".data)) =
      some (natToChars d ++ ")".data) from rfl]
    simp only [Option.bind]
    rw [ws0_digits_app d ")".data]
    rw [digitsTok_natToChars d ")".data ')' rfl (by decide)]
    simp only [Option.bind]
    rw [show ws0 ")".data = ")".data from rfl]
    rw [show litM ")".data ")".data = some [] from rfl]
    simp [natOfDigits_natToChars]
  have hlast : line.getLast? = some ')' := by
    rw [hline]
    exact getLast?_or_right _ (getLast?_or_right _ (getLast?_or_right _
      (getLast?_or_right _ (getLast?_or_right _ (getLast?_or_right _ rfl)))))
  have hstrip : stripL line = line := by
    apply stripL_eq_self
    · intro c hc
      rw [show line.head? = some 's' from rfl] at hc
      cases hc
      decide
    · intro c hc
      rw [hlast] at hc
      cases hc
      decide
  unfold parseLine
  simp only [hstrip]
  rw [show line.isEmpty = false from rfl,
      show line.head? = some 's' from rfl,
      show swCh "set(".data line = false from rfl,
      show swCh "load".data line = false from rfl,
      show swCh "loop".data line = false from rfl,
      show swCh "gain".data line = false from rfl,
      show swCh "fadeIn".data line = false from rfl,
      show swCh "fadeOut".data line = false from rfl,
      show swCh "slice".data line = true from rfl,
      hm]
  simp

theorem digitC_ne_dash {c : Char} (h : isDigitC c = true) : ¬ c = '-' := by
  intro hcon
  subst hcon
  exact absurd h (by decide)

theorem intTailM_cons (c : Char) (r : List Char) :
    intTailM (c :: r) =
      if c = '-' then
        (digitsTok r).bind fun (ds, r2) =>
        (litM ")".data (ws0 r2)).map fun _ => -(natOfDigits ds : Int)
      else
        (digitsTok (c :: r)).bind fun (ds, r2) =>
        (litM ")".data (ws0 r2)).map fun _ => (natOfDigits ds : Int) := rfl

theorem floatTailM_cons (signed : Bool) (c : Char) (r : List Char) :
    floatTailM signed (c :: r) =
      if signed && c = '-' then
        let fs := r.takeWhile isFloatC
        if fs.isEmpty then none else
        (litM ")".data (ws0 (r.dropWhile isFloatC))).map fun _ => '-' :: fs
      else
        let fs := (c :: r).takeWhile isFloatC
        if fs.isEmpty then none else
        (litM ")".data (ws0 ((c :: r).dropWhile isFloatC))).map fun _ => fs := rfl

theorem ws0_intToChars_app (i : Int) (R : List Char) :
    ws0 (intToChars i ++ R) = intToChars i ++ R := by
  by_cases hi : i < 0
  · rw [show intToChars i = '-' :: natToChars i.natAbs from by simp [intToChars, hi]]
    rw [List.cons_append]
    exact ws0_app_of_head _ '-' (by simp) (by decide)
  · rw [show intToChars i = natToChars i.toNat from by simp [intToChars, hi]]
    exact ws0_digits_app i.toNat R

theorem intTail_intToChars (i : Int) : intTailM (intToChars i ++ ")".data) = some i := by
  by_cases hi : i < 0
  · rw [show intToChars i = '-' :: natToChars i.natAbs from by simp [intToChars, hi]]
    rw [List.cons_append, intTailM_cons, if_pos rfl]
    rw [digitsTok_natToChars i.natAbs ")".data ')' rfl (by decide)]
    simp only [Option.bind]
    rw [show ws0 ")".data = ")".data from rfl]
    rw [show litM ")".data ")".data = some [] from rfl]
    simp [natOfDigits_natToChars, abs_of_neg hi]
  · rcases hnc : natToChars i.toNat with _ | ⟨d0, ds⟩
    · exact absurd hnc (natToChars_ne_nil i.toNat)
    · have hd0 : isDigitC d0 = true := by
        apply natToChars_digits i.toNat
        rw [hnc]; simp
      rw [show intToChars i = natToChars i.toNat from by simp [intToChars, hi]]
      rw [hnc, List.cons_append, intTailM_cons, if_neg (digitC_ne_dash hd0),
        ← List.cons_append, ← hnc]
      rw [digitsTok_natToChars i.toNat ")".data ')' rfl (by decide)]
      simp only [Option.bind]
      rw [show ws0 ")".data = ")".data from rfl]
      rw [show litM ")".data ")".data = some [] from rfl]
      have hv : ((i.toNat : Int)) = i := Int.toNat_of_nonneg (not_lt.mp hi)
      simp [natOfDigits_natToChars, hv]

theorem reparse_gain (t : List Char) (i : Int) (h1 : t ≠ [])
    (h2 : ∀ c ∈ t, isWordC c = true) :
    parseLine ("gain(".data ++ (t ++ (", ".data ++ (intToChars i ++ ")".data)))) =
      .ok (some (.gain ⟨t⟩ i)) := by
  set line := "gain(".data ++ (t ++ (", ".data ++ (intToChars i ++ ")".data))) with hline
  have hm : mGain line = some (t, i) := by
    unfold mGain
    rw [hline, litM_self_app "gain(".data]
    simp only [Option.bind]
    rw [ws0_word_app t _ h1 h2]
    rw [wordTok_app_head t _ ',' h1 h2 (by rfl) (by decide)]
    simp only [Option.bind]
    rw [show litM ",".data (", ".data ++ (intToChars i ++ ")".data)) =
      some (" ".data ++ (intToChars i ++ ")".data)) from rfl]
    simp only [Option.bind]
    rw [show ws0 (" ".data ++ (intToChars i ++ ")".data)) =
      ws0 (intToChars i ++ ")".data) from rfl]
    rw [ws0_intToChars_app i ")".data]
    rw [intTail_intToChars i]
    rfl
  have hlast : line.getLast? = some ')' := by
    rw [hline]
    exact getLast?_or_right _ (getLast?_or_right _ (getLast?_or_right _
      (getLast?_or_right _ rfl)))
  have hstrip : stripL line = line := by
    apply stripL_eq_self
    · intro c hc
      rw [show line.head? = some 'g' from rfl] at hc
      cases hc
      decide
    · intro c hc
      rw [hlast] at hc
      cases hc
      decide
  unfold parseLine
  simp only [hstrip]
  rw [show line.isEmpty = false from rfl,
      show line.head? = some 'g' from rfl,
      show swCh "set(".data line = false from rfl,
      show swCh "load".data line = false from rfl,
      show swCh "loop".data line = false from rfl,
      show swCh "gain".data line = true from rfl,
      hm]
  simp

theorem ratBody_eq_aux (q : ℚ) :
    ratBody q = ratBodyAux (ratPow q) ((q * 10 ^ ratPow q).num.toNat) := rfl

theorem ratBody_class (q : ℚ) : (∀ c ∈ ratBody q, isFloatC c = true) ∧ ratBody q ≠ [] := by
  obtain ⟨_, h2, h3⟩ := ratBodyAux_spec (ratPow q) ((q * 10 ^ ratPow q).num.toNat)
  exact ⟨h2, h3⟩

theorem ratBody_cons (q : ℚ) : ∃ d ds, ratBody q = d :: ds ∧ isDigitC d = true := by
  have hshape : ratBody q =
      natToChars ((q * 10 ^ ratPow q).num.toNat / 10 ^ ratPow q) ++ '.' ::
        (if ratPow q = 0 then ['0']
         else List.replicate (ratPow q -
            (natToChars ((q * 10 ^ ratPow q).num.toNat % 10 ^ ratPow q)).length) '0' ++
          natToChars ((q * 10 ^ ratPow q).num.toNat % 10 ^ ratPow q)) := rfl
  rcases hnc : natToChars ((q * 10 ^ ratPow q).num.toNat / 10 ^ ratPow q) with _ | ⟨d, ds⟩
  · exact absurd hnc (natToChars_ne_nil _)
  · refine ⟨d, ds ++ '.' ::
        (if ratPow q = 0 then ['0']
         else List.replicate (ratPow q -
            (natToChars ((q * 10 ^ ratPow q).num.toNat % 10 ^ ratPow q)).length) '0' ++
          natToChars ((q * 10 ^ ratPow q).num.toNat % 10 ^ ratPow q)), ?_, ?_⟩
    · rw [hshape, hnc]
      simp
    · apply natToChars_digits _ d
      rw [hnc]
      simp

theorem pyFloat_ratBody {q : ℚ} (hq : 0 ≤ q) (hwf : (q * 10 ^ q.den).den = 1) :
    pyFloatOfChars (ratBody q) = some q := by
  obtain ⟨hb, _, _⟩ := ratBody_correct hq hwf
  obtain ⟨d, ds, hcons, hd⟩ := ratBody_cons q
  rw [hcons, pyFloatOfChars_cons, if_neg (digitC_ne_dash hd), ← hcons, hb]

theorem ws0_ratChars_app (q : ℚ) (R : List Char) :
    ws0 (ratChars q ++ R) = ratChars q ++ R := by
  by_cases hq : q < 0
  · rw [show ratChars q = '-' :: ratBody (-q) from by simp [ratChars, hq]]
    rw [List.cons_append]
    exact ws0_app_of_head _ '-' (by simp) (by decide)
  · rw [show ratChars q = ratBody q from by simp [ratChars, hq]]
    obtain ⟨d, ds, hcons, hd⟩ := ratBody_cons q
    rw [hcons, List.cons_append]
    exact ws0_app_of_head _ d (by simp) (wordC_not_ws (digitC_word hd))

theorem floatTail_ratBody_core (q : ℚ) (signed : Bool) (d : Char) (ds : List Char)
    (hcons : ratBody q = d :: ds) (hcond : (signed && d = '-') = false) :
    floatTailM signed (ratBody q ++ ")".data) = some (ratBody q) := by
  obtain ⟨hclass, hne⟩ := ratBody_class q
  have htake : (ratBody q ++ ")".data).takeWhile isFloatC = ratBody q :=
    takeWhile_app_eq _ _ _ hclass (by intro c hc; cases hc; decide)
  have hdrop : (ratBody q ++ ")".data).dropWhile isFloatC = ")".data :=
    dropWhile_app_eq _ _ _ hclass (by intro c hc; cases hc; decide)
  rw [hcons, List.cons_append, floatTailM_cons, if_neg (by simp_all), ← List.cons_append,
    ← hcons]
  simp only [htake, hdrop]
  rw [if_neg (by simpa [List.isEmpty_iff] using hne)]
  rw [show ws0 ")".data = ")".data from rfl]
  rw [show litM ")".data ")".data = some [] from rfl]
  rfl

theorem floatTail_ratChars (q : ℚ) :
    floatTailM true (ratChars q ++ ")".data) = some (ratChars q) := by
  by_cases hq : q < 0
  · have hch : ratChars q = '-' :: ratBody (-q) := by simp [ratChars, hq]
    obtain ⟨hclass, hne⟩ := ratBody_class (-q)
    have htake : (ratBody (-q) ++ ")".data).takeWhile isFloatC = ratBody (-q) :=
      takeWhile_app_eq _ _ _ hclass (by intro c hc; cases hc; decide)
    have hdrop : (ratBody (-q) ++ ")".data).dropWhile isFloatC = ")".data :=
      dropWhile_app_eq _ _ _ hclass (by intro c hc; cases hc; decide)
    rw [hch, List.cons_append, floatTailM_cons, if_pos (by decide)]
    simp only [htake, hdrop]
    rw [if_neg (by simpa [List.isEmpty_iff] using hne)]
    rw [show ws0 ")".data = ")".data from rfl]
    rw [show litM ")".data ")".data = some [] from rfl]
    rfl
  · have hch : ratChars q = ratBody q := by simp [ratChars, hq]
    obtain ⟨d, ds, hcons, hd⟩ := ratBody_cons q
    rw [hch]
    apply floatTail_ratBody_core q true d ds hcons
    simp [digitC_ne_dash hd]

theorem floatTail_ratBody_unsigned (q : ℚ) :
    floatTailM false (ratBody q ++ ")".data) = some (ratBody q) := by
  obtain ⟨d, ds, hcons, hd⟩ := ratBody_cons q
  exact floatTail_ratBody_core q false d ds hcons (by simp)

theorem pyFloat_ratChars {q : ℚ} (hwf : (q * 10 ^ q.den).den = 1) :
    pyFloatOfChars (ratChars q) = some q := ratChars_correct hwf

theorem reparse_pan (t : List Char) (q : ℚ) (h1 : t ≠ [])
    (h2 : ∀ c ∈ t, isWordC c = true) (hwf : (q * 10 ^ q.den).den = 1) :
    parseLine ("pan(".data ++ (t ++ (", amount=".data ++ (ratChars q ++ ")".data)))) =
      .ok (some (.pan ⟨t⟩ q)) := by
  set line := "pan(".data ++ (t ++ (", amount=".data ++ (ratChars q ++ ")".data))) with hline
  have hm : mPan line = some (t, ratChars q) := by
    unfold mPan
    rw [hline, litM_self_app "pan(".data]
    simp only [Option.bind]
    rw [ws0_word_app t _ h1 h2]
    rw [wordTok_app_head t _ ',' h1 h2 (by rfl) (by decide)]
    simp only [Option.bind]
    rw [show litM ",".data (", amount=".data ++ (ratChars q ++ ")".data)) =
      some (" amount=".data ++ (ratChars q ++ ")".data)) from rfl]
    simp only [Option.bind]
    rw [show ws0 (" amount=".data ++ (ratChars q ++ ")".data)) =
      "amount=".data ++ (ratChars q ++ ")".data) from rfl]
    rw [show litM "amount".data ("amount=".data ++ (ratChars q ++ ")".data)) =
      some ("=".data ++ (ratChars q ++ ")".data)) from rfl]
    simp only [Option.bind]
    rw [show ws0 ("=".data ++ (ratChars q ++ ")".data)) =
      "=".data ++ (ratChars q ++ ")".data) from rfl]
    rw [show litM "=".data ("=".data ++ (ratChars q ++ ")".data)) =
      some (ratChars q ++ ")".data) from rfl]
    simp only [Option.bind]
    rw [ws0_ratChars_app q ")".data]
    rw [floatTail_ratChars q]
    rfl
  have hlastRat : (ratChars q ++ ")".data).getLast? = some ')' := getLast?_or_right _ rfl
  have hlast : line.getLast? = some ')' := by
    rw [hline]
    exact getLast?_or_right _ (getLast?_or_right _ (getLast?_or_right _ hlastRat))
  have hstrip : stripL line = line := by
    apply stripL_eq_self
    · intro c hc
      rw [show line.head? = some 'p' from rfl] at hc
      cases hc
      decide
    · intro c hc
      rw [hlast] at hc
      cases hc
      decide
  unfold parseLine
  simp only [hstrip]
  rw [show line.isEmpty = false from rfl,
      show line.head? = some 'p' from rfl,
      show swCh "set(".data line = false from rfl,
      show swCh "load".data line = false from rfl,
      show swCh "loop".data line = false from rfl,
      show swCh "gain".data line = false from rfl,
      show swCh "fadeIn".data line = false from rfl,
      show swCh "fadeOut".data line = false from rfl,
      show swCh "slice".data line = false from rfl,
      show swCh "reverse".data line = false from rfl,
      show swCh "pan".data line = true from rfl,
      hm]
  simp [pyFloat_ratChars hwf]

theorem reparse_normalize_some (t : List Char) (q : ℚ) (h1 : t ≠ [])
    (h2 : ∀ c ∈ t, isWordC c = true) (hq : 0 ≤ q) (hwf : (q * 10 ^ q.den).den = 1) :
    parseLine ("normalize(".data ++ (t ++ (", headroom=".data ++ (ratChars q ++ ")".data)))) =
      .ok (some (.normalize ⟨t⟩ (some q))) := by
  have hch : ratChars q = ratBody q := by simp [ratChars, not_lt.mpr hq]
  set line := "normalize(".data ++ (t ++ (", headroom=".data ++ (ratChars q ++ ")".data)))
    with hline
  have hm : mNormalizeA line = some (t, ratBody q) := by
    unfold mNormalizeA
    rw [hline, litM_self_app "normalize(".data]
    simp only [Option.bind]
    rw [ws0_word_app t _ h1 h2]
    rw [wordTok_app_head t _ ',' h1 h2 (by rfl) (by decide)]
    simp only [Option.bind]
    rw [show litM ",".data (", headroom=".data ++ (ratChars q ++ ")".data)) =
      some (" headroom=".data ++ (ratChars q ++ ")".data)) from rfl]
    simp only [Option.bind]
    rw [show ws0 (" headroom=".data ++ (ratChars q ++ ")".data)) =
      "headroom=".data ++ (ratChars q ++ ")".data) from rfl]
    rw [show litM "headroom".data ("headroom=".data ++ (ratChars q ++ ")".data)) =
      some ("=".data ++ (ratChars q ++ ")".data)) from rfl]
    simp only [Option.bind]
    rw [show ws0 ("=".data ++ (ratChars q ++ ")".data)) =
      "=".data ++ (ratChars q ++ ")".data) from rfl]
    rw [show litM "=".data ("=".data ++ (ratChars q ++ ")".data)) =
      some (ratChars q ++ ")".data) from rfl]
    simp only [Option.bind]
    rw [ws0_ratChars_app q ")".data]
    rw [hch, floatTail_ratBody_unsigned q]
    rfl
  have hlast : line.getLast? = some ')' := by
    rw [hline]
    exact getLast?_or_right _ (getLast?_or_right _ (getLast?_or_right _
      (getLast?_or_right _ rfl)))
  have hstrip : stripL line = line := by
    apply stripL_eq_self
    · intro c hc
      rw [show line.head? = some 'n' from rfl] at hc
      cases hc
      decide
    · intro c hc
      rw [hlast] at hc
      cases hc
      decide
  unfold parseLine
  simp only [hstrip]
  rw [show line.isEmpty = false from rfl,
      show line.head? = some 'n' from rfl,
      show swCh "set(".data line = false from rfl,
      show swCh "load".data line = false from rfl,
      show swCh "loop".data line = false from rfl,
      show swCh "gain".data line = false from rfl,
      show swCh "fadeIn".data line = false from rfl,
      show swCh "fadeOut".data line = false from rfl,
      show swCh "slice".data line = false from rfl,
      show swCh "reverse".data line = false from rfl,
      show swCh "pan".data line = false from rfl,
      show swCh "normalize".data line = true from rfl,
      hm]
  simp [pyFloat_ratBody hq hwf]

theorem reparse_normalize_none (t : List Char) (h1 : t ≠ [])
    (h2 : ∀ c ∈ t, isWordC c = true) :
    parseLine ("normalize(".data ++ (t ++ ")".data)) =
      .ok (some (.normalize ⟨t⟩ none)) := by
  set line := "normalize(".data ++ (t ++ ")".data) with hline
  have hmA : mNormalizeA line = none := by
    unfold mNormalizeA
    rw [hline, litM_self_app "normalize(".data]
    simp only [Option.bind]
    rw [ws0_word_app t _ h1 h2]
    rw [wordTok_app_head t _ ')' h1 h2 (by rfl) (by decide)]
    simp only [Option.bind]
    rw [show litM ",".data ")".data = none from rfl]
  have hmB : mNormalizeB line = some t := by
    unfold mNormalizeB
    rw [hline, litM_self_app "normalize(".data]
    simp only [Option.bind]
    rw [ws0_word_app t _ h1 h2]
    rw [wordTok_app_head t _ ')' h1 h2 (by rfl) (by decide)]
    simp only [Option.bind]
    rw [show ws0 ")".data = ")".data from rfl]
    rw [show litM ")".data ")".data = some [] from rfl]
    rfl
  have hlast : line.getLast? = some ')' := by
    rw [hline]
    exact getLast?_or_right _ (getLast?_or_right _ rfl)
  have hstrip : stripL line = line := by
    apply stripL_eq_self
    · intro c hc
      rw [show line.head? = some 'n' from rfl] at hc
      cases hc
      decide
    · intro c hc
      rw [hlast] at hc
      cases hc
      decide
  unfold parseLine
  simp only [hstrip]
  rw [show line.isEmpty = false from rfl,
      show line.head? = some 'n' from rfl,
      show swCh "set(".data line = false from rfl,
      show swCh "load".data line = false from rfl,
      show swCh "loop".data line = false from rfl,
      show swCh "gain".data line = false from rfl,
      show swCh "fadeIn".data line = false from rfl,
      show swCh "fadeOut".data line = false from rfl,
      show swCh "slice".data line = false from rfl,
      show swCh "reverse".data line = false from rfl,
      show swCh "pan".data line = false from rfl,
      show swCh "normalize".data line = true from rfl,
      hmA, hmB]
  simp

theorem reparse_reverb (t : List Char) (q : ℚ) (h1 : t ≠ [])
    (h2 : ∀ c ∈ t, isWordC c = true) (hq : 0 ≤ q) (hwf : (q * 10 ^ q.den).den = 1) :
    parseLine ("reverb(".data ++ (t ++ (", amount=".data ++ (ratChars q ++ ")".data)))) =
      .ok (some (.reverb ⟨t⟩ q)) := by
  have hch : ratChars q = ratBody q := by simp [ratChars, not_lt.mpr hq]
  set line := "reverb(".data ++ (t ++ (", amount=".data ++ (ratChars q ++ ")".data)))
    with hline
  have hm : mReverb line = some (t, ratBody q) := by
    unfold mReverb
    rw [hline, litM_self_app "reverb(".data]
    simp only [Option.bind]
    rw [ws0_word_app t _ h1 h2]
    rw [wordTok_app_head t _ ',' h1 h2 (by rfl) (by decide)]
    simp only [Option.bind]
    rw [show litM ",".data (", amount=".data ++ (ratChars q ++ ")".data)) =
      some (" amount=".data ++ (ratChars q ++ ")".data)) from rfl]
    simp only [Option.bind]
    rw [show ws0 (" amount=".data ++ (ratChars q ++ ")".data)) =
      "amount=".data ++ (ratChars q ++ ")".data) from rfl]
    rw [show litM "amount".data ("amount=".data ++ (ratChars q ++ ")".data)) =
      some ("=".data ++ (ratChars q ++ ")".data)) from rfl]
    simp only [Option.bind]
    rw [show ws0 ("=".data ++ (ratChars q ++ ")".data)) =
      "=".data ++ (ratChars q ++ ")".data) from rfl]
    rw [show litM "=".data ("=".data ++ (ratChars q ++ ")".data)) =
      some (ratChars q ++ ")".data) from rfl]
    simp only [Option.bind]
    rw [ws0_ratChars_app q ")".data]
    rw [hch, floatTail_ratBody_unsigned q]
    rfl
  have hlast : line.getLast? = some ')' := by
    rw [hline]
    exact getLast?_or_right _ (getLast?_or_right _ (getLast?_or_right _
      (getLast?_or_right _ rfl)))
  have hstrip : stripL line = line := by
    apply stripL_eq_self
    · intro c hc
      rw [show line.head? = some 'r' from rfl] at hc
      cases hc
      decide
    · intro c hc
      rw [hlast] at hc
      cases hc
      decide
  unfold parseLine
  simp only [hstrip]
  rw [show line.isEmpty = false from rfl,
      show line.head? = some 'r' from rfl,
      show swCh "set(".data line = false from rfl,
      show swCh "load".data line = false from rfl,
      show swCh "loop".data line = false from rfl,
      show swCh "gain".data line = false from rfl,
      show swCh "fadeIn".data line = false from rfl,
      show swCh "fadeOut".data line = false from rfl,
      show swCh "slice".data line = false from rfl,
      show swCh "reverse".data line = false from rfl,
      show swCh "pan".data line = false from rfl,
      show swCh "normalize".data line = false from rfl,
      show swCh "reverb".data line = true from rfl,
      hm]
  simp [pyFloat_ratBody hq hwf]

theorem reparse_export (f : List Char) (h3 : f ≠ []) (h4 : ∀ c ∈ f, ¬ c = '"') :
    parseLine ("export(\"".data ++ (f ++ "\")".data)) =
      .ok (some (.exportCmd ⟨f⟩)) := by
  set line := "export(\"".data ++ (f ++ "\")".data) with hline
  have hm : mExport line = some f := by
    unfold mExport
    rw [hline]
    rw [show litM "export(".data ("export(\"".data ++ (f ++ "\")".data)) =
      some ('"' :: (f ++ "\")".data)) from rfl]
    simp only [Option.bind]
    rw [show ws0 ('"' :: (f ++ "\")".data)) = '"' :: (f ++ "\")".data) from rfl]
    rw [show litM "\"".data ('"' :: (f ++ "\")".data)) = some (f ++ "\")".data) from rfl]
    simp only [Option.bind]
    rw [quotTok_app_quote f _ h3 h4 (show ("\")".data : List Char).head? = some '"' from rfl)]
    simp only [Option.bind]
    rw [show litM "\"".data "\")".data = some ")".data from rfl]
    simp only [Option.bind]
    rw [show ws0 ")".data = ")".data from rfl]
    rw [show litM ")".data ")".data = some [] from rfl]
    rfl
  have hlast : line.getLast? = some ')' := by
    rw [hline]
    exact getLast?_or_right _ (getLast?_or_right _
      (show ("\")".data : List Char).getLast? = some ')' from rfl))
  have hstrip : stripL line = line := by
    apply stripL_eq_self
    · intro c hc
      rw [show line.head? = some 'e' from rfl] at hc
      cases hc
      decide
    · intro c hc
      rw [hlast] at hc
      cases hc
      decide
  unfold parseLine
  simp only [hstrip]
  rw [show line.isEmpty = false from rfl,
      show line.head? = some 'e' from rfl,
      show swCh "set(".data line = false from rfl,
      show swCh "load".data line = false from rfl,
      show swCh "loop".data line = false from rfl,
      show swCh "gain".data line = false from rfl,
      show swCh "fadeIn".data line = false from rfl,
      show swCh "fadeOut".data line = false from rfl,
      show swCh "slice".data line = false from rfl,
      show swCh "reverse".data line = false from rfl,
      show swCh "pan".data line = false from rfl,
      show swCh "normalize".data line = false from rfl,
      show swCh "reverb".data line = false from rfl,
      show swCh "export".data line = true from rfl,
      hm]
  simp

theorem bpmAt_ne (c : Char) (rest : List Char) (h : ¬ c = 'b') :
    bpmAt (c :: rest) = none := by
  unfold bpmAt
  rw [show litM "bpm".data (c :: rest) =
    if c = 'b' then litM "pm".data rest else none from rfl]
  rw [if_neg h]
  rfl

theorem searchBpm_skip (c : Char) (rest : List Char) (h : bpmAt (c :: rest) = none) :
    searchBpm (c :: rest) = searchBpm rest := by
  rw [show searchBpm (c :: rest) =
    (match bpmAt (c :: rest) with
     | some n => some n
     | none => searchBpm rest) from rfl, h]

theorem searchBpm_app_skip : ∀ (pre suf : List Char), (∀ c ∈ pre, ¬ c = 'b') →
    searchBpm (pre ++ suf) = searchBpm suf
  | [], _, _ => rfl
  | c :: pre, suf, h => by
    rw [List.cons_append, searchBpm_skip c _ (bpmAt_ne c _ (h c (by simp)))]
    exact searchBpm_app_skip pre suf (fun d hd => h d (by simp [hd]))

theorem searchBpm_cons_hit (c : Char) (rest : List Char) (n : Nat)
    (h : bpmAt (c :: rest) = some n) : searchBpm (c :: rest) = some n := by
  rw [show searchBpm (c :: rest) =
    (match bpmAt (c :: rest) with
     | some n => some n
     | none => searchBpm rest) from rfl, h]

theorem bpmAt_hit (n : Nat) (R : List Char) (c : Char) (hc : R.head? = some c)
    (hdc : isDigitC c = false) :
    bpmAt ("bpm=".data ++ (natToChars n ++ R)) = some n := by
  unfold bpmAt
  rw [show litM "bpm".data ("bpm=".data ++ (natToChars n ++ R)) =
    some ("=".data ++ (natToChars n ++ R)) from rfl]
  simp only [Option.bind]
  rw [show ws0 ("=".data ++ (natToChars n ++ R)) = "=".data ++ (natToChars n ++ R) from rfl]
  rw [show litM "=".data ("=".data ++ (natToChars n ++ R)) =
    some (natToChars n ++ R) from rfl]
  simp only [Option.bind]
  rw [ws0_digits_app n R]
  rw [digitsTok_natToChars n R c hc hdc]
  simp [natOfDigits_natToChars]

theorem keyAt_ne (c : Char) (rest : List Char) (h : ¬ c = 'k') :
    keyAt (c :: rest) = none := by
  unfold keyAt
  rw [show litM "key".data (c :: rest) =
    if c = 'k' then litM "ey".data rest else none from rfl]
  rw [if_neg h]
  rfl

theorem searchKey_skip (c : Char) (rest : List Char) (h : keyAt (c :: rest) = none) :
    searchKey (c :: rest) = searchKey rest := by
  rw [show searchKey (c :: rest) =
    (match keyAt (c :: rest) with
     | some k => some k
     | none => searchKey rest) from rfl, h]

theorem searchKey_app_skip : ∀ (pre suf : List Char), (∀ c ∈ pre, ¬ c = 'k') →
    searchKey (pre ++ suf) = searchKey suf
  | [], _, _ => rfl
  | c :: pre, suf, h => by
    rw [List.cons_append, searchKey_skip c _ (keyAt_ne c _ (h c (by simp)))]
    exact searchKey_app_skip pre suf (fun d hd => h d (by simp [hd]))

theorem searchKey_cons_hit (c : Char) (rest k : List Char)
    (h : keyAt (c :: rest) = some k) : searchKey (c :: rest) = some k := by
  rw [show searchKey (c :: rest) =
    (match keyAt (c :: rest) with
     | some k => some k
     | none => searchKey rest) from rfl, h]

theorem keyAt_hit (k : List Char) (h3 : k ≠ []) (h4 : ∀ c ∈ k, ¬ c = '"') :
    keyAt ("key=\"".data ++ (k ++ "\")".data)) = some k := by
  unfold keyAt
  rw [show litM "key".data ("key=\"".data ++ (k ++ "\")".data)) =
    some ("=\"".data ++ (k ++ "\")".data)) from rfl]
  simp only [Option.bind]
  rw [show ws0 ("=\"".data ++ (k ++ "\")".data)) =
    "=\"".data ++ (k ++ "\")".data) from rfl]
  rw [show litM "=".data ("=\"".data ++ (k ++ "\")".data)) =
    some ("\"".data ++ (k ++ "\")".data)) from rfl]
  simp only [Option.bind]
  rw [show ws0 ("\"".data ++ (k ++ "\")".data)) =
    "\"".data ++ (k ++ "\")".data) from rfl]
  rw [show litM "\"".data ("\"".data ++ (k ++ "\")".data)) =
    some (k ++ "\")".data) from rfl]
  simp only [Option.bind]
  rw [quotTok_app_quote k _ h3 h4 (show ("\")".data : List Char).head? = some '"' from rfl)]
  simp only [Option.bind]
  rw [show litM "\"".data "\")".data = some ")".data from rfl]
  rfl

theorem reparse_set (n : Nat) (k : List Char) (h3 : k ≠ [])
    (h4 : ∀ c ∈ k, ¬ c = '"') :
    parseLine ("set(bpm=".data ++ (natToChars n ++ (", key=\"".data ++ (k ++ "\")".data)))) =
      .ok (some (.set (some n) (some ⟨k⟩))) := by
  set line := "set(bpm=".data ++ (natToChars n ++ (", key=\"".data ++ (k ++ "\")".data)))
    with hline
  have hbpm : searchBpm line = some n := by
    rw [show line = "set(".data ++
      ("bpm=".data ++ (natToChars n ++ (", key=\"".data ++ (k ++ "\")".data)))) from rfl]
    rw [searchBpm_app_skip "set(".data _ (by decide)]
    have hhit : bpmAt ("bpm=".data ++ (natToChars n ++
      (", key=\"".data ++ (k ++ "\")".data)))) = some n :=
      bpmAt_hit n _ ',' rfl (by decide)
    rw [show ("bpm=".data ++ (natToChars n ++ (", key=\"".data ++ (k ++ "\")".data)))) =
      'b' :: ("pm=".data ++ (natToChars n ++ (", key=\"".data ++ (k ++ "\")".data)))) from rfl]
      at hhit ⊢
    exact searchBpm_cons_hit _ _ n hhit
  have hkey : searchKey line = some k := by
    have hsplit : line = ("set(bpm=".data ++ (natToChars n ++ ", ".data)) ++
        ("key=\"".data ++ (k ++ "\")".data)) := by
      rw [hline]
      rw [show (", key=\"".data : List Char) = ", ".data ++ "key=\"".data from rfl]
      simp [List.append_assoc]
    rw [hsplit]
    rw [searchKey_app_skip _ _ ?nok]
    case nok =>
      intro c hc
      rcases List.mem_append.mp hc with h1 | h2
      · have hcl : ∀ d ∈ ("set(bpm=".data : List Char), ¬ d = 'k' := by decide
        exact hcl c h1
      · rcases List.mem_append.mp h2 with h5 | h6
        · intro hcon
          subst hcon
          exact absurd (natToChars_digits n 'k' h5) (by decide)
        · have hcl : ∀ d ∈ (", ".data : List Char), ¬ d = 'k' := by decide
          exact hcl c h6
    have hhit := keyAt_hit k h3 h4
    rw [show ("key=\"".data ++ (k ++ "\")".data)) =
      'k' :: ("ey=\"".data ++ (k ++ "\")".data)) from rfl] at hhit ⊢
    exact searchKey_cons_hit _ _ k hhit
  have hlast : line.getLast? = some ')' := by
    rw [hline]
    exact getLast?_or_right _ (getLast?_or_right _ (getLast?_or_right _
      (getLast?_or_right _ (show ("\")".data : List Char).getLast? = some ')' from rfl))))
  have hstrip : stripL line = line := by
    apply stripL_eq_self
    · intro c hc
      rw [show line.head? = some 's' from rfl] at hc
      cases hc
      decide
    · intro c hc
      rw [hlast] at hc
      cases hc
      decide
  unfold parseLine
  simp only [hstrip]
  rw [show line.isEmpty = false from rfl,
      show line.head? = some 's' from rfl,
      show swCh "set(".data line = true from rfl,
      hbpm, hkey]
  simp

/-! ### Well-formedness of parsed commands (the invariant `parse` guarantees) -/

/-- A track identifier captured by `(\w+)`. -/
def WFword (t : String) : Prop := t.data ≠ [] ∧ ∀ c ∈ t.data, isWordC c = true

/-- A string captured by `([^"]+)` out of a single input line. -/
def WFquot (f : String) : Prop :=
  f.data ≠ [] ∧ ∀ c ∈ f.data, ¬ c = '"' ∧ ¬ c = '\n' ∧ ¬ c = '\r'

/-- A float value produced by Python `float` on a decimal token: it is an
exact decimal rational. -/
def WFQv (q : ℚ) : Prop := (q * 10 ^ q.den).den = 1

/-- The invariant every command in the output of `parse` satisfies. -/
def WFCmd : Cmd → Prop
  | .set _ k => ∀ s, k = some s → WFquot s
  | .load t f => WFword t ∧ WFquot f
  | .loop t _ => WFword t
  | .gain t _ => WFword t
  | .fadeIn t _ => WFword t
  | .fadeOut t _ => WFword t
  | .slice t _ _ => WFword t
  | .reverse t => WFword t
  | .pan t q => WFword t ∧ WFQv q
  | .normalize t h => WFword t ∧ ∀ q, h = some q → WFQv q ∧ 0 ≤ q
  | .reverb t q => WFword t ∧ WFQv q ∧ 0 ≤ q
  | .exportCmd f => WFquot f

/-- A `set` command that supplies both of its fields (the hypothesis of the
amended round-trip law). -/
def setComplete : Cmd → Prop
  | .set b k => b.isSome ∧ k.isSome
  | _ => True

/-- A float value Python `str` renders positionally (zero, or magnitude in
`[1e-4, 1e16)`): outside this range `str` switches to scientific notation
and the emitted line no longer reparses. -/
def posRange (q : ℚ) : Prop := q = 0 ∨ (1 / 10000 ≤ |q| ∧ |q| < 10 ^ 16)

/-- Every float parameter of the command is in `str`'s positional range
(the second hypothesis of the amended round-trip law). -/
def floatPositional : Cmd → Prop
  | .pan _ q => posRange q
  | .normalize _ h => ∀ q, h = some q → posRange q
  | .reverb _ q => posRange q
  | _ => True

theorem litM_sub : ∀ (p l r : List Char), litM p l = some r → ∀ c ∈ r, c ∈ l
  | [], l, r, h => by
    simp [litM] at h
    subst h
    exact fun c hc => hc
  | p :: ps, [], r, h => by simp [litM] at h
  | p :: ps, c :: cs, r, h => by
    by_cases hc : c = p
    · rw [litM, if_pos hc] at h
      intro d hd
      exact List.mem_cons_of_mem c (litM_sub ps cs r h d hd)
    · rw [litM, if_neg hc] at h
      exact absurd h (by simp)

theorem dropWhile_sub (p : Char → Bool) (l : List Char) :
    ∀ c ∈ l.dropWhile p, c ∈ l := fun _ hc => (List.dropWhile_sublist p).subset hc

theorem takeWhile_sub (p : Char → Bool) (l : List Char) :
    ∀ c ∈ l.takeWhile p, c ∈ l := fun _ hc => (List.takeWhile_sublist p).subset hc

theorem ws1_sub (l r : List Char) (h : ws1 l = some r) : ∀ c ∈ r, c ∈ l := by
  rcases l with _ | ⟨c, cs⟩
  · simp [ws1] at h
  · rw [show ws1 (c :: cs) = if isWS c then some (cs.dropWhile isWS) else none from rfl] at h
    by_cases hc : isWS c
    · rw [if_pos hc] at h
      injection h with h
      subst h
      intro d hd
      exact List.mem_cons_of_mem c (dropWhile_sub isWS cs d hd)
    · rw [if_neg hc] at h
      exact absurd h (by simp)

theorem ws0_sub (l : List Char) : ∀ c ∈ ws0 l, c ∈ l := dropWhile_sub isWS l

theorem wordTok_wf (l t r : List Char) (h : wordTok l = some (t, r)) :
    t ≠ [] ∧ (∀ c ∈ t, isWordC c = true) ∧ (∀ c ∈ t, c ∈ l) ∧ (∀ c ∈ r, c ∈ l) := by
  unfold wordTok at h
  by_cases he : (l.takeWhile isWordC).isEmpty
  · rw [if_pos he] at h; exact absurd h (by simp)
  · rw [if_neg he] at h
    injection h with h
    rw [Prod.mk.injEq] at h
    obtain ⟨h1, h2⟩ := h
    subst h1; subst h2
    exact ⟨by simpa [List.isEmpty_iff] using he,
      fun c hc => List.mem_takeWhile_imp hc,
      takeWhile_sub _ l, dropWhile_sub _ l⟩

theorem digitsTok_wf (l t r : List Char) (h : digitsTok l = some (t, r)) :
    t ≠ [] ∧ (∀ c ∈ t, isDigitC c = true) ∧ (∀ c ∈ r, c ∈ l) := by
  unfold digitsTok at h
  by_cases he : (l.takeWhile isDigitC).isEmpty
  · rw [if_pos he] at h; exact absurd h (by simp)
  · rw [if_neg he] at h
    injection h with h
    rw [Prod.mk.injEq] at h
    obtain ⟨h1, h2⟩ := h
    subst h1; subst h2
    exact ⟨by simpa [List.isEmpty_iff] using he,
      fun c hc => List.mem_takeWhile_imp hc, dropWhile_sub _ l⟩

theorem quotTok_wf (l t r : List Char) (h : quotTok l = some (t, r)) :
    t ≠ [] ∧ (∀ c ∈ t, ¬ c = '"') ∧ (∀ c ∈ t, c ∈ l) ∧ (∀ c ∈ r, c ∈ l) := by
  unfold quotTok at h
  by_cases he : (l.takeWhile (fun c => !(c = '"'))).isEmpty
  · rw [if_pos he] at h; exact absurd h (by simp)
  · rw [if_neg he] at h
    injection h with h
    rw [Prod.mk.injEq] at h
    obtain ⟨h1, h2⟩ := h
    subst h1; subst h2
    refine ⟨by simpa [List.isEmpty_iff] using he, ?_, takeWhile_sub _ l, dropWhile_sub _ l⟩
    intro c hc
    have := List.mem_takeWhile_imp hc
    simpa using this

theorem stripL_sub (l : List Char) : ∀ c ∈ stripL l, c ∈ l := by
  intro c hc
  unfold stripL dropEnd at hc
  rw [List.mem_reverse] at hc
  have h1 := dropWhile_sub isWS (l.dropWhile isWS).reverse c hc
  rw [List.mem_reverse] at h1
  exact dropWhile_sub isWS l c h1

theorem mLoad_wf (l t f : List Char) (h : mLoad l = some (t, f)) :
    (t ≠ [] ∧ ∀ c ∈ t, isWordC c = true) ∧
      (f ≠ [] ∧ (∀ c ∈ f, ¬ c = '"') ∧ ∀ c ∈ f, c ∈ l) := by
  unfold mLoad at h
  simp only [Option.bind_eq_some, Option.map_eq_some'] at h
  obtain ⟨r1, hr1, r2, hr2, ⟨t0, r3⟩, ht0, r4, hr4, r5, hr5, r6, hr6, r7, hr7,
    ⟨f0, r8⟩, hf0, r9, hr9, hres⟩ := h
  rw [Prod.mk.injEq] at hres
  obtain ⟨rfl, rfl⟩ := hres
  obtain ⟨htne, htw, _, hsub3⟩ := wordTok_wf r2 t0 r3 ht0
  obtain ⟨hfne, hfq, hfsub, _⟩ := quotTok_wf r7 f0 r8 hf0
  refine ⟨⟨htne, htw⟩, hfne, hfq, ?_⟩
  intro c hc
  exact litM_sub _ _ _ hr1 c (ws1_sub _ _ hr2 c (hsub3 c
    (ws1_sub _ _ hr4 c (litM_sub _ _ _ hr5 c (ws1_sub _ _ hr6 c
      (litM_sub _ _ _ hr7 c (hfsub c hc)))))))

theorem mLoop_wf (l t : List Char) (n : Nat) (h : mLoop l = some (t, n)) :
    t ≠ [] ∧ ∀ c ∈ t, isWordC c = true := by
  unfold mLoop at h
  simp only [Option.bind_eq_some, Option.map_eq_some'] at h
  obtain ⟨r1, hr1, ⟨t0, r2⟩, ht0, _, _, _, _, _, _, ⟨d0, r6⟩, hd0, _, _, hres⟩ := h
  rw [Prod.mk.injEq] at hres
  obtain ⟨rfl, rfl⟩ := hres
  obtain ⟨htne, htw, _, _⟩ := wordTok_wf _ t0 r2 ht0
  exact ⟨htne, htw⟩

theorem mGain_wf (l t : List Char) (i : Int) (h : mGain l = some (t, i)) :
    t ≠ [] ∧ ∀ c ∈ t, isWordC c = true := by
  unfold mGain at h
  simp only [Option.bind_eq_some, Option.map_eq_some'] at h
  obtain ⟨r1, hr1, ⟨t0, r2⟩, ht0, _, _, _, _, hres⟩ := h
  rw [Prod.mk.injEq] at hres
  obtain ⟨rfl, rfl⟩ := hres
  obtain ⟨htne, htw, _, _⟩ := wordTok_wf _ t0 r2 ht0
  exact ⟨htne, htw⟩

theorem mFade_wf (F l t : List Char) (n : Nat) (h : mFade F l = some (t, n)) :
    t ≠ [] ∧ ∀ c ∈ t, isWordC c = true := by
  unfold mFade at h
  simp only [Option.bind_eq_some, Option.map_eq_some'] at h
  obtain ⟨r1, hr1, ⟨t0, r2⟩, ht0, _, _, _, _, _, _, ⟨d0, r6⟩, hd0, _, _, hres⟩ := h
  rw [Prod.mk.injEq] at hres
  obtain ⟨rfl, rfl⟩ := hres
  obtain ⟨htne, htw, _, _⟩ := wordTok_wf _ t0 r2 ht0
  exact ⟨htne, htw⟩

theorem mSlice_wf (l t : List Char) (a d : Nat) (h : mSlice l = some (t, a, d)) :
    t ≠ [] ∧ ∀ c ∈ t, isWordC c = true := by
  unfold mSlice at h
  simp only [Option.bind_eq_some, Option.map_eq_some'] at h
  obtain ⟨r1, hr1, ⟨t0, r2⟩, ht0, _, _, _, _, _, _, ⟨d0, r6⟩, hd0, _, _, _, _, _, _,
    ⟨e0, r10⟩, he0, _, _, hres⟩ := h
  rw [Prod.mk.injEq] at hres
  obtain ⟨rfl, hres2⟩ := hres
  obtain ⟨htne, htw, _, _⟩ := wordTok_wf _ t0 r2 ht0
  exact ⟨htne, htw⟩

theorem mReverse_wf (l t : List Char) (h : mReverse l = some t) :
    t ≠ [] ∧ ∀ c ∈ t, isWordC c = true := by
  unfold mReverse at h
  simp only [Option.bind_eq_some, Option.map_eq_some'] at h
  obtain ⟨r1, hr1, ⟨t0, r2⟩, ht0, _, _, rfl⟩ := h
  obtain ⟨htne, htw, _, _⟩ := wordTok_wf _ t0 r2 ht0
  exact ⟨htne, htw⟩

theorem floatTailM_false_wf (l tok : List Char) (h : floatTailM false l = some tok) :
    tok ≠ [] ∧ ∀ c ∈ tok, isFloatC c = true := by
  rcases l with _ | ⟨c, r⟩
  · simp [floatTailM] at h
  · rw [floatTailM_cons, if_neg (by simp)] at h
    simp only [] at h
    by_cases he : ((c :: r).takeWhile isFloatC).isEmpty
    · rw [if_pos he] at h
      exact absurd h (by simp)
    · rw [if_neg he] at h
      simp only [Option.map_eq_some'] at h
      obtain ⟨r2, _, rfl⟩ := h
      exact ⟨by simpa [List.isEmpty_iff] using he,
        fun d hd => List.mem_takeWhile_imp hd⟩

theorem mPan_wf (l t tok : List Char) (h : mPan l = some (t, tok)) :
    t ≠ [] ∧ ∀ c ∈ t, isWordC c = true := by
  unfold mPan at h
  simp only [Option.bind_eq_some, Option.map_eq_some'] at h
  obtain ⟨r1, hr1, ⟨t0, r2⟩, ht0, _, _, _, _, _, _, _, _, hres⟩ := h
  rw [Prod.mk.injEq] at hres
  obtain ⟨rfl, rfl⟩ := hres
  obtain ⟨htne, htw, _, _⟩ := wordTok_wf _ t0 r2 ht0
  exact ⟨htne, htw⟩

theorem mNormalizeA_wf (l t tok : List Char) (h : mNormalizeA l = some (t, tok)) :
    (t ≠ [] ∧ ∀ c ∈ t, isWordC c = true) ∧
      (tok ≠ [] ∧ ∀ c ∈ tok, isFloatC c = true) := by
  unfold mNormalizeA at h
  simp only [Option.bind_eq_some, Option.map_eq_some'] at h
  obtain ⟨r1, hr1, ⟨t0, r2⟩, ht0, r3, hr3, r4, hr4, r5, hr5, tok0, htok0, hres⟩ := h
  rw [Prod.mk.injEq] at hres
  obtain ⟨rfl, rfl⟩ := hres
  obtain ⟨htne, htw, _, _⟩ := wordTok_wf _ t0 r2 ht0
  exact ⟨⟨htne, htw⟩, floatTailM_false_wf _ tok0 htok0⟩

theorem mNormalizeB_wf (l t : List Char) (h : mNormalizeB l = some t) :
    t ≠ [] ∧ ∀ c ∈ t, isWordC c = true := by
  unfold mNormalizeB at h
  simp only [Option.bind_eq_some, Option.map_eq_some'] at h
  obtain ⟨r1, hr1, ⟨t0, r2⟩, ht0, _, _, rfl⟩ := h
  obtain ⟨htne, htw, _, _⟩ := wordTok_wf _ t0 r2 ht0
  exact ⟨htne, htw⟩

theorem mReverb_wf (l t tok : List Char) (h : mReverb l = some (t, tok)) :
    (t ≠ [] ∧ ∀ c ∈ t, isWordC c = true) ∧
      (tok ≠ [] ∧ ∀ c ∈ tok, isFloatC c = true) := by
  unfold mReverb at h
  simp only [Option.bind_eq_some, Option.map_eq_some'] at h
  obtain ⟨r1, hr1, ⟨t0, r2⟩, ht0, r3, hr3, r4, hr4, r5, hr5, tok0, htok0, hres⟩ := h
  rw [Prod.mk.injEq] at hres
  obtain ⟨rfl, rfl⟩ := hres
  obtain ⟨htne, htw, _, _⟩ := wordTok_wf _ t0 r2 ht0
  exact ⟨⟨htne, htw⟩, floatTailM_false_wf _ tok0 htok0⟩

theorem mExport_wf (l f : List Char) (h : mExport l = some f) :
    f ≠ [] ∧ (∀ c ∈ f, ¬ c = '"') ∧ ∀ c ∈ f, c ∈ l := by
  unfold mExport at h
  simp only [Option.bind_eq_some, Option.map_eq_some'] at h
  obtain ⟨r1, hr1, r2, hr2, ⟨f0, r3⟩, hf0, r4, hr4, r5, hr5, rfl⟩ := h
  obtain ⟨hfne, hfq, hfsub, _⟩ := quotTok_wf r2 f0 r3 hf0
  refine ⟨hfne, hfq, ?_⟩
  intro c hc
  exact litM_sub _ _ _ hr1 c (ws0_sub r1 c (litM_sub _ _ _ hr2 c (hfsub c hc)))

theorem keyAt_wf (l k : List Char) (h : keyAt l = some k) :
    k ≠ [] ∧ (∀ c ∈ k, ¬ c = '"') ∧ ∀ c ∈ k, c ∈ l := by
  unfold keyAt at h
  simp only [Option.bind_eq_some, Option.map_eq_some'] at h
  obtain ⟨r1, hr1, r2, hr2, r3, hr3, ⟨k0, r4⟩, hk0, r5, hr5, rfl⟩ := h
  obtain ⟨hkne, hkq, hksub, _⟩ := quotTok_wf r3 k0 r4 hk0
  refine ⟨hkne, hkq, ?_⟩
  intro c hc
  exact litM_sub _ _ _ hr1 c (ws0_sub r1 c (litM_sub _ _ _ hr2 c
    (ws0_sub r2 c (litM_sub _ _ _ hr3 c (hksub c hc)))))

theorem searchKey_wf : ∀ (l k : List Char), searchKey l = some k →
    k ≠ [] ∧ (∀ c ∈ k, ¬ c = '"') ∧ ∀ c ∈ k, c ∈ l
  | [], k, h => by simp [searchKey] at h
  | c :: rest, k, h => by
    rw [show searchKey (c :: rest) =
      (match keyAt (c :: rest) with
       | some k => some k
       | none => searchKey rest) from rfl] at h
    rcases hk : keyAt (c :: rest) with _ | k0
    · rw [hk] at h
      simp only [] at h
      obtain ⟨h1, h2, h3⟩ := searchKey_wf rest k h
      exact ⟨h1, h2, fun d hd => List.mem_cons_of_mem c (h3 d hd)⟩
    · rw [hk] at h
      simp only [] at h
      injection h with h
      subst h
      exact keyAt_wf _ k0 hk

theorem pyFloat_floatC_nonneg (tok : List Char) (q : ℚ)
    (hcl : ∀ c ∈ tok, isFloatC c = true) (h : pyFloatOfChars tok = some q) : 0 ≤ q := by
  rcases tok with _ | ⟨c, r⟩
  · simp [pyFloatOfChars, pyFloatBody] at h
  · have hcne : ¬ c = '-' := by
      intro hcon
      subst hcon
      exact absurd (hcl '-' (by simp)) (by decide)
    rw [pyFloatOfChars_cons, if_neg hcne] at h
    exact (pyFloatBody_wf h).1

theorem parseLine_wf (l : List Char) (hnl : ∀ c ∈ l, ¬ c = '\n' ∧ ¬ c = '\r')
    (cmd : Cmd) (h : parseLine l = .ok (some cmd)) : WFCmd cmd := by
  have hnlS : ∀ c ∈ stripL l, ¬ c = '\n' ∧ ¬ c = '\r' :=
    fun c hc => hnl c (stripL_sub l c hc)
  unfold parseLine at h
  by_cases h1 : (stripL l).isEmpty
  · rw [if_pos h1] at h; simp at h
  rw [if_neg h1] at h
  by_cases h2 : (stripL l).head? = some '#'
  · rw [if_pos h2] at h; simp at h
  rw [if_neg h2] at h
  by_cases h3 : swCh "set(".data (stripL l)
  · rw [if_pos h3] at h
    simp only [Except.ok.injEq, Option.some.injEq] at h
    subst h
    intro s hs
    simp only [Option.map_eq_some'] at hs
    obtain ⟨k, hk, rfl⟩ := hs
    obtain ⟨hkne, hkq, hksub⟩ := searchKey_wf _ k hk
    exact ⟨hkne, fun c hc => ⟨hkq c hc, (hnlS c (hksub c hc)).1, (hnlS c (hksub c hc)).2⟩⟩
  rw [if_neg h3] at h
  by_cases h4 : swCh "load".data (stripL l)
  · rw [if_pos h4] at h
    rcases hm : mLoad (stripL l) with _ | ⟨t, f⟩ <;> rw [hm] at h
    · simp at h
    · simp only [Except.ok.injEq, Option.some.injEq] at h
      subst h
      obtain ⟨⟨htne, htw⟩, hfne, hfq, hfsub⟩ := mLoad_wf _ t f hm
      exact ⟨⟨htne, htw⟩, hfne,
        fun c hc => ⟨hfq c hc, (hnlS c (hfsub c hc)).1, (hnlS c (hfsub c hc)).2⟩⟩
  rw [if_neg h4] at h
  by_cases h5 : swCh "loop".data (stripL l)
  · rw [if_pos h5] at h
    rcases hm : mLoop (stripL l) with _ | ⟨t, n⟩ <;> rw [hm] at h
    · simp at h
    · simp only [Except.ok.injEq, Option.some.injEq] at h
      subst h
      exact mLoop_wf _ t n hm
  rw [if_neg h5] at h
  by_cases h6 : swCh "gain".data (stripL l)
  · rw [if_pos h6] at h
    rcases hm : mGain (stripL l) with _ | ⟨t, i⟩ <;> rw [hm] at h
    · simp at h
    · simp only [Except.ok.injEq, Option.some.injEq] at h
      subst h
      exact mGain_wf _ t i hm
  rw [if_neg h6] at h
  by_cases h7 : swCh "fadeIn".data (stripL l)
  · rw [if_pos h7] at h
    rcases hm : mFade "fadeIn(".data (stripL l) with _ | ⟨t, n⟩ <;> rw [hm] at h
    · simp at h
    · simp only [Except.ok.injEq, Option.some.injEq] at h
      subst h
      exact mFade_wf _ _ t n hm
  rw [if_neg h7] at h
  by_cases h8 : swCh "fadeOut".data (stripL l)
  · rw [if_pos h8] at h
    rcases hm : mFade "fadeOut(".data (stripL l) with _ | ⟨t, n⟩ <;> rw [hm] at h
    · simp at h
    · simp only [Except.ok.injEq, Option.some.injEq] at h
      subst h
      exact mFade_wf _ _ t n hm
  rw [if_neg h8] at h
  by_cases h9 : swCh "slice".data (stripL l)
  · rw [if_pos h9] at h
    rcases hm : mSlice (stripL l) with _ | ⟨t, a, d⟩ <;> rw [hm] at h
    · simp at h
    · simp only [Except.ok.injEq, Option.some.injEq] at h
      subst h
      exact mSlice_wf _ t a d hm
  rw [if_neg h9] at h
  by_cases h10 : swCh "reverse".data (stripL l)
  · rw [if_pos h10] at h
    rcases hm : mReverse (stripL l) with _ | t <;> rw [hm] at h
    · simp at h
    · simp only [Except.ok.injEq, Option.some.injEq] at h
      subst h
      exact mReverse_wf _ t hm
  rw [if_neg h10] at h
  by_cases h11 : swCh "pan".data (stripL l)
  · rw [if_pos h11] at h
    rcases hm : mPan (stripL l) with _ | ⟨t, tok⟩ <;> rw [hm] at h
    · simp at h
    · simp only [] at h
      rcases hq : pyFloatOfChars tok with _ | q <;> rw [hq] at h
      · simp at h
      · simp only [Except.ok.injEq, Option.some.injEq] at h
        subst h
        exact ⟨mPan_wf _ t tok hm, pyFloat_wf hq⟩
  rw [if_neg h11] at h
  by_cases h12 : swCh "normalize".data (stripL l)
  · rw [if_pos h12] at h
    rcases hm : mNormalizeA (stripL l) with _ | ⟨t, tok⟩ <;> rw [hm] at h
    · rcases hmB : mNormalizeB (stripL l) with _ | t <;> rw [hmB] at h
      · simp at h
      · simp only [Except.ok.injEq, Option.some.injEq] at h
        subst h
        exact ⟨mNormalizeB_wf _ t hmB, by intro q hq; simp at hq⟩
    · simp only [] at h
      rcases hq : pyFloatOfChars tok with _ | q <;> rw [hq] at h
      · simp at h
      · simp only [Except.ok.injEq, Option.some.injEq] at h
        subst h
        obtain ⟨hword, htokne, htokcl⟩ := mNormalizeA_wf _ t tok hm
        refine ⟨hword, ?_⟩
        intro q0 hq0
        injection hq0 with hq0
        subst hq0
        exact ⟨pyFloat_wf hq, pyFloat_floatC_nonneg tok q htokcl hq⟩
  rw [if_neg h12] at h
  by_cases h13 : swCh "reverb".data (stripL l)
  · rw [if_pos h13] at h
    rcases hm : mReverb (stripL l) with _ | ⟨t, tok⟩ <;> rw [hm] at h
    · simp at h
    · simp only [] at h
      rcases hq : pyFloatOfChars tok with _ | q <;> rw [hq] at h
      · simp at h
      · simp only [Except.ok.injEq, Option.some.injEq] at h
        subst h
        obtain ⟨hword, htokne, htokcl⟩ := mReverb_wf _ t tok hm
        exact ⟨hword, pyFloat_wf hq, pyFloat_floatC_nonneg tok _ htokcl hq⟩
  rw [if_neg h13] at h
  by_cases h14 : swCh "export".data (stripL l)
  · rw [if_pos h14] at h
    rcases hm : mExport (stripL l) with _ | f <;> rw [hm] at h
    · simp at h
    · simp only [Except.ok.injEq, Option.some.injEq] at h
      subst h
      obtain ⟨hfne, hfq, hfsub⟩ := mExport_wf _ f hm
      exact ⟨hfne,
        fun c hc => ⟨hfq c hc, (hnlS c (hfsub c hc)).1, (hnlS c (hfsub c hc)).2⟩⟩
  rw [if_neg h14] at h
  simp at h

theorem splitLinesGo_cons_cr_other (c1 : Char) (r2 cur : List Char) (hn : ¬ c1 = '\n') :
    splitLinesGo cur ('\r' :: c1 :: r2) = cur.reverse :: splitLinesGo [] (c1 :: r2) := by
  rw [splitLinesGo.eq_def]
  split
  · simp_all
  · rename_i heq
    rw [List.cons_eq_cons] at heq
    obtain ⟨-, heq2⟩ := heq
    rw [List.cons_eq_cons] at heq2
    exact absurd heq2.1 hn
  · rename_i heq
    rw [List.cons_eq_cons] at heq
    rw [heq.2]
  · simp_all
  · rename_i hne_r hne_n heq
    rw [List.cons_eq_cons] at heq
    exact absurd heq.1.symm hne_r

theorem splitLines_no_nl : ∀ (m cur : List Char),
    (∀ c ∈ cur, ¬ c = '\n' ∧ ¬ c = '\r') →
    ∀ x ∈ splitLinesGo cur m, ∀ c ∈ x, ¬ c = '\n' ∧ ¬ c = '\r'
  | [], cur, hcur => by
    intro x hx
    simp [splitLinesGo] at hx
    subst hx
    intro c hc
    exact hcur c (by simpa using hc)
  | c0 :: rest, cur, hcur => by
    by_cases hr : c0 = '\r'
    · subst hr
      rcases rest with _ | ⟨c1, r2⟩
      · intro x hx c hc
        rw [show splitLinesGo cur ['\r'] = [cur.reverse, []] from rfl] at hx
        simp at hx
        rcases hx with rfl | rfl
        · exact hcur c (by simpa using hc)
        · simp at hc
      · by_cases hn : c1 = '\n'
        · subst hn
          rw [show splitLinesGo cur ('\r' :: '\n' :: r2) =
            cur.reverse :: splitLinesGo [] r2 from rfl]
          intro x hx c hc
          rcases List.mem_cons.mp hx with rfl | hx2
          · exact hcur c (by simpa using hc)
          · exact splitLines_no_nl r2 [] (by simp) x hx2 c hc
        · rw [splitLinesGo_cons_cr_other c1 r2 cur hn]
          intro x hx c hc
          rcases List.mem_cons.mp hx with rfl | hx2
          · exact hcur c (by simpa using hc)
          · exact splitLines_no_nl (c1 :: r2) [] (by simp) x hx2 c hc
    · by_cases hn : c0 = '\n'
      · subst hn
        rw [splitLinesGo_cons_nl]
        intro x hx c hc
        rcases List.mem_cons.mp hx with rfl | hx2
        · exact hcur c (by simpa using hc)
        · exact splitLines_no_nl rest [] (by simp) x hx2 c hc
      · rw [splitLinesGo_cons_other c0 rest cur hr hn]
        intro x hx c hc
        apply splitLines_no_nl rest (c0 :: cur) ?hcur x hx c hc
        intro d hd
        rcases List.mem_cons.mp hd with rfl | hd2
        · exact ⟨hn, hr⟩
        · exact hcur d hd2

theorem parseLines_wf : ∀ (ls : List (List Char)) (cs : List Cmd),
    (∀ x ∈ ls, ∀ c ∈ x, ¬ c = '\n' ∧ ¬ c = '\r') →
    parseLines ls = .ok cs → ∀ cmd ∈ cs, WFCmd cmd
  | [], cs, _, h => by
    simp [parseLines] at h
    subst h
    intro cmd hcmd
    simp at hcmd
  | l :: rest, cs, hnl, h => by
    rw [show parseLines (l :: rest) =
      (match parseLine l with
       | .error e => .error e
       | .ok c =>
         match parseLines rest with
         | .error e => .error e
         | .ok cs =>
           match c with
           | some cmd => .ok (cmd :: cs)
           | none => .ok cs) from rfl] at h
    rcases hpl : parseLine l with e | oc <;> rw [hpl] at h
    · simp at h
    · rcases hrest : parseLines rest with e | cs' <;> rw [hrest] at h
      · simp at h
      · have hrec := parseLines_wf rest cs' (fun x hx => hnl x (by simp [hx])) hrest
        rcases oc with _ | cmd0
        · simp only [] at h
          injection h with h
          subst h
          exact hrec
        · simp only [] at h
          injection h with h
          subst h
          intro cmd hcmd
          rcases List.mem_cons.mp hcmd with rfl | hcmd2
          · exact parseLine_wf l (hnl l (by simp)) cmd hpl
          · exact hrec cmd hcmd2

theorem parse_wf (text : String) (cs : List Cmd) (h : parse text = .ok cs) :
    ∀ cmd ∈ cs, WFCmd cmd := by
  unfold parse at h
  by_cases he : (stripL text.data).isEmpty
  · rw [if_pos he] at h
    injection h with h
    subst h
    intro cmd hcmd
    simp at hcmd
  · rw [if_neg he] at h
    exact parseLines_wf _ cs
      (splitLines_no_nl (stripL text.data) [] (by simp)) h

/-! ### The emitted line of every well-formed command parses back to it -/

/-- No line separator occurs among these characters. -/
def noNL (l : List Char) : Prop := ∀ c ∈ l, ¬ c = '\n' ∧ ¬ c = '\r'

theorem noNL_append {a b : List Char} (ha : noNL a) (hb : noNL b) : noNL (a ++ b) := by
  intro c hc
  rcases List.mem_append.mp hc with h | h
  · exact ha c h
  · exact hb c h

theorem noNL_cons {c0 : Char} {l : List Char} (h1 : ¬ c0 = '\n' ∧ ¬ c0 = '\r')
    (h2 : noNL l) : noNL (c0 :: l) := by
  intro c hc
  rcases List.mem_cons.mp hc with rfl | h
  · exact h1
  · exact h2 c h

theorem noNL_word {t : List Char} (h : ∀ c ∈ t, isWordC c = true) : noNL t := by
  intro c hc
  constructor
  · intro hcon; subst hcon; exact absurd (h _ hc) (by decide)
  · intro hcon; subst hcon; exact absurd (h _ hc) (by decide)

theorem noNL_nat (n : Nat) : noNL (natToChars n) :=
  noNL_word (fun c hc => digitC_word (natToChars_digits n c hc))

theorem noNL_int (i : Int) : noNL (intToChars i) := by
  unfold intToChars
  by_cases hi : i < 0
  · rw [if_pos hi]
    exact noNL_cons (by decide) (noNL_nat _)
  · rw [if_neg hi]
    exact noNL_nat _

theorem noNL_float {l : List Char} (h : ∀ c ∈ l, isFloatC c = true) : noNL l := by
  intro c hc
  have := h c hc
  simp [isFloatC] at this
  rcases this with hd | hd
  · constructor
    · intro hcon; subst hcon; exact absurd hd (by decide)
    · intro hcon; subst hcon; exact absurd hd (by decide)
  · subst hd; exact ⟨by decide, by decide⟩

theorem noNL_rat (q : ℚ) : noNL (ratChars q) := by
  unfold ratChars
  by_cases hq : q < 0
  · rw [if_pos hq]
    exact noNL_cons (by decide) (noNL_float (ratBody_class (-q)).1)
  · rw [if_neg hq]
    exact noNL_float (ratBody_class q).1

theorem noNL_quot {f : String} (h : WFquot f) : noNL f.data :=
  fun c hc => ⟨(h.2 c hc).2.1, (h.2 c hc).2.2⟩

theorem good_loop (tr : String) (n : Nat) (h : WFword tr) :
    parseLine (emitCmd (.loop tr n)) = .ok (some (.loop tr n)) ∧
      goodLine (emitCmd (.loop tr n)) := by
  obtain ⟨h1, h2⟩ := h
  have hshape : emitCmd (.loop tr n) =
      "loop(".data ++ (tr.data ++ (", bars=".data ++ (natToChars n ++ ")".data))) := by
    simp [emitCmd, List.append_assoc]
  rw [hshape]
  refine ⟨reparse_loop tr.data n h1 h2, by simp, ?_, ?_, ?_⟩
  · exact noNL_append (by unfold noNL; decide) (noNL_append (noNL_word h2)
      (noNL_append (by unfold noNL; decide) (noNL_append (noNL_nat n)
        (by unfold noNL; decide))))
  · intro c hc
    rw [show ("loop(".data ++ (tr.data ++ (", bars=".data ++
      (natToChars n ++ ")".data)))).head? = some 'l' from rfl] at hc
    cases hc
    decide
  · intro c hc
    rw [show ("loop(".data ++ (tr.data ++ (", bars=".data ++
      (natToChars n ++ ")".data)))).getLast? = some ')' from
      getLast?_or_right _ (getLast?_or_right _ (getLast?_or_right _
        (getLast?_or_right _ rfl)))] at hc
    cases hc
    decide

theorem good_load (tr f : String) (ht : WFword tr) (hf : WFquot f) :
    parseLine (emitCmd (.load tr f)) = .ok (some (.load tr f)) ∧
      goodLine (emitCmd (.load tr f)) := by
  obtain ⟨h1, h2⟩ := ht
  have hshape : emitCmd (.load tr f) =
      "load ".data ++ (tr.data ++ (" from \"".data ++ (f.data ++ "\"".data))) := by
    simp [emitCmd, List.append_assoc]
  rw [hshape]
  refine ⟨reparse_load tr.data f.data h1 h2 hf.1 (fun c hc => (hf.2 c hc).1), by simp, ?_, ?_, ?_⟩
  · exact noNL_append (by unfold noNL; decide) (noNL_append (noNL_word h2)
      (noNL_append (by unfold noNL; decide) (noNL_append (noNL_quot hf) (by unfold noNL; decide))))
  · intro c hc
    rw [show ("load ".data ++ (tr.data ++ (" from \"".data ++ (f.data ++ "\"".data)))).head? = some 'l' from rfl] at hc
    cases hc
    decide
  · intro c hc
    rw [show ("load ".data ++ (tr.data ++ (" from \"".data ++ (f.data ++ "\"".data)))).getLast? = some '"' from getLast?_or_right _ (getLast?_or_right _ (getLast?_or_right _
      (getLast?_or_right _ (show ("\"".data : List Char).getLast? = some '"' from rfl))))] at hc
    cases hc
    decide


theorem good_gain (tr : String) (i : Int) (ht : WFword tr) :
    parseLine (emitCmd (.gain tr i)) = .ok (some (.gain tr i)) ∧
      goodLine (emitCmd (.gain tr i)) := by
  obtain ⟨h1, h2⟩ := ht
  have hshape : emitCmd (.gain tr i) =
      "gain(".data ++ (tr.data ++ (", ".data ++ (intToChars i ++ ")".data))) := by
    simp [emitCmd, List.append_assoc]
  rw [hshape]
  refine ⟨reparse_gain tr.data i h1 h2, by simp, ?_, ?_, ?_⟩
  · exact noNL_append (by unfold noNL; decide) (noNL_append (noNL_word h2)
      (noNL_append (by unfold noNL; decide) (noNL_append (noNL_int i) (by unfold noNL; decide))))
  · intro c hc
    rw [show ("gain(".data ++ (tr.data ++ (", ".data ++ (intToChars i ++ ")".data)))).head? = some 'g' from rfl] at hc
    cases hc
    decide
  · intro c hc
    rw [show ("gain(".data ++ (tr.data ++ (", ".data ++ (intToChars i ++ ")".data)))).getLast? = some ')' from getLast?_or_right _ (getLast?_or_right _ (getLast?_or_right _
      (getLast?_or_right _ rfl)))] at hc
    cases hc
    decide


theorem good_fadeIn (tr : String) (n : Nat) (ht : WFword tr) :
    parseLine (emitCmd (.fadeIn tr n)) = .ok (some (.fadeIn tr n)) ∧
      goodLine (emitCmd (.fadeIn tr n)) := by
  obtain ⟨h1, h2⟩ := ht
  have hshape : emitCmd (.fadeIn tr n) =
      "fadeIn(".data ++ (tr.data ++ (", seconds=".data ++ (natToChars n ++ ")".data))) := by
    simp [emitCmd, List.append_assoc]
  rw [hshape]
  refine ⟨reparse_fadeIn tr.data n h1 h2, by simp, ?_, ?_, ?_⟩
  · exact noNL_append (by unfold noNL; decide) (noNL_append (noNL_word h2)
      (noNL_append (by unfold noNL; decide) (noNL_append (noNL_nat n) (by unfold noNL; decide))))
  · intro c hc
    rw [show ("fadeIn(".data ++ (tr.data ++ (", seconds=".data ++ (natToChars n ++ ")".data)))).head? = some 'f' from rfl] at hc
    cases hc
    decide
  · intro c hc
    rw [show ("fadeIn(".data ++ (tr.data ++ (", seconds=".data ++ (natToChars n ++ ")".data)))).getLast? = some ')' from getLast?_or_right _ (getLast?_or_right _ (getLast?_or_right _
      (getLast?_or_right _ rfl)))] at hc
    cases hc
    decide


theorem good_fadeOut (tr : String) (n : Nat) (ht : WFword tr) :
    parseLine (emitCmd (.fadeOut tr n)) = .ok (some (.fadeOut tr n)) ∧
      goodLine (emitCmd (.fadeOut tr n)) := by
  obtain ⟨h1, h2⟩ := ht
  have hshape : emitCmd (.fadeOut tr n) =
      "fadeOut(".data ++ (tr.data ++ (", seconds=".data ++ (natToChars n ++ ")".data))) := by
    simp [emitCmd, List.append_assoc]
  rw [hshape]
  refine ⟨reparse_fadeOut tr.data n h1 h2, by simp, ?_, ?_, ?_⟩
  · exact noNL_append (by unfold noNL; decide) (noNL_append (noNL_word h2)
      (noNL_append (by unfold noNL; decide) (noNL_append (noNL_nat n) (by unfold noNL; decide))))
  · intro c hc
    rw [show ("fadeOut(".data ++ (tr.data ++ (", seconds=".data ++ (natToChars n ++ ")".data)))).head? = some 'f' from rfl] at hc
    cases hc
    decide
  · intro c hc
    rw [show ("fadeOut(".data ++ (tr.data ++ (", seconds=".data ++ (natToChars n ++ ")".data)))).getLast? = some ')' from getLast?_or_right _ (getLast?_or_right _ (getLast?_or_right _
      (getLast?_or_right _ rfl)))] at hc
    cases hc
    decide


theorem good_slice (tr : String) (a d : Nat) (ht : WFword tr) :
    parseLine (emitCmd (.slice tr a d)) = .ok (some (.slice tr a d)) ∧
      goodLine (emitCmd (.slice tr a d)) := by
  obtain ⟨h1, h2⟩ := ht
  have hshape : emitCmd (.slice tr a d) =
      "slice(".data ++ (tr.data ++ (", start=".data ++ (natToChars a ++ (", duration=".data ++ (natToChars d ++ ")".data))))) := by
    simp [emitCmd, List.append_assoc]
  rw [hshape]
  refine ⟨reparse_slice tr.data a d h1 h2, by simp, ?_, ?_, ?_⟩
  · exact noNL_append (by unfold noNL; decide) (noNL_append (noNL_word h2)
      (noNL_append (by unfold noNL; decide) (noNL_append (noNL_nat a)
      (noNL_append (by unfold noNL; decide) (noNL_append (noNL_nat d) (by unfold noNL; decide))))))
  · intro c hc
    rw [show ("slice(".data ++ (tr.data ++ (", start=".data ++ (natToChars a ++ (", duration=".data ++ (natToChars d ++ ")".data)))))).head? = some 's' from rfl] at hc
    cases hc
    decide
  · intro c hc
    rw [show ("slice(".data ++ (tr.data ++ (", start=".data ++ (natToChars a ++ (", duration=".data ++ (natToChars d ++ ")".data)))))).getLast? = some ')' from getLast?_or_right _ (getLast?_or_right _ (getLast?_or_right _
      (getLast?_or_right _ (getLast?_or_right _ (getLast?_or_right _ rfl)))))] at hc
    cases hc
    decide


theorem good_reverse (tr : String) (ht : WFword tr) :
    parseLine (emitCmd (.reverse tr)) = .ok (some (.reverse tr)) ∧
      goodLine (emitCmd (.reverse tr)) := by
  obtain ⟨h1, h2⟩ := ht
  have hshape : emitCmd (.reverse tr) =
      "reverse(".data ++ (tr.data ++ ")".data) := by
    simp [emitCmd, List.append_assoc]
  rw [hshape]
  refine ⟨reparse_reverse tr.data h1 h2, by simp, ?_, ?_, ?_⟩
  · exact noNL_append (by unfold noNL; decide) (noNL_append (noNL_word h2) (by unfold noNL; decide))
  · intro c hc
    rw [show ("reverse(".data ++ (tr.data ++ ")".data)).head? = some 'r' from rfl] at hc
    cases hc
    decide
  · intro c hc
    rw [show ("reverse(".data ++ (tr.data ++ ")".data)).getLast? = some ')' from getLast?_or_right _ (getLast?_or_right _ rfl)] at hc
    cases hc
    decide


theorem pyStr_eq_ratChars (q : ℚ) (h : posRange q) : pyStr q = ratChars q := by
  unfold pyStr
  rcases h with rfl | ⟨h1, h2⟩
  · rw [if_pos rfl]
  · by_cases hz : q = 0
    · rw [if_pos hz]
    · rw [if_neg hz, if_neg (by push_neg; exact ⟨h1, h2⟩)]

theorem good_pan (tr : String) (q : ℚ) (ht : WFword tr) (hwf : WFQv q)
    (hpos : posRange q) :
    parseLine (emitCmd (.pan tr q)) = .ok (some (.pan tr q)) ∧
      goodLine (emitCmd (.pan tr q)) := by
  obtain ⟨h1, h2⟩ := ht
  have hshape : emitCmd (.pan tr q) =
      "pan(".data ++ (tr.data ++ (", amount=".data ++ (ratChars q ++ ")".data))) := by
    simp [emitCmd, pyStr_eq_ratChars q hpos, List.append_assoc]
  rw [hshape]
  refine ⟨reparse_pan tr.data q h1 h2 hwf, by simp, ?_, ?_, ?_⟩
  · exact noNL_append (by unfold noNL; decide) (noNL_append (noNL_word h2)
      (noNL_append (by unfold noNL; decide) (noNL_append (noNL_rat q) (by unfold noNL; decide))))
  · intro c hc
    rw [show ("pan(".data ++ (tr.data ++ (", amount=".data ++ (ratChars q ++ ")".data)))).head? = some 'p' from rfl] at hc
    cases hc
    decide
  · intro c hc
    rw [show ("pan(".data ++ (tr.data ++ (", amount=".data ++ (ratChars q ++ ")".data)))).getLast? = some ')' from getLast?_or_right _ (getLast?_or_right _ (getLast?_or_right _
      (getLast?_or_right _ rfl)))] at hc
    cases hc
    decide


theorem good_normalize_some (tr : String) (q : ℚ) (ht : WFword tr) (hq : 0 ≤ q) (hwf : WFQv q)
    (hpos : posRange q) :
    parseLine (emitCmd (.normalize tr (some q))) = .ok (some (.normalize tr (some q))) ∧
      goodLine (emitCmd (.normalize tr (some q))) := by
  obtain ⟨h1, h2⟩ := ht
  have hshape : emitCmd (.normalize tr (some q)) =
      "normalize(".data ++ (tr.data ++ (", headroom=".data ++ (ratChars q ++ ")".data))) := by
    simp [emitCmd, pyStr_eq_ratChars q hpos, List.append_assoc]
  rw [hshape]
  refine ⟨reparse_normalize_some tr.data q h1 h2 hq hwf, by simp, ?_, ?_, ?_⟩
  · exact noNL_append (by unfold noNL; decide) (noNL_append (noNL_word h2)
      (noNL_append (by unfold noNL; decide) (noNL_append (noNL_rat q) (by unfold noNL; decide))))
  · intro c hc
    rw [show ("normalize(".data ++ (tr.data ++ (", headroom=".data ++ (ratChars q ++ ")".data)))).head? = some 'n' from rfl] at hc
    cases hc
    decide
  · intro c hc
    rw [show ("normalize(".data ++ (tr.data ++ (", headroom=".data ++ (ratChars q ++ ")".data)))).getLast? = some ')' from getLast?_or_right _ (getLast?_or_right _ (getLast?_or_right _
      (getLast?_or_right _ rfl)))] at hc
    cases hc
    decide


theorem good_normalize_none (tr : String) (ht : WFword tr) :
    parseLine (emitCmd (.normalize tr none)) = .ok (some (.normalize tr none)) ∧
      goodLine (emitCmd (.normalize tr none)) := by
  obtain ⟨h1, h2⟩ := ht
  have hshape : emitCmd (.normalize tr none) =
      "normalize(".data ++ (tr.data ++ ")".data) := by
    simp [emitCmd, List.append_assoc]
  rw [hshape]
  refine ⟨reparse_normalize_none tr.data h1 h2, by simp, ?_, ?_, ?_⟩
  · exact noNL_append (by unfold noNL; decide) (noNL_append (noNL_word h2) (by unfold noNL; decide))
  · intro c hc
    rw [show ("normalize(".data ++ (tr.data ++ ")".data)).head? = some 'n' from rfl] at hc
    cases hc
    decide
  · intro c hc
    rw [show ("normalize(".data ++ (tr.data ++ ")".data)).getLast? = some ')' from getLast?_or_right _ (getLast?_or_right _ rfl)] at hc
    cases hc
    decide


theorem good_reverb (tr : String) (q : ℚ) (ht : WFword tr) (hq : 0 ≤ q) (hwf : WFQv q)
    (hpos : posRange q) :
    parseLine (emitCmd (.reverb tr q)) = .ok (some (.reverb tr q)) ∧
      goodLine (emitCmd (.reverb tr q)) := by
  obtain ⟨h1, h2⟩ := ht
  have hshape : emitCmd (.reverb tr q) =
      "reverb(".data ++ (tr.data ++ (", amount=".data ++ (ratChars q ++ ")".data))) := by
    simp [emitCmd, pyStr_eq_ratChars q hpos, List.append_assoc]
  rw [hshape]
  refine ⟨reparse_reverb tr.data q h1 h2 hq hwf, by simp, ?_, ?_, ?_⟩
  · exact noNL_append (by unfold noNL; decide) (noNL_append (noNL_word h2)
      (noNL_append (by unfold noNL; decide) (noNL_append (noNL_rat q) (by unfold noNL; decide))))
  · intro c hc
    rw [show ("reverb(".data ++ (tr.data ++ (", amount=".data ++ (ratChars q ++ ")".data)))).head? = some 'r' from rfl] at hc
    cases hc
    decide
  · intro c hc
    rw [show ("reverb(".data ++ (tr.data ++ (", amount=".data ++ (ratChars q ++ ")".data)))).getLast? = some ')' from getLast?_or_right _ (getLast?_or_right _ (getLast?_or_right _
      (getLast?_or_right _ rfl)))] at hc
    cases hc
    decide


theorem good_export (f : String) (hf : WFquot f) :
    parseLine (emitCmd (.exportCmd f)) = .ok (some (.exportCmd f)) ∧
      goodLine (emitCmd (.exportCmd f)) := by
  have hshape : emitCmd (.exportCmd f) =
      "export(\"".data ++ (f.data ++ "\")".data) := by
    simp [emitCmd, List.append_assoc]
  rw [hshape]
  refine ⟨reparse_export f.data hf.1 (fun c hc => (hf.2 c hc).1), by simp, ?_, ?_, ?_⟩
  · exact noNL_append (by unfold noNL; decide) (noNL_append (noNL_quot hf) (by unfold noNL; decide))
  · intro c hc
    rw [show ("export(\"".data ++ (f.data ++ "\")".data)).head? = some 'e' from rfl] at hc
    cases hc
    decide
  · intro c hc
    rw [show ("export(\"".data ++ (f.data ++ "\")".data)).getLast? = some ')' from getLast?_or_right _ (getLast?_or_right _
      (show ("\")".data : List Char).getLast? = some ')' from rfl))] at hc
    cases hc
    decide


theorem good_set (n : Nat) (k : String) (hk : WFquot k) :
    parseLine (emitCmd (.set (some n) (some k))) = .ok (some (.set (some n) (some k))) ∧
      goodLine (emitCmd (.set (some n) (some k))) := by
  have hshape : emitCmd (.set (some n) (some k)) =
      "set(bpm=".data ++ (natToChars n ++ (", key=\"".data ++ (k.data ++ "\")".data))) := by
    simp [emitCmd, List.append_assoc]
  rw [hshape]
  refine ⟨reparse_set n k.data hk.1 (fun c hc => (hk.2 c hc).1), by simp, ?_, ?_, ?_⟩
  · exact noNL_append (by unfold noNL; decide) (noNL_append (noNL_nat n)
      (noNL_append (by unfold noNL; decide) (noNL_append (noNL_quot hk) (by unfold noNL; decide))))
  · intro c hc
    rw [show ("set(bpm=".data ++ (natToChars n ++ (", key=\"".data ++ (k.data ++ "\")".data)))).head? = some 's' from rfl] at hc
    cases hc
    decide
  · intro c hc
    rw [show ("set(bpm=".data ++ (natToChars n ++ (", key=\"".data ++ (k.data ++ "\")".data)))).getLast? = some ')' from getLast?_or_right _ (getLast?_or_right _ (getLast?_or_right _
      (getLast?_or_right _ (show ("\")".data : List Char).getLast? = some ')' from rfl))))] at hc
    cases hc
    decide

theorem emit_reparse (cmd : Cmd) (hwf : WFCmd cmd) (hsc : setComplete cmd)
    (hfp : floatPositional cmd) :
    parseLine (emitCmd cmd) = .ok (some cmd) ∧ goodLine (emitCmd cmd) := by
  cases cmd with
  | set b k =>
    obtain ⟨hb, hk⟩ := hsc
    obtain ⟨n, rfl⟩ := Option.isSome_iff_exists.mp hb
    obtain ⟨s, rfl⟩ := Option.isSome_iff_exists.mp hk
    exact good_set n s (hwf s rfl)
  | load t f => exact good_load t f hwf.1 hwf.2
  | loop t n => exact good_loop t n hwf
  | gain t i => exact good_gain t i hwf
  | fadeIn t n => exact good_fadeIn t n hwf
  | fadeOut t n => exact good_fadeOut t n hwf
  | slice t a d => exact good_slice t a d hwf
  | reverse t => exact good_reverse t hwf
  | pan t q => exact good_pan t q hwf.1 hwf.2 hfp
  | normalize t h =>
    cases h with
    | none => exact good_normalize_none t hwf.1
    | some q => exact good_normalize_some t q hwf.1 (hwf.2 q rfl).2 (hwf.2 q rfl).1 (hfp q rfl)
  | reverb t q => exact good_reverb t q hwf.1 hwf.2.2 hwf.2.1 hfp
  | exportCmd f => exact good_export f hwf

/-! ## Claim C1: the round-trip law -/

/-- Golden samples pinning `pyStr` to Python `str(float)` output (checked
against CPython): positional inside `[1e-4, 1e16)`, scientific outside. -/
theorem pyStr_samples :
    pyStr (1 / 100000) = "1e-05".data ∧ pyStr (3 / 200000) = "1.5e-05".data ∧
      pyStr (123 / 10000000) = "1.23e-05".data ∧ pyStr (10 ^ 17) = "1e+17".data ∧
      pyStr (-1 / 4) = "-0.25".data ∧ pyStr (1 / 10000) = "0.0001".data ∧
      pyStr 0 = "0.0".data :=
  ⟨of_decide_eq_true (by with_unfolding_all rfl),
    of_decide_eq_true (by with_unfolding_all rfl),
    of_decide_eq_true (by with_unfolding_all rfl),
    of_decide_eq_true (by with_unfolding_all rfl),
    of_decide_eq_true (by with_unfolding_all rfl),
    of_decide_eq_true (by with_unfolding_all rfl),
    of_decide_eq_true (by with_unfolding_all rfl)⟩

set_option maxRecDepth 8000 in
/-- C1 counterexample, two independent failures of the §4.2 law.  First,
`set(bpm=100)` is accepted by `parse` but `from_yaml` emits the missing
`key` field as the string `"None"`, so the round trip yields a different
command sequence.  Second, `pan(t, amount=0.00001)` is accepted (no `set`
involved at all), but `str(float)` renders the amount as `1e-05`, the
emitted line `pan(t, amount=1e-05)` no longer matches the `pan` regex, and
the round trip raises `Invalid pan syntax` instead of returning commands. -/
theorem C1_roundtrip_counterexample :
    (parse "set(bpm=100)" = .ok [.set (some 100) none] ∧
      roundTrip "set(bpm=100)" = .ok [.set (some 100) (some "None")] ∧
      roundTrip "set(bpm=100)" ≠ parse "set(bpm=100)") ∧
    (parse "pan(t, amount=0.00001)" = .ok [.pan "t" (1 / 100000)] ∧
      from_yaml [.pan "t" (1 / 100000)] = "pan(t, amount=1e-05)" ∧
      roundTrip "pan(t, amount=0.00001)" =
        .error (.syntaxErr "pan" "pan(t, amount=1e-05)")) := by
  have hq : decValue ['0'] ['0', '0', '0', '0', '1'] = 1 / 100000 := by
    norm_num [decValue, natOfDigits, show '1'.toNat - '0'.toNat = 1 from rfl]
  have hpar : parse "pan(t, amount=0.00001)" = .ok [.pan "t" (1 / 100000)] := by
    rw [show parse "pan(t, amount=0.00001)" =
      .ok [.pan "t" (decValue ['0'] ['0', '0', '0', '0', '1'])] from rfl, hq]
  have hstr : pyStr (1 / 100000) = "1e-05".data :=
    of_decide_eq_true (by with_unfolding_all rfl)
  have hcat : emitCmd (.pan "t" (1 / 100000)) = "pan(t, amount=1e-05)".data := by
    rw [show emitCmd (.pan "t" (1 / 100000)) =
      "pan(".data ++ "t".data ++ ", amount=".data ++ pyStr (1 / 100000) ++
        ")".data from rfl, hstr]
    decide
  have hfy : from_yaml [.pan "t" (1 / 100000)] = "pan(t, amount=1e-05)" := by
    show (⟨joinLines [emitCmd (.pan "t" (1 / 100000))]⟩ : String) = _
    rw [show joinLines [emitCmd (.pan "t" (1 / 100000))] =
      emitCmd (.pan "t" (1 / 100000)) from rfl, hcat]
  have hre : parse "pan(t, amount=1e-05)" =
      .error (.syntaxErr "pan" "pan(t, amount=1e-05)") := by decide
  refine ⟨⟨by decide, by decide, by decide⟩, hpar, hfy, ?_⟩
  unfold roundTrip to_yaml
  rw [hpar]
  show parse (from_yaml [.pan "t" (1 / 100000)]) = _
  rw [hfy]
  exact hre

/-- C1 amended: for every text accepted by `parse` in which every `set`
command supplies both its `bpm` and its `key` field and every float
parameter (`pan`/`normalize`/`reverb`) lies in `str`'s positional-notation
range, the round trip `parse (from_yaml (to_yaml text))` yields the same
command sequence as `parse text`.  (Outside that range `str(float)` emits
scientific notation and the emitted line does not reparse.) -/
theorem C1_roundtrip_amended (text : String) (cs : List Cmd)
    (h : parse text = .ok cs) (hsc : ∀ cmd ∈ cs, setComplete cmd)
    (hfl : ∀ cmd ∈ cs, floatPositional cmd) :
    roundTrip text = .ok cs := by
  unfold roundTrip to_yaml
  rw [h]
  exact parse_from_yaml cs
    (fun cmd hc =>
      (emit_reparse cmd (parse_wf text cs h cmd hc) (hsc cmd hc) (hfl cmd hc)).2)
    (fun cmd hc =>
      (emit_reparse cmd (parse_wf text cs h cmd hc) (hsc cmd hc) (hfl cmd hc)).1)

/-- Witness for C1: a concrete five-command script round-trips to its own
parse result. -/
theorem C1_roundtrip_amended_witness :
    roundTrip "set(bpm=90, key=\"F\")\nload drums from \"kick.wav\"\nloop(drums, bars=4)\ngain(drums, -3)\nexport(\"mix.wav\")" =
      .ok [.set (some 90) (some "F"), .load "drums" "kick.wav",
        .loop "drums" 4, .gain "drums" (-3), .exportCmd "mix.wav"] :=
  C1_roundtrip_amended _ _ (by decide)
    (by
      intro cmd hc
      rcases List.mem_cons.mp hc with rfl | hc
      · exact ⟨rfl, rfl⟩
      rcases List.mem_cons.mp hc with rfl | hc
      · trivial
      rcases List.mem_cons.mp hc with rfl | hc
      · trivial
      rcases List.mem_cons.mp hc with rfl | hc
      · trivial
      rcases List.mem_singleton.mp hc with rfl
      trivial)
    (by
      intro cmd hc
      rcases List.mem_cons.mp hc with rfl | hc
      · trivial
      rcases List.mem_cons.mp hc with rfl | hc
      · trivial
      rcases List.mem_cons.mp hc with rfl | hc
      · trivial
      rcases List.mem_cons.mp hc with rfl | hc
      · trivial
      rcases List.mem_singleton.mp hc with rfl
      trivial)

/-! ## Claim C3: the beat command -/

/-- C3: `parse` has no branch for the `beat` verb, so both scenario lines of
the spec (and of `src/tests/test_beat.py`) are rejected with
`UnknownCommandError` instead of producing beat commands. -/
theorem C3_beat_unknown :
    parse "beat(drums, style=\"hiphop\", bars=3)" =
        .error (.unknownCmd "beat(drums, style=\"hiphop\", bars=3)") ∧
      parse "beat(groove, bars=2)" = .error (.unknownCmd "beat(groove, bars=2)") := by
  decide

/-! ## Claim C4: the error contract of `parse` -/

/-- The prefixes `parse` dispatches on with `startswith`, in source order. -/
def dispatchPrefixes : List String :=
  ["set(", "load", "loop", "gain", "fadeIn", "fadeOut", "slice", "reverse",
    "pan", "normalize", "reverb", "export"]

/-- C4 counterexample: the leading token of `loopy(x, bars=2)` is `loopy`,
which is no known verb, yet `parse` reports a SyntaxError naming `loop`
rather than an UnknownCommandError: dispatch is by `startswith`, not by the
leading token. -/
theorem C4_dispatch_counterexample :
    (⟨leadingToken "loopy(x, bars=2)".data⟩ : String) ∉ knownVerbs ∧
      parse "loopy(x, bars=2)" = .error (.syntaxErr "loop" "loopy(x, bars=2)") := by
  decide

/-- C4 amended: for a stripped non-blank non-comment line, if no dispatch
prefix matches by `startswith` the error is `UnknownCommandError` naming the
stripped line, and every `SyntaxError` raised names the stripped line and a
verb the stripped line starts with. -/
theorem C4_error_contract (l : List Char)
    (hne : ¬ (stripL l).isEmpty = true)
    (hh : ¬ (stripL l).head? = some '#') :
    ((∀ p ∈ dispatchPrefixes, swCh p.data (stripL l) = false) →
      parseLine l = .error (.unknownCmd ⟨stripL l⟩)) ∧
    (∀ v line, parseLine l = .error (.syntaxErr v line) →
      line = ⟨stripL l⟩ ∧ swCh v.data (stripL l) = true) := by
  constructor
  · intro hall
    unfold parseLine
    rw [if_neg hne, if_neg hh,
      if_neg (by simp [hall "set(" (by decide)]),
      if_neg (by simp [hall "load" (by decide)]),
      if_neg (by simp [hall "loop" (by decide)]),
      if_neg (by simp [hall "gain" (by decide)]),
      if_neg (by simp [hall "fadeIn" (by decide)]),
      if_neg (by simp [hall "fadeOut" (by decide)]),
      if_neg (by simp [hall "slice" (by decide)]),
      if_neg (by simp [hall "reverse" (by decide)]),
      if_neg (by simp [hall "pan" (by decide)]),
      if_neg (by simp [hall "normalize" (by decide)]),
      if_neg (by simp [hall "reverb" (by decide)]),
      if_neg (by simp [hall "export" (by decide)])]
  · intro v line h
    unfold parseLine at h
    by_cases h1 : (stripL l).isEmpty
    · rw [if_pos h1] at h; simp at h
    rw [if_neg h1] at h
    by_cases h2 : (stripL l).head? = some '#'
    · rw [if_pos h2] at h; simp at h
    rw [if_neg h2] at h
    by_cases h3 : swCh "set(".data (stripL l)
    · rw [if_pos h3] at h; simp at h
    rw [if_neg h3] at h
    by_cases h4 : swCh "load".data (stripL l)
    · rw [if_pos h4] at h
      rcases hm : mLoad (stripL l) with _ | ⟨t, f⟩ <;> rw [hm] at h
      · simp only [Except.error.injEq, PErr.syntaxErr.injEq] at h
        obtain ⟨rfl, rfl⟩ := h
        exact ⟨rfl, h4⟩
      · simp at h
    rw [if_neg h4] at h
    by_cases h5 : swCh "loop".data (stripL l)
    · rw [if_pos h5] at h
      rcases hm : mLoop (stripL l) with _ | ⟨t, n⟩ <;> rw [hm] at h
      · simp only [Except.error.injEq, PErr.syntaxErr.injEq] at h
        obtain ⟨rfl, rfl⟩ := h
        exact ⟨rfl, h5⟩
      · simp at h
    rw [if_neg h5] at h
    by_cases h6 : swCh "gain".data (stripL l)
    · rw [if_pos h6] at h
      rcases hm : mGain (stripL l) with _ | ⟨t, i⟩ <;> rw [hm] at h
      · simp only [Except.error.injEq, PErr.syntaxErr.injEq] at h
        obtain ⟨rfl, rfl⟩ := h
        exact ⟨rfl, h6⟩
      · simp at h
    rw [if_neg h6] at h
    by_cases h7 : swCh "fadeIn".data (stripL l)
    · rw [if_pos h7] at h
      rcases hm : mFade "fadeIn(".data (stripL l) with _ | ⟨t, n⟩ <;> rw [hm] at h
      · simp only [Except.error.injEq, PErr.syntaxErr.injEq] at h
        obtain ⟨rfl, rfl⟩ := h
        exact ⟨rfl, h7⟩
      · simp at h
    rw [if_neg h7] at h
    by_cases h8 : swCh "fadeOut".data (stripL l)
    · rw [if_pos h8] at h
      rcases hm : mFade "fadeOut(".data (stripL l) with _ | ⟨t, n⟩ <;> rw [hm] at h
      · simp only [Except.error.injEq, PErr.syntaxErr.injEq] at h
        obtain ⟨rfl, rfl⟩ := h
        exact ⟨rfl, h8⟩
      · simp at h
    rw [if_neg h8] at h
    by_cases h9 : swCh "slice".data (stripL l)
    · rw [if_pos h9] at h
      rcases hm : mSlice (stripL l) with _ | ⟨t, a, d⟩ <;> rw [hm] at h
      · simp only [Except.error.injEq, PErr.syntaxErr.injEq] at h
        obtain ⟨rfl, rfl⟩ := h
        exact ⟨rfl, h9⟩
      · simp at h
    rw [if_neg h9] at h
    by_cases h10 : swCh "reverse".data (stripL l)
    · rw [if_pos h10] at h
      rcases hm : mReverse (stripL l) with _ | t <;> rw [hm] at h
      · simp only [Except.error.injEq, PErr.syntaxErr.injEq] at h
        obtain ⟨rfl, rfl⟩ := h
        exact ⟨rfl, h10⟩
      · simp at h
    rw [if_neg h10] at h
    by_cases h11 : swCh "pan".data (stripL l)
    · rw [if_pos h11] at h
      rcases hm : mPan (stripL l) with _ | ⟨t, tok⟩ <;> rw [hm] at h
      · simp only [Except.error.injEq, PErr.syntaxErr.injEq] at h
        obtain ⟨rfl, rfl⟩ := h
        exact ⟨rfl, h11⟩
      · simp only [] at h
        rcases hq : pyFloatOfChars tok with _ | q <;> rw [hq] at h <;> simp at h
    rw [if_neg h11] at h
    by_cases h12 : swCh "normalize".data (stripL l)
    · rw [if_pos h12] at h
      rcases hm : mNormalizeA (stripL l) with _ | ⟨t, tok⟩ <;> rw [hm] at h
      · rcases hmB : mNormalizeB (stripL l) with _ | t <;> rw [hmB] at h
        · simp only [Except.error.injEq, PErr.syntaxErr.injEq] at h
          obtain ⟨rfl, rfl⟩ := h
          exact ⟨rfl, h12⟩
        · simp at h
      · simp only [] at h
        rcases hq : pyFloatOfChars tok with _ | q <;> rw [hq] at h <;> simp at h
    rw [if_neg h12] at h
    by_cases h13 : swCh "reverb".data (stripL l)
    · rw [if_pos h13] at h
      rcases hm : mReverb (stripL l) with _ | ⟨t, tok⟩ <;> rw [hm] at h
      · simp only [Except.error.injEq, PErr.syntaxErr.injEq] at h
        obtain ⟨rfl, rfl⟩ := h
        exact ⟨rfl, h13⟩
      · simp only [] at h
        rcases hq : pyFloatOfChars tok with _ | q <;> rw [hq] at h <;> simp at h
    rw [if_neg h13] at h
    by_cases h14 : swCh "export".data (stripL l)
    · rw [if_pos h14] at h
      rcases hm : mExport (stripL l) with _ | f <;> rw [hm] at h
      · simp only [Except.error.injEq, PErr.syntaxErr.injEq] at h
        obtain ⟨rfl, rfl⟩ := h
        exact ⟨rfl, h14⟩
      · simp at h
    rw [if_neg h14] at h
    simp at h

/-- Witness for C4: a line starting with no known prefix is rejected as an
unknown command. -/
theorem C4_error_contract_witness :
    parseLine "bogus(x)".data = .error (.unknownCmd "bogus(x)") :=
  (C4_error_contract "bogus(x)".data (by decide) (by decide)).1 (by decide)

/-! ## The audio model: pydub `AudioSegment` and `fx.py`

A segment is mono 16-bit audio: a frame rate and a list of sample values.
Python's float arithmetic on durations is modelled exactly (the quantities
involved are exact in source and the claims are about their exact values);
`round` is Python 3 `round` (banker's rounding) and `int` truncates toward
zero, which on the non-negative quantities below is floor, so every duration
computation lands in `Nat` with explicit `%`/`/`. -/

structure Seg where
  frameRate : Nat
  data : List Int
  deriving DecidableEq

/-- Python 3 `round (a / b)` for naturals (half to even), as pydub's
`__len__` uses it via `duration_seconds`. -/
def pyRoundNat (a b : Nat) : Nat :=
  let q := a / b
  let r := a % b
  if 2 * r < b then q
  else if b < 2 * r then q + 1
  else if q % 2 = 0 then q else q + 1

/-- `len(segment)` of pydub: `round(frame_count / frame_rate * 1000)`. -/
def lenMs (s : Seg) : Nat := pyRoundNat (1000 * s.data.length) s.frameRate

/-- The exact duration of a segment in milliseconds (not rounded): the
quantity the spec's §4.4 duration guarantee speaks about. -/
def durTrue (s : Seg) : ℚ := 1000 * s.data.length / s.frameRate

/-- `bar_ms = 60000 / bpm * 4` of `fx.loop` (exact value). -/
def barMs (bpm : Nat) : ℚ := 60000 / bpm * 4

/-- `segment * n` of pydub: the data repeated `n` times. -/
def repData : Nat → List Int → List Int
  | 0, _ => []
  | n + 1, d => d ++ repData n d

/-- `segment.reverse()` of pydub: the frames in reverse order. -/
def fxReverse (s : Seg) : Seg := ⟨s.frameRate, s.data.reverse⟩

/-- `out[:target_ms]` of pydub on a non-negative millisecond bound: clamp
the bound to `len(out)`, convert to a frame index by `int(ms * rate/1000)`,
take that many frames and pad with silent frames if the data runs short
(`TooManyMissingFrames` when more than `frame_count(ms=2)` frames are
missing; the padding branch is only reached with non-empty data in
`fx.loop`, so the spawned silence frame is a genuine zero frame). -/
def sliceTo (s : Seg) (endMs : Nat) : Option Seg :=
  let e := min endMs (lenMs s)
  let endFrame := e * s.frameRate / 1000
  let missing := endFrame - s.data.length
  if s.frameRate < 500 * missing then none
  else some ⟨s.frameRate, s.data.take endFrame ++ List.replicate missing 0⟩

/-- `fx.loop`: `bar_ms = 60000/bpm*4`, `target_ms = int(bar_ms*bars)`,
`repetitions = int(target_ms/len(segment) + 1)`, tile and slice.  `none` is
a raised exception: `ZeroDivisionError` when `bpm` is 0 (`60000/bpm`) or
when the rounded millisecond length of the segment is 0
(`target_ms/len(segment)`). -/
def fxLoop (s : Seg) (bars bpm : Nat) : Option Seg :=
  if bpm = 0 then none
  else
    let target := 240000 * bars / bpm
    if lenMs s = 0 then none
    else
      let reps := target / lenMs s + 1
      sliceTo ⟨s.frameRate, repData reps s.data⟩ target

/-- `AudioSegment.silent(duration, frame_rate)`:
`int(frame_rate * (duration / 1000.0))` zero frames. -/
def silentSeg (durationMs rate : Nat) : Seg :=
  ⟨rate, List.replicate (rate * durationMs / 1000) 0⟩

/-! ## The interpreter: `render.py`

`apply_commands` keeps a context dict, a track table and the recorded export
path.  The float DSP of `fx.py`/pydub that the commands delegate to
(`AudioSegment.from_file`, `apply_gain`, `fade_in`, the numpy reverb, the
preview resample and the overlay of possibly differently-sampled tracks) is
kept abstract as a record of operations; `fx.loop` is the concrete `fxLoop`
above.  `none` is a propagated Python exception. -/

/-- The context: `{'bpm': 120, 'key': 'C'}`, both fields always present. -/
structure Ctx where
  bpm : Nat
  key : String
  deriving DecidableEq

/-- The interpreter state: context, insertion-ordered track table, and the
recorded export path. -/
structure RState where
  ctx : Ctx
  tracks : List (String × Seg)
  exportFile : Option String
  deriving DecidableEq

def initState : RState := ⟨⟨120, "C"⟩, [], none⟩

/-- `dict.get` on an insertion-ordered table with unique keys. -/
def lookupA {α : Type} : List (String × α) → String → Option α
  | [], _ => none
  | (k, v) :: rest, key => if k = key then some v else lookupA rest key

/-- `dict[key] = value`: replace in place if present, else append. -/
def updateA {α : Type} : List (String × α) → String → α → List (String × α)
  | [], key, v => [(key, v)]
  | (k, w) :: rest, key, v =>
    if k = key then (k, v) :: rest else (k, w) :: updateA rest key v

/-- The operations `apply_commands` delegates to that are float DSP (or file
IO): kept abstract, the interpreter is proved for every instantiation. -/
structure FxOps where
  fromFile : String → Seg
  gainF : Seg → Int → Seg
  fadeInF : Seg → Nat → Seg
  reverbF : Seg → ℚ → Seg
  overlayF : Seg → Seg → Seg
  previewF : Seg → Seg

/-- One iteration of the command loop of `apply_commands`.  Only `set`,
`load`, `loop`, `gain`, `fadeIn`, `reverb` and `export` have branches; every
other action falls through the `elif` chain unhandled. -/
def applyCmd (ops : FxOps) (up : Option String) (st : RState) : Cmd → Option RState
  | .set b k => some { st with ctx := ⟨b.getD st.ctx.bpm, k.getD st.ctx.key⟩ }
  | .load tr f =>
    let path := match up with
      | some u => if f = "uploaded" ∧ ¬ u = "" then u else f
      | none => f
    some { st with tracks := updateA st.tracks tr (ops.fromFile path) }
  | .loop tr bars =>
    match lookupA st.tracks tr with
    | none => some st
    | some seg =>
      match fxLoop seg bars st.ctx.bpm with
      | none => none
      | some out => some { st with tracks := updateA st.tracks tr out }
  | .gain tr db =>
    match lookupA st.tracks tr with
    | none => some st
    | some seg => some { st with tracks := updateA st.tracks tr (ops.gainF seg db) }
  | .fadeIn tr s =>
    match lookupA st.tracks tr with
    | none => some st
    | some seg => some { st with tracks := updateA st.tracks tr (ops.fadeInF seg s) }
  | .reverb tr amt =>
    match lookupA st.tracks tr with
    | none => some st
    | some seg => some { st with tracks := updateA st.tracks tr (ops.reverbF seg amt) }
  | .exportCmd f => some { st with exportFile := some f }
  | _ => some st

/-- The command loop. -/
def foldCmds (ops : FxOps) (up : Option String) : List Cmd → RState → Option RState
  | [], st => some st
  | c :: rest, st =>
    match applyCmd ops up st c with
    | none => none
    | some st2 => foldCmds ops up rest st2

/-- The mixing loop: overlay the bound buffers in table order, or one second
of silence (`AudioSegment.silent(duration=1000)`, default 11025 Hz) when no
track is bound. -/
def mixTracks (ops : FxOps) : List (String × Seg) → Seg
  | [] => silentSeg 1000 11025
  | (_, s) :: rest => rest.foldl (fun acc p => ops.overlayF acc p.2) s

/-- What `apply_commands` returns: an exported path (with the buffer that was
written to it) or the buffer itself. -/
inductive RenderResult where
  | path (p : String) (written : Seg)
  | buffer (s : Seg)
  deriving DecidableEq

/-- `apply_commands(commands, uploaded_path, preview)`. -/
def applyCommands (ops : FxOps) (up : Option String) (preview : Bool)
    (cmds : List Cmd) : Option RenderResult :=
  match foldCmds ops up cmds initState with
  | none => none
  | some st =>
    let mix := mixTracks ops st.tracks
    if preview then some (.buffer (ops.previewF mix))
    else
      match st.exportFile with
      | some f => if f = "" then some (.buffer mix) else some (.path f mix)
      | none => some (.buffer mix)

/-- The effect one command has on the recorded export path. -/
def cmdExportEffect (c : Cmd) (prev : Option String) : Option String :=
  match c with
  | .exportCmd f => some f
  | _ => prev

/-- The file of the last `export` command of a sequence, if any. -/
def lastExport : List Cmd → Option String
  | [] => none
  | c :: rest => (lastExport rest).or (cmdExportEffect c none)

/-- A concrete instantiation of the abstract operations, for evaluating the
interpreter on closed inputs. -/
def sampleOps : FxOps where
  fromFile _ := ⟨8000, [1, 2]⟩
  gainF s _ := s
  fadeInF s _ := s
  reverbF s _ := s
  overlayF a _ := a
  previewF s := s

/-! ## `generate_beat` of `fx.py`

The synthesized drum kit (`_kick`/`_snare`/`_hat`: numpy sine/noise DSP) and
the final `normalize` are float DSP and stay abstract; the pattern grids,
the silent canvas, the step positions and the overlay loop are concrete.
The kit is synthesized at the beat's own frame rate, so the overlays need no
resampling (`AudioSegment._sync` is the identity on equal rates, widths and
channel counts). -/

/-- Saturating 16-bit addition: `audioop.add` clamps to the sample range. -/
def satAdd16 (a b : Int) : Int := min 32767 (max (-32768) (a + b))

/-- Pairwise saturating addition of the second list into the first; frames
of the base beyond the sample are kept, frames of the sample beyond the base
are dropped (pydub `overlay` never extends the base). -/
def addInto : List Int → List Int → List Int
  | b, [] => b
  | [], _ => []
  | x :: xs, y :: ys => satAdd16 x y :: addInto xs ys

/-- `base.overlay(sample, position=posMs)`: convert the position to a frame
index and add the sample in, saturating. -/
def overlayAt (base sample : Seg) (posMs : Nat) : Seg :=
  let p := posMs * base.frameRate / 1000
  ⟨base.frameRate, base.data.take p ++ addInto (base.data.drop p) sample.data⟩

/-- The `house` grid of `BEAT_PATTERNS`. -/
def housePattern : List (String × List Nat) :=
  [("kick",  [1, 0, 0, 0, 1, 0, 0, 0, 1, 0, 0, 0, 1, 0, 0, 0]),
   ("snare", [0, 0, 0, 0, 1, 0, 0, 0, 0, 0, 0, 0, 1, 0, 0, 0]),
   ("hat",   [0, 1, 0, 1, 0, 1, 0, 1, 0, 1, 0, 1, 0, 1, 0, 1])]

/-- The `hiphop` grid of `BEAT_PATTERNS`. -/
def hiphopPattern : List (String × List Nat) :=
  [("kick",  [1, 0, 0, 0, 0, 0, 1, 0, 0, 0, 0, 1, 0, 0, 1, 0]),
   ("snare", [0, 0, 0, 0, 1, 0, 0, 0, 0, 0, 0, 0, 1, 0, 0, 0]),
   ("hat",   [0, 1, 0, 0, 1, 0, 0, 1, 0, 1, 0, 0, 1, 0, 0, 1])]

/-- The `breakbeat` grid of `BEAT_PATTERNS`. -/
def breakbeatPattern : List (String × List Nat) :=
  [("kick",  [1, 0, 0, 1, 0, 0, 1, 0, 1, 0, 0, 1, 0, 1, 0, 0]),
   ("snare", [0, 0, 1, 0, 0, 1, 0, 0, 0, 0, 1, 0, 0, 1, 0, 0]),
   ("hat",   [0, 1, 1, 1, 0, 1, 1, 1, 0, 1, 1, 1, 0, 1, 1, 1])]

/-- `BEAT_PATTERNS`. -/
def BEAT_PATTERNS : List (String × List (String × List Nat)) :=
  [("house", housePattern), ("hiphop", hiphopPattern),
   ("breakbeat", breakbeatPattern)]

/-- The inner step loop of `generate_beat` for one instrument and one bar:
overlay the sample at `int((bar*steps_per_bar + step) * step_ms)`, where
`step_ms = 60000/bpm*4/steps_per_bar`, skipping inactive steps. -/
def stepFold (sample : Seg) (bpm spb bar : Nat) :
    List Nat → Nat → Seg → Seg
  | [], _, b => b
  | a :: rest, i, b =>
    let b2 := if a = 0 then b
      else overlayAt b sample ((bar * spb + i) * 240000 / (bpm * spb))
    stepFold sample bpm spb bar rest (i + 1) b2

/-- The bar loop of `generate_beat` for one instrument. -/
def barFold (sample : Seg) (bpm spb bars : Nat) (steps : List Nat) (b : Seg) : Seg :=
  (List.range bars).foldl (fun acc bar => stepFold sample bpm spb bar steps 0 acc) b

/-- `generate_beat(style, bars, bpm, frame_rate)` with the kit and the final
`normalize(…, headroom=1.5)` abstract.  `.error` is a raised exception:
the explicit `ValueError` for `bars <= 0`, or `ZeroDivisionError` when
`bpm` is 0 (`60000 / bpm`). -/
def generateBeat (kit : String → Seg) (normF : Seg → ℚ → Seg)
    (style : String) (bars bpm rate : Nat) : Except String Seg :=
  if bars = 0 then .error "bars must be positive for beat generation"
  else if bpm = 0 then .error "division by zero"
  else
    let pattern := (lookupA BEAT_PATTERNS style).getD housePattern
    let spb := match pattern with
      | [] => 0
      | p :: _ => p.2.length
    let totalMs := 240000 * bars / bpm
    let beat := pattern.foldl
      (fun b q => barFold (kit q.1) bpm spb bars q.2 b)
      (silentSeg (totalMs + 5) rate)
    .ok (normF beat (3 / 2))

/-! ### Arithmetic facts about the model -/

theorem pyRoundNat_ub (a b : Nat) (hb : 1 ≤ b) :
    2 * b * pyRoundNat a b ≤ 2 * a + b := by
  have he : b * (a / b) + a % b = a := Nat.div_add_mod a b
  have hm : a % b < b := Nat.mod_lt _ hb
  simp only [pyRoundNat]
  split
  · nlinarith [Nat.zero_le (a % b)]
  · split
    · nlinarith
    · split
      · nlinarith [Nat.zero_le (a % b)]
      · nlinarith

theorem pyRoundNat_lb (a b : Nat) (hb : 1 ≤ b) :
    2 * a ≤ 2 * b * pyRoundNat a b + b := by
  have he : b * (a / b) + a % b = a := Nat.div_add_mod a b
  have hm : a % b < b := Nat.mod_lt _ hb
  simp only [pyRoundNat]
  split
  · nlinarith
  · split
    · nlinarith
    · split
      · nlinarith
      · nlinarith

theorem pyRoundNat_zero (b : Nat) : pyRoundNat 0 b = 0 := by
  simp only [pyRoundNat]
  simp [Nat.zero_div, Nat.zero_mod]

theorem repData_length (k : Nat) (d : List Int) :
    (repData k d).length = k * d.length := by
  induction k with
  | zero => simp [repData]
  | succ m ih => simp [repData, ih]; ring

/-- The `TooManyMissingFrames` branch of the slice is unreachable: the
clamped millisecond bound can overshoot the frame count by at most half a
millisecond of frames, far below the two-millisecond allowance. -/
theorem sliceTo_isSome (s : Seg) (endMs : Nat) (hr : 1 ≤ s.frameRate) :
    (sliceTo s endMs).isSome = true := by
  unfold sliceTo
  set r := s.frameRate with hrdef
  set f := s.data.length with hfdef
  set e := min endMs (lenMs s) with hedef
  set endFrame := e * r / 1000 with henddef
  have h1 : 2 * r * lenMs s ≤ 2 * (1000 * f) + r := pyRoundNat_ub _ _ hr
  have h2 : endFrame * 1000 ≤ e * r := Nat.div_mul_le_self _ 1000
  have h3 : e * r ≤ lenMs s * r :=
    Nat.mul_le_mul_right r (min_le_right _ _)
  have h4 : 2000 * endFrame ≤ 2 * (1000 * f) + r := by
    calc 2000 * endFrame = 2 * (endFrame * 1000) := by ring
      _ ≤ 2 * (e * r) := Nat.mul_le_mul_left 2 h2
      _ ≤ 2 * (lenMs s * r) := Nat.mul_le_mul_left 2 h3
      _ = 2 * r * lenMs s := by ring
      _ ≤ 2 * (1000 * f) + r := h1
  rw [if_neg (by omega)]
  rfl

/-! ## Claim C5: effect commands on unbound tracks are no-ops -/

/-- C5: every effect command naming a track that is not bound in the track
table leaves the state (context, track table and export path) unchanged and
raises no error: the four handled effects fall through their `is not None`
guard and the remaining effect verbs have no branch at all. -/
theorem C5_unbound_noop (ops : FxOps) (up : Option String) (st : RState)
    (tr : String) (h : lookupA st.tracks tr = none) :
    (∀ bars, applyCmd ops up st (.loop tr bars) = some st) ∧
    (∀ db, applyCmd ops up st (.gain tr db) = some st) ∧
    (∀ sec, applyCmd ops up st (.fadeIn tr sec) = some st) ∧
    (∀ amt, applyCmd ops up st (.reverb tr amt) = some st) ∧
    (∀ sec, applyCmd ops up st (.fadeOut tr sec) = some st) ∧
    (∀ a d, applyCmd ops up st (.slice tr a d) = some st) ∧
    applyCmd ops up st (.reverse tr) = some st ∧
    (∀ amt, applyCmd ops up st (.pan tr amt) = some st) ∧
    (∀ hd, applyCmd ops up st (.normalize tr hd) = some st) := by
  refine ⟨fun bars => ?_, fun db => ?_, fun sec => ?_, fun amt => ?_,
    fun sec => rfl, fun a d => rfl, rfl, fun amt => rfl, fun hd => rfl⟩ <;>
    simp [applyCmd, h]

/-- Witness for C5: a loop on the empty initial track table is a no-op. -/
theorem C5_unbound_noop_witness :
    applyCmd sampleOps none initState (.loop "drums" 4) = some initState :=
  (C5_unbound_noop sampleOps none initState "drums" rfl).1 4

/-! ## Claim C8: the execution context -/

/-- C8: the context starts as `bpm=120, key="C"`; a `set` overwrites exactly
the fields it supplies; no other command changes the context. -/
theorem C8_context (ops : FxOps) (up : Option String) :
    initState.ctx = ⟨120, "C"⟩ ∧
    (∀ st b k, applyCmd ops up st (.set b k) =
        some { st with ctx := ⟨b.getD st.ctx.bpm, k.getD st.ctx.key⟩ }) ∧
    (∀ st st2 cmd, (∀ b k, ¬ cmd = .set b k) →
        applyCmd ops up st cmd = some st2 → st2.ctx = st.ctx) := by
  refine ⟨rfl, fun st b k => rfl, fun st st2 cmd hns h => ?_⟩
  cases cmd with
  | set b k => exact absurd rfl (hns b k)
  | load tr f =>
    simp only [applyCmd, Option.some.injEq] at h
    subst h
    rfl
  | loop tr bars =>
    simp only [applyCmd] at h
    rcases hl : lookupA st.tracks tr with _ | seg <;> rw [hl] at h
    · injection h with h
      subst h
      rfl
    · simp only [] at h
      rcases hf : fxLoop seg bars st.ctx.bpm with _ | out <;> rw [hf] at h
      · simp at h
      · injection h with h
        subst h
        rfl
  | gain tr db =>
    simp only [applyCmd] at h
    rcases hl : lookupA st.tracks tr with _ | seg <;> rw [hl] at h <;>
      simp only [] at h <;> injection h with h <;> subst h <;> rfl
  | fadeIn tr sec =>
    simp only [applyCmd] at h
    rcases hl : lookupA st.tracks tr with _ | seg <;> rw [hl] at h <;>
      simp only [] at h <;> injection h with h <;> subst h <;> rfl
  | reverb tr amt =>
    simp only [applyCmd] at h
    rcases hl : lookupA st.tracks tr with _ | seg <;> rw [hl] at h <;>
      simp only [] at h <;> injection h with h <;> subst h <;> rfl
  | fadeOut tr sec => injection h with h; subst h; rfl
  | slice tr a d => injection h with h; subst h; rfl
  | reverse tr => injection h with h; subst h; rfl
  | pan tr amt => injection h with h; subst h; rfl
  | normalize tr hd => injection h with h; subst h; rfl
  | exportCmd f => injection h with h; subst h; rfl

/-- Witness for C8: a `set` that supplies only `bpm` keeps the key. -/
theorem C8_context_witness :
    applyCmd sampleOps none initState (.set (some 90) none) =
      some { initState with ctx := ⟨90, "C"⟩ } :=
  (C8_context sampleOps none).2.1 initState (some 90) none

/-! ## Claim C2: effect verbs on bound tracks -/

/-- C2 counterexample: `reverse(t)` on a bound track leaves the binding
untouched (the interpreter has no branch for it), although the Operations
Library's `reverse` maps the bound buffer to a different buffer: the claim
fails for six of the ten listed verbs. -/
theorem C2_reverse_counterexample :
    foldCmds sampleOps none [.load "t" "f.wav", .reverse "t"] initState =
        some ⟨⟨120, "C"⟩, [("t", ⟨8000, [1, 2]⟩)], none⟩ ∧
      fxReverse ⟨8000, [1, 2]⟩ ≠ ⟨8000, [1, 2]⟩ :=
  ⟨rfl, by decide⟩

/-- C2 amended: on a bound track, `loop`, `gain`, `fadeIn` and `reverb`
replace the binding with the corresponding `fx` result (`loop` propagating
its possible `ZeroDivisionError`); `fadeOut`, `slice`, `reverse`, `pan` and
`normalize` have no interpreter branch and leave the state unchanged
(`lowPass` does not even parse). -/
theorem C2_effects_amended (ops : FxOps) (up : Option String) (st : RState)
    (tr : String) (seg : Seg) (h : lookupA st.tracks tr = some seg) :
    (∀ bars, applyCmd ops up st (.loop tr bars) =
        (fxLoop seg bars st.ctx.bpm).map
          (fun out => { st with tracks := updateA st.tracks tr out })) ∧
    (∀ db, applyCmd ops up st (.gain tr db) =
        some { st with tracks := updateA st.tracks tr (ops.gainF seg db) }) ∧
    (∀ sec, applyCmd ops up st (.fadeIn tr sec) =
        some { st with tracks := updateA st.tracks tr (ops.fadeInF seg sec) }) ∧
    (∀ amt, applyCmd ops up st (.reverb tr amt) =
        some { st with tracks := updateA st.tracks tr (ops.reverbF seg amt) }) ∧
    (∀ sec, applyCmd ops up st (.fadeOut tr sec) = some st) ∧
    (∀ a d, applyCmd ops up st (.slice tr a d) = some st) ∧
    applyCmd ops up st (.reverse tr) = some st ∧
    (∀ amt, applyCmd ops up st (.pan tr amt) = some st) ∧
    (∀ hd, applyCmd ops up st (.normalize tr hd) = some st) := by
  refine ⟨fun bars => ?_, fun db => ?_, fun sec => ?_, fun amt => ?_,
    fun sec => rfl, fun a d => rfl, rfl, fun amt => rfl, fun hd => rfl⟩
  · simp only [applyCmd, h]
    rcases hf : fxLoop seg bars st.ctx.bpm with _ | out <;> simp [hf]
  · simp [applyCmd, h]
  · simp [applyCmd, h]
  · simp [applyCmd, h]

/-- Witness for C2: a gain on a bound track rebinds it to the operation's
result. -/
theorem C2_effects_amended_witness :
    applyCmd sampleOps none ⟨⟨120, "C"⟩, [("t", ⟨8000, [1, 2]⟩)], none⟩
        (.gain "t" 3) =
      some ⟨⟨120, "C"⟩, [("t", sampleOps.gainF ⟨8000, [1, 2]⟩ 3)], none⟩ :=
  (C2_effects_amended sampleOps none ⟨⟨120, "C"⟩, [("t", ⟨8000, [1, 2]⟩)], none⟩
    "t" ⟨8000, [1, 2]⟩ rfl).2.1 3

/-! ## Claim C9: unknown beat styles fall back to house -/

/-- C9: a style string absent from `BEAT_PATTERNS` raises nothing: the
`.get(style, BEAT_PATTERNS["house"])` fallback makes `generate_beat` return
exactly the beat it synthesizes for `house`, and with positive `bars` and
`bpm` the call succeeds. -/
theorem C9_style_fallback (kit : String → Seg) (normF : Seg → ℚ → Seg)
    (style : String) (bars bpm rate : Nat)
    (h : lookupA BEAT_PATTERNS style = none) :
    generateBeat kit normF style bars bpm rate =
        generateBeat kit normF "house" bars bpm rate ∧
      (1 ≤ bars → 1 ≤ bpm →
        ∃ s, generateBeat kit normF style bars bpm rate = .ok s) := by
  have hH : lookupA BEAT_PATTERNS "house" = some housePattern := rfl
  constructor
  · unfold generateBeat
    rw [h, hH]
    rfl
  · intro hb hp
    unfold generateBeat
    rw [if_neg (by omega), if_neg (by omega)]
    exact ⟨_, rfl⟩

/-- Witness for C9: the style `techno` is undefined and synthesizes the
house beat. -/
theorem C9_style_fallback_witness :
    generateBeat (fun _ => ⟨44100, []⟩) (fun s _ => s) "techno" 1 120 44100 =
      generateBeat (fun _ => ⟨44100, []⟩) (fun s _ => s) "house" 1 120 44100 :=
  (C9_style_fallback _ _ "techno" 1 120 44100 (by decide)).1

/-! ## Claim C6: export and the returned value -/

theorem applyCmd_exportFile (ops : FxOps) (up : Option String) (st : RState)
    (c : Cmd) (st2 : RState) (h : applyCmd ops up st c = some st2) :
    st2.exportFile = cmdExportEffect c st.exportFile := by
  cases c with
  | set b k => injection h with h; subst h; rfl
  | load tr f =>
    simp only [applyCmd, Option.some.injEq] at h
    subst h
    rfl
  | loop tr bars =>
    simp only [applyCmd] at h
    rcases hl : lookupA st.tracks tr with _ | seg <;> rw [hl] at h
    · injection h with h
      subst h
      rfl
    · simp only [] at h
      rcases hf : fxLoop seg bars st.ctx.bpm with _ | out <;> rw [hf] at h
      · simp at h
      · injection h with h
        subst h
        rfl
  | gain tr db =>
    simp only [applyCmd] at h
    rcases hl : lookupA st.tracks tr with _ | seg <;> rw [hl] at h <;>
      simp only [] at h <;> injection h with h <;> subst h <;> rfl
  | fadeIn tr sec =>
    simp only [applyCmd] at h
    rcases hl : lookupA st.tracks tr with _ | seg <;> rw [hl] at h <;>
      simp only [] at h <;> injection h with h <;> subst h <;> rfl
  | reverb tr amt =>
    simp only [applyCmd] at h
    rcases hl : lookupA st.tracks tr with _ | seg <;> rw [hl] at h <;>
      simp only [] at h <;> injection h with h <;> subst h <;> rfl
  | fadeOut tr sec => injection h with h; subst h; rfl
  | slice tr a d => injection h with h; subst h; rfl
  | reverse tr => injection h with h; subst h; rfl
  | pan tr amt => injection h with h; subst h; rfl
  | normalize tr hd => injection h with h; subst h; rfl
  | exportCmd f => injection h with h; subst h; rfl

theorem foldCmds_exportFile (ops : FxOps) (up : Option String) :
    ∀ (cmds : List Cmd) (st st2 : RState),
      foldCmds ops up cmds st = some st2 →
      st2.exportFile = (lastExport cmds).or st.exportFile
  | [], st, st2, h => by
    injection h with h
    subst h
    rfl
  | c :: rest, st, st2, h => by
    rw [foldCmds] at h
    rcases ha : applyCmd ops up st c with _ | st1 <;> rw [ha] at h
    · simp at h
    · have hrec := foldCmds_exportFile ops up rest st1 st2 h
      have hc := applyCmd_exportFile ops up st c st1 ha
      rw [hrec, hc]
      show (lastExport rest).or _ = ((lastExport rest).or (cmdExportEffect c none)).or _
      rcases lastExport rest with _ | f
      · cases c <;> rfl
      · rfl

/-- C6 counterexample: an `export` whose path is the empty string is
recorded, yet `apply_commands` returns the buffer, not the path: the empty
path is falsy in `if export_file:`. -/
theorem C6_export_empty_counterexample :
    lastExport [Cmd.exportCmd ""] = some "" ∧
      applyCommands sampleOps none false [.exportCmd ""] =
        some (.buffer (silentSeg 1000 11025)) ∧
      ∀ p s, ¬ applyCommands sampleOps none false [.exportCmd ""] =
          some (.path p s) := by
  refine ⟨rfl, rfl, fun p s hc => ?_⟩
  rw [show applyCommands sampleOps none false [Cmd.exportCmd ""] =
    some (.buffer (silentSeg 1000 11025)) from rfl] at hc
  simp at hc

/-- C6 amended: when the command loop succeeds, the recorded export path is
the file of the last `export` command; with preview not requested the mixed
buffer is written to that path and the path is returned when it is
non-empty, and the buffer itself is returned when no `export` occurred or
the recorded path is the empty string. -/
theorem C6_export_amended (ops : FxOps) (up : Option String) (cmds : List Cmd)
    (st : RState) (h : foldCmds ops up cmds initState = some st) :
    st.exportFile = lastExport cmds ∧
    (∀ p, lastExport cmds = some p → ¬ p = "" →
      applyCommands ops up false cmds =
        some (.path p (mixTracks ops st.tracks))) ∧
    (lastExport cmds = none ∨ lastExport cmds = some "" →
      applyCommands ops up false cmds =
        some (.buffer (mixTracks ops st.tracks))) := by
  have he : st.exportFile = lastExport cmds := by
    rw [foldCmds_exportFile ops up cmds initState st h]
    rcases lastExport cmds with _ | f <;> rfl
  refine ⟨he, fun p hp hpne => ?_, fun hp => ?_⟩
  · unfold applyCommands
    rw [h]
    simp only [Bool.false_eq_true, if_false]
    rw [he, hp]
    simp [hpne]
  · unfold applyCommands
    rw [h]
    simp only [Bool.false_eq_true, if_false]
    rcases hp with hp | hp <;> rw [he, hp] <;> simp

/-- Witness for C6: a single `export("mix.wav")` returns the path with the
default silent mix. -/
theorem C6_export_amended_witness :
    applyCommands sampleOps none false [.exportCmd "mix.wav"] =
      some (.path "mix.wav" (mixTracks sampleOps [])) :=
  (C6_export_amended sampleOps none [.exportCmd "mix.wav"]
      ⟨⟨120, "C"⟩, [], some "mix.wav"⟩ rfl).2.1 "mix.wav" rfl (by decide)

/-! ## Claim C10: when `loop` is defined -/

/-- C10 counterexample: the division guarding `loop` is by the rounded
millisecond length of the buffer, not its frame count: a one-frame buffer
at 44100 Hz is non-empty yet `len(segment)` is 0 and `loop` raises
`ZeroDivisionError`, so non-emptiness is not the right precondition. -/
theorem C10_nonempty_counterexample :
    (⟨44100, [0]⟩ : Seg).data ≠ [] ∧ lenMs ⟨44100, [0]⟩ = 0 ∧
      fxLoop ⟨44100, [0]⟩ 1 120 = none := by
  decide

/-- C10 amended: for positive `bpm` and a positive frame rate, `loop`
succeeds exactly when the rounded millisecond length of the buffer is
non-zero; the empty buffer always has length 0 and so is always rejected,
but so are short non-empty buffers. -/
theorem C10_loop_total_amended (s : Seg) (bars bpm : Nat)
    (hr : 1 ≤ s.frameRate) (hbpm : 1 ≤ bpm) :
    ((fxLoop s bars bpm).isSome = true ↔ ¬ lenMs s = 0) ∧
      (s.data = [] → lenMs s = 0) := by
  constructor
  · constructor
    · intro hs hL
      unfold fxLoop at hs
      rw [if_neg (by omega), if_pos hL] at hs
      simp at hs
    · intro hL
      unfold fxLoop
      rw [if_neg (by omega : ¬ bpm = 0), if_neg hL]
      exact sliceTo_isSome _ _ hr
  · intro hd
    rw [lenMs, hd]
    exact pyRoundNat_zero _

/-- Witness for C10: a 40-frame buffer at 8000 Hz has a 5 ms rounded length
and loops successfully. -/
theorem C10_loop_total_amended_witness :
    (fxLoop ⟨8000, List.replicate 40 0⟩ 4 120).isSome = true ↔
      ¬ lenMs ⟨8000, List.replicate 40 0⟩ = 0 :=
  (C10_loop_total_amended ⟨8000, List.replicate 40 0⟩ 4 120 (by decide)
    (by decide)).1

/-! ## Claim C7: the duration of a loop -/

theorem fxLoop_eq (s : Seg) (bars bpm : Nat) (hbpm : ¬ bpm = 0)
    (hL : ¬ lenMs s = 0) :
    fxLoop s bars bpm =
      sliceTo ⟨s.frameRate,
          repData (240000 * bars / bpm / lenMs s + 1) s.data⟩
        (240000 * bars / bpm) := by
  simp only [fxLoop]
  rw [if_neg hbpm, if_neg hL]

theorem sliceTo_eq_of_le (s : Seg) (endMs : Nat)
    (hle : endMs ≤ lenMs s)
    (hframes : endMs * s.frameRate / 1000 ≤ s.data.length) :
    sliceTo s endMs =
      some ⟨s.frameRate, s.data.take (endMs * s.frameRate / 1000)⟩ := by
  simp only [sliceTo]
  rw [min_eq_left hle, Nat.sub_eq_zero_of_le hframes]
  simp

set_option maxRecDepth 4000 in
/-- C7 counterexample: a 40-frame buffer at 8000 Hz looped for one bar at
7000 bpm comes out 34 ms long while `bar_ms * bars = 240/7 ms`: the
`int()` truncations lose 2/7 ms, more than the 1/8 ms sample period. -/
theorem C7_duration_counterexample :
    (⟨8000, List.replicate 40 0⟩ : Seg).data ≠ [] ∧
      fxLoop ⟨8000, List.replicate 40 0⟩ 1 7000 =
        some ⟨8000, List.replicate 272 0⟩ ∧
      ¬ |durTrue ⟨8000, List.replicate 272 0⟩ - barMs 7000 * 1| ≤
          1000 / ((8000 : Nat) : ℚ) := by
  refine ⟨by decide, by decide, ?_⟩
  rw [show durTrue ⟨8000, List.replicate 272 0⟩ = 34 by
      simp [durTrue]; norm_num,
    show barMs 7000 * 1 = 240 / 7 by unfold barMs; norm_num]
  rw [show ((34 : ℚ) - 240 / 7) = -(2 / 7) by norm_num, abs_neg,
    abs_of_nonneg (by norm_num : (0 : ℚ) ≤ 2 / 7)]
  norm_num

/-- C7 amended: with positive `bars`, `bpm` and frame rate, a loopable
buffer (non-zero rounded millisecond length) whose rounded length does not
overstate its true duration loops to within `1 ms + one sample period` of
`bar_ms * bars`: the `int()` truncation of the target can lose up to one
millisecond and the slice truncates to a whole frame below it.  (Without
the no-overstatement hypothesis the rounded length can exceed the true
duration and the tiling falls short by several milliseconds: 5 frames at
3000 Hz round to 2 ms against a true 5/3 ms.) -/
theorem C7_loop_duration_amended (s : Seg) (bars bpm : Nat)
    (hr : 1 ≤ s.frameRate) (hbars : 1 ≤ bars) (hbpm : 1 ≤ bpm)
    (hL : ¬ lenMs s = 0)
    (hnoup : lenMs s * s.frameRate ≤ 1000 * s.data.length) :
    ∃ out, fxLoop s bars bpm = some out ∧ out.frameRate = s.frameRate ∧
      |durTrue out - barMs bpm * bars| < 1 + 1000 / (s.frameRate : ℚ) := by
  have hL1 : 1 ≤ lenMs s := Nat.one_le_iff_ne_zero.mpr hL
  have hA : 240000 * bars / bpm <
      (240000 * bars / bpm / lenMs s + 1) * lenMs s :=
    (Nat.div_lt_iff_lt_mul (by omega)).mp (Nat.lt_succ_self _)
  have hflen : (repData (240000 * bars / bpm / lenMs s + 1) s.data).length =
      (240000 * bars / bpm / lenMs s + 1) * s.data.length :=
    repData_length _ _
  have hB : (240000 * bars / bpm + 1) * s.frameRate ≤
      1000 * ((240000 * bars / bpm / lenMs s + 1) * s.data.length) := by
    calc (240000 * bars / bpm + 1) * s.frameRate
        ≤ ((240000 * bars / bpm / lenMs s + 1) * lenMs s) * s.frameRate :=
          Nat.mul_le_mul_right _ (by omega)
      _ = (240000 * bars / bpm / lenMs s + 1) * (lenMs s * s.frameRate) := by
          ring
      _ ≤ (240000 * bars / bpm / lenMs s + 1) * (1000 * s.data.length) :=
          Nat.mul_le_mul_left _ hnoup
      _ = 1000 * ((240000 * bars / bpm / lenMs s + 1) * s.data.length) := by
          ring
  have hlb : 2 * (1000 *
        ((240000 * bars / bpm / lenMs s + 1) * s.data.length)) ≤
      2 * s.frameRate *
        lenMs ⟨s.frameRate,
          repData (240000 * bars / bpm / lenMs s + 1) s.data⟩ +
        s.frameRate := by
    have h : 2 * (1000 *
          (repData (240000 * bars / bpm / lenMs s + 1) s.data).length) ≤
        2 * s.frameRate *
          lenMs ⟨s.frameRate,
            repData (240000 * bars / bpm / lenMs s + 1) s.data⟩ +
          s.frameRate := pyRoundNat_lb _ _ hr
    rw [hflen] at h
    exact h
  have hTLout : 240000 * bars / bpm ≤
      lenMs ⟨s.frameRate,
        repData (240000 * bars / bpm / lenMs s + 1) s.data⟩ := by
    by_contra hc
    push_neg at hc
    have h3n : lenMs ⟨s.frameRate,
        repData (240000 * bars / bpm / lenMs s + 1) s.data⟩ + 1 ≤
        240000 * bars / bpm := hc
    have h3 : ((lenMs ⟨s.frameRate,
        repData (240000 * bars / bpm / lenMs s + 1) s.data⟩ : ℚ) + 1) ≤
        ((240000 * bars / bpm : Nat) : ℚ) := by exact_mod_cast h3n
    have hBq : (((240000 * bars / bpm : Nat) : ℚ) + 1) * s.frameRate ≤
        1000 * (((240000 * bars / bpm / lenMs s + 1) * s.data.length : Nat) : ℚ) := by
      exact_mod_cast hB
    have hlbq : 2 * (1000 *
          (((240000 * bars / bpm / lenMs s + 1) * s.data.length : Nat) : ℚ)) ≤
        2 * (s.frameRate : ℚ) *
          (lenMs ⟨s.frameRate,
            repData (240000 * bars / bpm / lenMs s + 1) s.data⟩ : ℚ) +
          s.frameRate := by exact_mod_cast hlb
    have hrq : (1 : ℚ) ≤ s.frameRate := by exact_mod_cast hr
    have h4 : ((lenMs ⟨s.frameRate,
        repData (240000 * bars / bpm / lenMs s + 1) s.data⟩ : ℚ) + 1) *
          s.frameRate ≤
        ((240000 * bars / bpm : Nat) : ℚ) * s.frameRate :=
      mul_le_mul_of_nonneg_right h3 (by linarith)
    linarith
  have hEF : 240000 * bars / bpm * s.frameRate / 1000 ≤
      (240000 * bars / bpm / lenMs s + 1) * s.data.length := by
    have h1 : 240000 * bars / bpm * s.frameRate ≤
        1000 * ((240000 * bars / bpm / lenMs s + 1) * s.data.length) :=
      le_trans (Nat.mul_le_mul_right _ (Nat.le_succ _)) hB
    have h2 : 240000 * bars / bpm * s.frameRate / 1000 ≤
        1000 * ((240000 * bars / bpm / lenMs s + 1) * s.data.length) / 1000 :=
      Nat.div_le_div_right h1
    rwa [Nat.mul_div_cancel_left _ (by norm_num : 0 < 1000)] at h2
  have hfx : fxLoop s bars bpm =
      some ⟨s.frameRate,
        (repData (240000 * bars / bpm / lenMs s + 1) s.data).take
          (240000 * bars / bpm * s.frameRate / 1000)⟩ := by
    rw [fxLoop_eq s bars bpm (by omega) hL]
    exact sliceTo_eq_of_le _ _ hTLout (by rw [hflen]; exact hEF)
  refine ⟨_, hfx, rfl, ?_⟩
  have hlenOut : ((repData (240000 * bars / bpm / lenMs s + 1) s.data).take
      (240000 * bars / bpm * s.frameRate / 1000)).length =
      240000 * bars / bpm * s.frameRate / 1000 := by
    rw [List.length_take, hflen]
    exact min_eq_left hEF
  have hdur : durTrue ⟨s.frameRate,
      (repData (240000 * bars / bpm / lenMs s + 1) s.data).take
        (240000 * bars / bpm * s.frameRate / 1000)⟩ =
      1000 * ((240000 * bars / bpm * s.frameRate / 1000 : Nat) : ℚ) /
        s.frameRate := by
    unfold durTrue
    rw [hlenOut]
  rw [hdur]
  have hbq : barMs bpm * bars = 240000 * (bars : ℚ) / bpm := by
    unfold barMs
    rw [div_mul_eq_mul_div, div_mul_eq_mul_div]
    norm_num
  rw [hbq]
  have hr0 : (0 : ℚ) < s.frameRate := by exact_mod_cast hr
  have hb0 : (0 : ℚ) < bpm := by exact_mod_cast hbpm
  have e1n : 1000 * (240000 * bars / bpm * s.frameRate / 1000) ≤
      240000 * bars / bpm * s.frameRate := by
    generalize 240000 * bars / bpm * s.frameRate = A
    omega
  have e2n : 240000 * bars / bpm * s.frameRate <
      1000 * (240000 * bars / bpm * s.frameRate / 1000) + 1000 := by
    generalize 240000 * bars / bpm * s.frameRate = A
    omega
  have t1n : bpm * (240000 * bars / bpm) ≤ 240000 * bars := by
    have h := Nat.div_mul_le_self (240000 * bars) bpm
    calc bpm * (240000 * bars / bpm) = 240000 * bars / bpm * bpm := by ring
      _ ≤ 240000 * bars := h
  have t2n : 240000 * bars < bpm * (240000 * bars / bpm) + bpm := by
    have hdm := Nat.div_add_mod (240000 * bars) bpm
    have hml : 240000 * bars % bpm < bpm := Nat.mod_lt _ (by omega)
    omega
  have q1 : (1000 : ℚ) * ((240000 * bars / bpm * s.frameRate / 1000 : Nat) : ℚ) ≤
      ((240000 * bars / bpm : Nat) : ℚ) * s.frameRate := by exact_mod_cast e1n
  have q2 : ((240000 * bars / bpm : Nat) : ℚ) * s.frameRate <
      1000 * ((240000 * bars / bpm * s.frameRate / 1000 : Nat) : ℚ) + 1000 := by
    exact_mod_cast e2n
  have q3 : (bpm : ℚ) * ((240000 * bars / bpm : Nat) : ℚ) ≤
      240000 * bars := by exact_mod_cast t1n
  have q4 : (240000 : ℚ) * bars <
      (bpm : ℚ) * ((240000 * bars / bpm : Nat) : ℚ) + bpm := by
    exact_mod_cast t2n
  have haux1 : 1000 * ((240000 * bars / bpm * s.frameRate / 1000 : Nat) : ℚ) /
      s.frameRate ≤ ((240000 * bars / bpm : Nat) : ℚ) := by
    rw [div_le_iff hr0]
    linarith
  have haux2 : ((240000 * bars / bpm : Nat) : ℚ) ≤ 240000 * bars / (bpm : ℚ) := by
    rw [le_div_iff hb0]
    linarith
  have haux3 : 240000 * (bars : ℚ) / bpm <
      ((240000 * bars / bpm : Nat) : ℚ) + 1 := by
    rw [div_lt_iff hb0]
    linarith
  have haux4 : ((240000 * bars / bpm : Nat) : ℚ) - 1000 / s.frameRate <
      1000 * ((240000 * bars / bpm * s.frameRate / 1000 : Nat) : ℚ) /
        s.frameRate := by
    rw [sub_lt_iff_lt_add, div_add_div_same, lt_div_iff hr0]
    linarith
  have hpos : (0 : ℚ) < 1000 / s.frameRate := by positivity
  rw [abs_sub_lt_iff]
  constructor <;> linarith

/-- Witness for C7: a 40-frame buffer at 8000 Hz (rounded length 5 ms,
exactly its true duration) looped for one bar at 120 bpm. -/
theorem C7_loop_duration_amended_witness :
    ∃ out, fxLoop ⟨8000, List.replicate 40 0⟩ 1 120 = some out ∧
      out.frameRate = (⟨8000, List.replicate 40 0⟩ : Seg).frameRate ∧
      |durTrue out - barMs 120 * 1| <
        1 + 1000 / (((⟨8000, List.replicate 40 0⟩ : Seg).frameRate : Nat) : ℚ) :=
  C7_loop_duration_amended ⟨8000, List.replicate 40 0⟩ 1 120 (by decide)
    (by decide) (by decide) (by decide) (by decide)
